import Mathlib

set_option linter.unusedSectionVars false

/-! NonConvexMVU: augmented-Lagrangian driver of `non_convex_mvu_impl.h`

A shallow embedding of `fastlib2/contrib/nvasil/non_convex_mvu/non_convex_mvu_impl.h`, and of
the assertions of the test case `rosenbrock_wood_function` of `lbfgs_test.cc`.

* `double` is idealised as a linearly ordered field `K`; the definitions are computable and
  run on `ℚ`.  Statements that need a real square root instantiate `K` with `ℝ`.
* `index_t` is `ℤ` for the configuration fields (`new_dimension_`, `knns_`, ...); loop
  counters and array offsets, which are never negative inside a running loop, are `ℕ`.
* Storage (`Matrix`, `Vector`, `ArrayList`) is a flat function `ℕ → K` together with the
  declared sizes, so that a read outside the declared sizes is visible in the model.
* A `for (i = 0; i < n; i++)` loop is `forLoop n body`; the unbounded loop of `LocalSearch_`
  takes a fuel argument and returns `none` when the fuel is exhausted.
* A division by zero has no value in `K`.  The two quotients of the code,
  `.../gradient_norm` in `LocalSearch_` and `distance_constraint/sum_of_dist_square` in
  `ComputeLocalOptimum`, are guarded: with a zero divisor the comparison that uses the quotient
  is false, as it is on the `inf` and `NaN` of the code.
* Arithmetic is exact: a comparison that holds in the code only through rounding or underflow
  (such as `0 >= 0` once `armijo_factor` and the move of a trial have underflowed) does not
  hold in the model.
-/

namespace fastlib

/-- The counted loop `for (index_t i = 0; i < n; i++) body`, threading the loop state. -/
def forLoop {σ : Type} (n : ℕ) (body : ℕ → σ → σ) (s : σ) : σ :=
  (List.range n).foldl (fun acc i => body i acc) s

/-- Modelled from the spec: the dense column-major `Matrix` of fastlib (its class is not part
of the sources at hand); element `(r, c)` lives at offset `c * n_rows + r` of `ptr`. -/
structure Matrix (K : Type) where
  n_rows : ℕ
  n_cols : ℕ
  ptr : ℕ → K

/-- Modelled from the spec: the fastlib `Vector`, a length and contiguous storage. -/
structure Vector (K : Type) where
  length : ℕ
  ptr : ℕ → K

/-- Modelled from the spec: the fastlib `ArrayList`, a size and contiguous storage. -/
structure ArrayList (α : Type) where
  size : ℕ
  ptr : ℕ → α

namespace Matrix

variable {K : Type} [LinearOrderedField K]

/-- Modelled from the spec: `Matrix::Init(rows, cols)`; fresh storage is read as zero. -/
def Init (n_rows n_cols : ℕ) : Matrix K := ⟨n_rows, n_cols, fun _ => 0⟩

/-- Modelled from the spec: offset of the first element of column `c`. -/
def ColumnOffset (m : Matrix K) (c : ℕ) : ℕ := c * m.n_rows

/-- Modelled from the spec: `Matrix::get(r, c)`. -/
def get (m : Matrix K) (r c : ℕ) : K := m.ptr (m.ColumnOffset c + r)

/-- Modelled from the spec: `Matrix::set(r, c, v)`. -/
def set (m : Matrix K) (r c : ℕ) (v : K) : Matrix K :=
  { m with ptr := Function.update m.ptr (m.ColumnOffset c + r) v }

/-- Modelled from the spec: `Matrix::GetColumnPtr(c)` used as a read pointer: the view of
the storage starting at column `c`. -/
def GetColumnPtr (m : Matrix K) (c : ℕ) : ℕ → K := fun j => m.ptr (m.ColumnOffset c + j)

/-- Modelled from the spec: `dst.CopyValues(src)` copies the `n_rows * n_cols` elements. -/
def CopyValues (dst src : Matrix K) : Matrix K :=
  { dst with ptr := fun j => if j < dst.n_rows * dst.n_cols then src.ptr j else dst.ptr j }

end Matrix

namespace Vector

variable {K : Type} [LinearOrderedField K]

/-- Modelled from the spec: `Vector::Init(length)`; fresh storage is read as zero. -/
def Init (length : ℕ) : Vector K := ⟨length, fun _ => 0⟩

/-- Modelled from the spec: `Vector::SetAll(v)`. -/
def SetAll (v : Vector K) (x : K) : Vector K :=
  { v with ptr := fun j => if j < v.length then x else v.ptr j }

/-- Modelled from the spec: read of `v[i]`. -/
def get (v : Vector K) (i : ℕ) : K := v.ptr i

/-- Modelled from the spec: write of `v[i]`. -/
def set (v : Vector K) (i : ℕ) (x : K) : Vector K :=
  { v with ptr := Function.update v.ptr i x }

end Vector

namespace ArrayList

/-- Modelled from the spec: read of `a[i]`. -/
def get {α : Type} (a : ArrayList α) (i : ℕ) : α := a.ptr i

end ArrayList

namespace math

variable {K : Type} [LinearOrderedField K]

/-- Modelled from the spec: `math::Sqr`. -/
def Sqr (x : K) : K := x * x

end math

namespace la

variable {K : Type} [LinearOrderedField K]

/-- Modelled from the spec: `la::Dot(length, x, y)`. -/
def Dot (length : ℤ) (x y : ℕ → K) : K :=
  forLoop length.toNat (fun j acc => acc + x j * y j) 0

/-- Modelled from the spec: `la::DistanceSqEuclidean(length, x, y)`, the squared Euclidean
distance between two column views. -/
def DistanceSqEuclidean (length : ℤ) (x y : ℕ → K) : K :=
  forLoop length.toNat (fun j acc => acc + (x j - y j) * (x j - y j)) 0

/-- Modelled from the spec: `la::LengthEuclidean(length, x)`, the Euclidean norm; the square
root of the scalar type is a parameter. -/
def LengthEuclidean (sqrt : K → K) (length : ℕ) (x : ℕ → K) : K :=
  sqrt (forLoop length (fun j acc => acc + x j * x j) 0)

/-- Modelled from the spec: `la::SubOverwrite(length, x, y, z)` sets `z` to `y - x`. -/
def SubOverwrite (length : ℤ) (x y z : ℕ → K) : ℕ → K :=
  fun j => if j < length.toNat then y j - x j else z j

/-- Modelled from the spec: `la::AddExpert(length, alpha, x, y)` is `y += alpha * x` on the
`length` cells of `mem` starting at offset `y`. -/
def AddExpert (length : ℤ) (alpha : K) (x : ℕ → K) (mem : ℕ → K) (y : ℕ) : ℕ → K :=
  fun j => if y ≤ j ∧ j < y + length.toNat then mem j + alpha * x (j - y) else mem j

/-- Modelled from the spec: the matrix overload `la::AddExpert(alpha, X, &Y)`,
`Y += alpha * X` on all elements. -/
def AddExpertMatrix (alpha : K) (X Y : Matrix K) : Matrix K :=
  { Y with ptr := (fun j => if j < Y.n_rows * Y.n_cols then Y.ptr j + alpha * X.ptr j
                            else Y.ptr j) }

/-- Modelled from the spec: `la::Scale(alpha, &X)`. -/
def Scale (alpha : K) (X : Matrix K) : Matrix K :=
  { X with ptr := fun j => if j < X.n_rows * X.n_cols then alpha * X.ptr j else X.ptr j }

end la

/-! ## The test case `rosenbrock_wood_function` of `lbfgs_test.cc` -/

namespace lbfgs_test

variable {K : Type} [LinearOrderedField K]

/-- The built-in comma operator of C++: `(a, b)` evaluates `a`, discards its value and has
the value of `b`. -/
def comma {α β : Type} (_a : α) (b : β) : β := b

/-- Armadillo's `arma::mat`: the sizes and the element storage, column by column. -/
structure arma.mat (K : Type) where
  n_rows : ℕ
  n_cols : ℕ
  mem : ℕ → K

/-- `operator[](ii)` of `arma::mat`: the element at the position `ii` of the storage. -/
def arma.mat.index (m : arma.mat K) (ii : ℕ) : K := m.mem ii

/-- `operator()(in_row, in_col)` of `arma::mat`: the element of row `in_row` and column
`in_col`. -/
def arma.mat.at (m : arma.mat K) (in_row in_col : ℕ) : K := m.mem (in_row + in_col * m.n_rows)

/-- The loop of assertions that ends the test case `rosenbrock_wood_function`, run on the
matrix `coords` left by the optimizer; `REQUIRE_CLOSE a b tol` tells whether the check of
`BOOST_REQUIRE_CLOSE(a, b, tol)` passes, and the result tells whether all of them pass.  The
subscript of `coords[row, 0]` is the comma expression `row, 0`. -/
def rosenbrock_wood_function_assertions (REQUIRE_CLOSE : K → K → K → Bool)
    (coords : arma.mat K) : Bool :=
  forLoop 4 (fun row ok =>
    ok && REQUIRE_CLOSE (coords.index (comma row 0)) 1 (1 / 100000)
       && REQUIRE_CLOSE (coords.index (comma row 1)) 1 (1 / 100000)) true

/-- The assertions as the specification intends them: for every row, the elements at
`(row, 0)` and `(row, 1)` are compared with `1`. -/
def rosenbrock_wood_function_assertions_spec (REQUIRE_CLOSE : K → K → K → Bool)
    (coords : arma.mat K) : Bool :=
  forLoop 4 (fun row ok =>
    ok && REQUIRE_CLOSE (coords.at row 0) 1 (1 / 100000)
       && REQUIRE_CLOSE (coords.at row 1) 1 (1 / 100000)) true

/-- A `4 x 2` matrix whose entries `(0, 0)` and `(1, 0)` are `1` and whose six other entries
are `5`. -/
def sixFives : arma.mat ℚ := ⟨4, 2, fun ii => [1, 1, 5, 5, 5, 5, 5, 5].getD ii 0⟩

/-- A closeness check for running the assertions on rationals: it passes on equal values
only. -/
def exactlyEqual (a b _tol : ℚ) : Bool := decide (a = b)

end lbfgs_test

/-- The data members of `class NonConvexMVU` that the implementation file reads or writes
(`data_` and `allknn_` only feed `Init`). -/
structure NonConvexMVU (K : Type) where
  eta_ : K
  gamma_ : K
  sigma_ : K
  step_size_ : K
  max_iterations_ : ℤ
  tolerance_ : K
  armijo_sigma_ : K
  armijo_beta_ : K
  new_dimension_ : ℤ
  knns_ : ℤ
  leaf_size_ : ℤ
  num_of_points_ : ℤ
  neighbors_ : ArrayList ℕ
  distances_ : ArrayList K
  coordinates_ : Matrix K
  gradient_ : Matrix K
  lagrange_mult_ : Vector K
  centering_lagrange_mult_ : Vector K
  previous_feasibility_error_ : K

namespace NonConvexMVU

variable {K : Type} [LinearOrderedField K]

/-- Method `ComputeFeasibilityError_(&distance_constraint, &centering_constraint)`: the pair of the
two outputs. -/
def ComputeFeasibilityError_ (s : NonConvexMVU K) : K × K :=
  let deviations : Vector K := (Vector.Init s.new_dimension_.toNat).SetAll 0
  let acc : K × Vector K :=
    forLoop s.coordinates_.n_cols (fun i acc =>
      let acc : K × Vector K :=
        forLoop s.knns_.toNat (fun k acc =>
          let point1 := s.coordinates_.GetColumnPtr i
          let point2 := s.coordinates_.GetColumnPtr (s.neighbors_.get (i * s.knns_.toNat + k))
          (acc.1 + math.Sqr (la.DistanceSqEuclidean s.new_dimension_ point1 point2
                             - s.distances_.get (i * s.knns_.toNat + k)), acc.2)) acc
      forLoop s.new_dimension_.toNat (fun k acc =>
        (acc.1, acc.2.set k (acc.2.get k + s.coordinates_.get k i))) acc)
      (0, deviations)
  let centering_constraint : K :=
    forLoop s.new_dimension_.toNat (fun k cc => cc + acc.2.get k * acc.2.get k) 0
  (acc.1, centering_constraint)

/-- The overload `double ComputeFeasibilityError_()`. -/
def ComputeFeasibilityError (s : NonConvexMVU K) : K :=
  s.ComputeFeasibilityError_.1 + s.ComputeFeasibilityError_.2

/-- Method `UpdateLagrangeMult_()`. -/
def UpdateLagrangeMult_ (s : NonConvexMVU K) : NonConvexMVU K :=
  let distance_constraint := s.ComputeFeasibilityError_.1
  let centering_constraint := s.ComputeFeasibilityError_.2
  let feasibility_error := distance_constraint + centering_constraint
  let s1 : NonConvexMVU K :=
    if feasibility_error < s.eta_ * s.previous_feasibility_error_ then
      forLoop s.num_of_points_.toNat (fun i s =>
        let s : NonConvexMVU K :=
          forLoop s.new_dimension_.toNat (fun j s =>
            { s with centering_lagrange_mult_ :=
                (s.centering_lagrange_mult_.set j
                  (s.centering_lagrange_mult_.get j - s.sigma_ * s.coordinates_.get j i)) }) s
        forLoop s.knns_.toNat (fun k s =>
          let point1 := s.coordinates_.GetColumnPtr i
          let point2 := s.coordinates_.GetColumnPtr (s.neighbors_.get (i * s.knns_.toNat + k))
          let dist_diff := la.DistanceSqEuclidean s.new_dimension_ point1 point2
                           - s.distances_.get (i * s.knns_.toNat + k)
          { s with lagrange_mult_ :=
              (s.lagrange_mult_.set (i * s.knns_.toNat + k)
                (s.lagrange_mult_.get (i * s.knns_.toNat + k) - s.sigma_ * dist_diff)) }) s) s
    else
      { s with sigma_ := s.sigma_ * s.gamma_ }
  { s1 with previous_feasibility_error_ := feasibility_error }

/-- Method `ComputeObjective_(coord)`. -/
def ComputeObjective_ (s : NonConvexMVU K) (coord : Matrix K) : K :=
  forLoop coord.n_cols (fun i variance =>
    variance - la.Dot s.new_dimension_ (coord.GetColumnPtr i) (coord.GetColumnPtr i)) 0

/-- Method `ComputeLagrangian_(coord)`. -/
def ComputeLagrangian_ (s : NonConvexMVU K) (coord : Matrix K) : K :=
  let deviations : Vector K := (Vector.Init s.new_dimension_.toNat).SetAll 0
  let acc : K × Vector K :=
    forLoop coord.n_cols (fun i acc =>
      let acc : K × Vector K :=
        (acc.1 - la.Dot s.new_dimension_ (coord.GetColumnPtr i) (coord.GetColumnPtr i), acc.2)
      let acc : K × Vector K :=
        forLoop s.knns_.toNat (fun k acc =>
          let point1 := coord.GetColumnPtr i
          let point2 := coord.GetColumnPtr (s.neighbors_.get (i * s.knns_.toNat + k))
          let dist_diff := la.DistanceSqEuclidean s.new_dimension_ point1 point2
                           - s.distances_.get (i * s.knns_.toNat + k)
          (acc.1 + (-(s.lagrange_mult_.get i) * dist_diff
                    + 1 / 2 * s.sigma_ * dist_diff * dist_diff), acc.2)) acc
      forLoop s.new_dimension_.toNat (fun k acc =>
        (acc.1, acc.2.set k (acc.2.get k + coord.get k i))) acc)
      (0, deviations)
  let lagrangian : K :=
    forLoop s.new_dimension_.toNat (fun k lagrangian =>
      lagrangian + (-(acc.2.get k) * s.centering_lagrange_mult_.get k
                    + 1 / 2 * s.sigma_ * acc.2.get k * acc.2.get k)) acc.1
  1 / 2 * lagrangian

/-- Method `ComputeGradient_()`. -/
def ComputeGradient_ (s : NonConvexMVU K) : NonConvexMVU K :=
  let gradient : Matrix K := la.Scale (-1) (s.gradient_.CopyValues s.coordinates_)
  let dimension_sums : Vector K := (Vector.Init s.new_dimension_.toNat).SetAll 0
  let acc : Matrix K × Vector K :=
    forLoop gradient.n_cols (fun i acc =>
      let acc : Matrix K × Vector K :=
        forLoop s.knns_.toNat (fun k acc =>
          let point1 := s.coordinates_.GetColumnPtr i
          let point2 := s.coordinates_.GetColumnPtr (s.neighbors_.get (i * s.knns_.toNat + k))
          let a_i_r := la.SubOverwrite s.new_dimension_ point2 point1 (fun _ => 0)
          let dist_diff := la.DistanceSqEuclidean s.new_dimension_ point1 point2
                           - s.distances_.get (i * s.knns_.toNat + k)
          let g : Matrix K :=
            { acc.1 with ptr :=
                (la.AddExpert s.new_dimension_
                  (-(s.lagrange_mult_.get (i * s.knns_.toNat + k)) + dist_diff * s.sigma_)
                  a_i_r acc.1.ptr (acc.1.ColumnOffset i)) }
          let g : Matrix K :=
            { g with ptr :=
                (la.AddExpert s.new_dimension_
                  (s.lagrange_mult_.get (i * s.knns_.toNat + k) - dist_diff * s.sigma_)
                  a_i_r g.ptr (g.ColumnOffset (s.neighbors_.get (i * s.knns_.toNat + k)))) }
          (g, acc.2)) acc
      forLoop s.new_dimension_.toNat (fun k acc =>
        (acc.1.set k i (acc.1.get k i - s.centering_lagrange_mult_.get k),
         acc.2.set k (acc.2.get k + s.coordinates_.get k i))) acc)
      (gradient, dimension_sums)
  let gradient : Matrix K :=
    forLoop acc.1.n_cols (fun i g =>
      { g with ptr := la.AddExpert s.new_dimension_ s.sigma_ acc.2.ptr g.ptr (g.ColumnOffset i) })
      acc.1
  { s with gradient_ := gradient }

/-- Method `LocalSearch_`, the body of `for (index_t i = 0; ; i++)`: the loop has no exit other than
the `break`, so the model counts iterations with `fuel` and answers `none` when the fuel runs
out before the `break`.  On the `break` it answers the trial point, `beta` and
`lagrangian2`.

The quotient `-step_size_*beta/gradient_norm` has no value in the field `K` when
`gradient_norm` is zero.  The code then computes with `inf` and `NaN`: every cell of
`temp_coordinates` becomes `NaN`, so does `lagrangian2`, and the comparison
`lagrangian1-lagrangian2 >= armijo_factor` is false.  The model therefore rejects the trial
when `gradient_norm` is zero, unless `temp_coordinates` has no cell, in which case the
quotient is not used. -/
def LocalSearch_loop (s : NonConvexMVU K) (lagrangian1 gradient_norm : K) :
    ℕ → Matrix K → K → K → Option (Matrix K × K × K)
  | 0, _, _, _ => none
  | fuel + 1, temp_coordinates, beta, armijo_factor =>
    let temp_coordinates : Matrix K := temp_coordinates.CopyValues s.coordinates_
    let temp_coordinates : Matrix K :=
      la.AddExpertMatrix (-s.step_size_ * beta / gradient_norm) s.gradient_ temp_coordinates
    let lagrangian2 := s.ComputeLagrangian_ temp_coordinates
    if (gradient_norm ≠ 0 ∨ temp_coordinates.n_rows * temp_coordinates.n_cols = 0)
        ∧ lagrangian1 - lagrangian2 ≥ armijo_factor then
      some (temp_coordinates, beta, lagrangian2)
    else
      LocalSearch_loop s lagrangian1 gradient_norm fuel temp_coordinates
        (beta * s.armijo_beta_) (armijo_factor * s.armijo_beta_)

/-- Method `LocalSearch_(&step)`: the new object state and the value written to `*step`; `none`
when the backtracking loop has not reached its `break` within `fuel` iterations, which is the
case for every `fuel` when the gradient norm is zero and the matrix has a cell. -/
def LocalSearch_ (sqrt : K → K) (fuel : ℕ) (s : NonConvexMVU K) : Option (NonConvexMVU K × K) :=
  let temp_coordinates : Matrix K := Matrix.Init s.coordinates_.n_rows s.coordinates_.n_cols
  let lagrangian1 := s.ComputeLagrangian_ s.coordinates_
  let beta := s.armijo_beta_
  let gradient_norm :=
    la.LengthEuclidean sqrt (s.gradient_.n_rows * s.gradient_.n_cols) s.gradient_.ptr
  let armijo_factor := gradient_norm * s.armijo_sigma_ * s.armijo_beta_ * s.step_size_
  match LocalSearch_loop s lagrangian1 gradient_norm fuel temp_coordinates beta armijo_factor with
  | none => none
  | some (temp_coordinates, beta, _) =>
    some ({ s with coordinates_ := s.coordinates_.CopyValues temp_coordinates },
          s.step_size_ * beta)

/-- The constructor `NonConvexMVU::NonConvexMVU()`; the members it does not assign are
empty. -/
def ctor : NonConvexMVU K where
  eta_ := 1 / 4
  gamma_ := 11 / 10
  sigma_ := 1000
  step_size_ := 1
  max_iterations_ := 10000
  tolerance_ := 1 / 100000
  armijo_sigma_ := 1 / 10
  armijo_beta_ := 1 / 2
  new_dimension_ := -1
  knns_ := 0
  leaf_size_ := 0
  num_of_points_ := 0
  neighbors_ := ⟨0, fun _ => 0⟩
  distances_ := ⟨0, fun _ => 0⟩
  coordinates_ := Matrix.Init 0 0
  gradient_ := Matrix.Init 0 0
  lagrange_mult_ := Vector.Init 0
  centering_lagrange_mult_ := Vector.Init 0
  previous_feasibility_error_ := 0

/-- Method `Init(data_file, knns, leaf_size)`.  Loading the data file and the all-nearest-neighbour
search are external: the number of loaded points and the computed `neighbors` and
`distances` are parameters, and so is the constant `DBL_MAX`. -/
def Init (s : NonConvexMVU K) (DBL_MAX : K) (n_cols : ℕ) (neighbors : ArrayList ℕ)
    (distances : ArrayList K) (knns leaf_size : ℤ) : NonConvexMVU K :=
  { s with
    knns_ := knns
    leaf_size_ := leaf_size
    num_of_points_ := n_cols
    neighbors_ := neighbors
    distances_ := distances
    previous_feasibility_error_ := DBL_MAX }

/-- Setter `set_eta`. -/
def set_eta (s : NonConvexMVU K) (eta : K) : NonConvexMVU K := { s with eta_ := eta }

/-- Setter `set_gamma`. -/
def set_gamma (s : NonConvexMVU K) (gamma : K) : NonConvexMVU K := { s with gamma_ := gamma }

/-- Setter `set_step_size`. -/
def set_step_size (s : NonConvexMVU K) (step_size : K) : NonConvexMVU K :=
  { s with step_size_ := step_size }

/-- Setter `set_max_iterations`. -/
def set_max_iterations (s : NonConvexMVU K) (max_iterations : ℤ) : NonConvexMVU K :=
  { s with max_iterations_ := max_iterations }

/-- Setter `set_new_dimension`. -/
def set_new_dimension (s : NonConvexMVU K) (new_dimension : ℤ) : NonConvexMVU K :=
  { s with new_dimension_ := new_dimension }

/-- Setter `set_tolerance`. -/
def set_tolerance (s : NonConvexMVU K) (tolerance : K) : NonConvexMVU K :=
  { s with tolerance_ := tolerance }

/-- Setter `set_armijo_sigma`. -/
def set_armijo_sigma (s : NonConvexMVU K) (armijo_sigma : K) : NonConvexMVU K :=
  { s with armijo_sigma_ := armijo_sigma }

/-- Setter `set_armijo_beta`. -/
def set_armijo_beta (s : NonConvexMVU K) (armijo_beta : K) : NonConvexMVU K :=
  { s with armijo_beta_ := armijo_beta }

/-- Method `ComputeLocalOptimum`, the initialisation between the `FATAL` check and the first loop
(source lines 59 to 76).  `rnd n` is the value of the `n`-th call of `math::Random`. -/
def ComputeLocalOptimum_Initialize (rnd : ℕ → K) (s : NonConvexMVU K) : NonConvexMVU K :=
  let coordinates : Matrix K := Matrix.Init s.new_dimension_.toNat s.num_of_points_.toNat
  let gradient : Matrix K := Matrix.Init s.new_dimension_.toNat s.num_of_points_.toNat
  let acc : Matrix K × ℕ :=
    forLoop coordinates.n_rows (fun i acc =>
      forLoop coordinates.n_cols (fun j acc => (acc.1.set i j (rnd acc.2), acc.2 + 1)) acc)
      (coordinates, 0)
  let lagrange_mult : Vector K := Vector.Init (s.knns_ * s.num_of_points_).toNat
  let acc2 : Vector K × ℕ :=
    forLoop lagrange_mult.length (fun i acc => (acc.1.set i (rnd acc.2), acc.2 + 1))
      (lagrange_mult, acc.2)
  let centering_lagrange_mult : Vector K := Vector.Init s.new_dimension_.toNat
  let acc3 : Vector K × ℕ :=
    forLoop s.new_dimension_.toNat (fun i acc => (acc.1.set i (rnd acc.2), acc.2 + 1))
      (centering_lagrange_mult, acc2.2)
  let s : NonConvexMVU K :=
    { s with
      coordinates_ := acc.1
      gradient_ := gradient
      lagrange_mult_ := acc2.1
      centering_lagrange_mult_ := acc3.1 }
  { s with previous_feasibility_error_ :=
      s.ComputeFeasibilityError_.1 + s.ComputeFeasibilityError_.2 }

/-- The locals of `ComputeLocalOptimum` while its loops run, with three ghost fields that
only count: the outer rounds completed, the `LocalSearch_` calls made, and the object state
at each call of `UpdateLagrangeMult_` (oldest first). -/
structure Run (K : Type) where
  obj : NonConvexMVU K
  distance_constraint : K
  centering_constraint : K
  step : K
  rounds : ℕ
  searches : ℕ
  updates : List (NonConvexMVU K)

/-- How a call of `ComputeLocalOptimum` can end. -/
inductive Outcome (K : Type) where
  /-- The call `FATAL("You forgot to set the new dimension")`, with the object as it is at
  that call. -/
  | fatal : NonConvexMVU K → Outcome K
  /-- a `LocalSearch_` call never reached its `break` within the fuel: the locals at that
  moment and the object state on which `LocalSearch_` was called -/
  | searchDiverges : Run K → NonConvexMVU K → Outcome K
  /-- the function returned: through `Converged !!` (`true`) or after the last round -/
  | returned : Bool → Run K → Outcome K

/-- Method `ComputeLocalOptimum`, the inner loop `for (it2 = 0; it2 < max_iterations_; it2++)` with
`n` iterations left; the `break` ends the recursion. -/
def innerLoop (sqrt : K → K) (fuel : ℕ) :
    ℕ → Run K → Except (Run K × NonConvexMVU K) (Run K)
  | 0, r => .ok r
  | n + 1, r =>
    let obj := r.obj.ComputeGradient_
    match obj.LocalSearch_ sqrt fuel with
    | none => .error (r, obj)
    | some (obj, step) =>
      let r : Run K :=
        { r with
          obj := obj
          step := step
          distance_constraint := obj.ComputeFeasibilityError_.1
          centering_constraint := obj.ComputeFeasibilityError_.2
          searches := r.searches + 1 }
      if step < obj.tolerance_ then .ok r else innerLoop sqrt fuel n r

/-- Method `ComputeLocalOptimum`, the outer loop `for (it1 = 0; it1 < max_iterations_; it1++)` with
`n` iterations left; the `return` of the convergence test ends the recursion.

The quotient `distance_constraint/sum_of_dist_square` has no value in the field `K` when
`sum_of_dist_square` is zero.  The code then gets `inf` or `NaN` (`distance_constraint` is a
sum of squares), for which the comparison with `tolerance_` is false: the model takes the
test as failed when `sum_of_dist_square` is zero. -/
def outerLoop (sqrt : K → K) (fuel : ℕ) (sum_of_dist_square : K) : ℕ → Run K → Outcome K
  | 0, r => .returned false r
  | n + 1, r =>
    match innerLoop sqrt fuel r.obj.max_iterations_.toNat r with
    | .error e => .searchDiverges e.1 e.2
    | .ok r =>
      let r : Run K := { r with rounds := r.rounds + 1 }
      if sum_of_dist_square ≠ 0
          ∧ r.distance_constraint / sum_of_dist_square < r.obj.tolerance_ then
        .returned true r
      else
        outerLoop sqrt fuel sum_of_dist_square n
          { r with obj := r.obj.UpdateLagrangeMult_, updates := r.updates ++ [r.obj] }

/-- Method `ComputeLocalOptimum()`. -/
def ComputeLocalOptimum (sqrt : K → K) (rnd : ℕ → K) (fuel : ℕ) (s : NonConvexMVU K) :
    Outcome K :=
  let sum_of_dist_square := la.LengthEuclidean sqrt s.distances_.size s.distances_.ptr
  if s.new_dimension_ < 0 then
    .fatal s
  else
    let s := s.ComputeLocalOptimum_Initialize rnd
    outerLoop sqrt fuel sum_of_dist_square s.max_iterations_.toNat
      { obj := s
        distance_constraint := s.ComputeFeasibilityError_.1
        centering_constraint := s.ComputeFeasibilityError_.2
        step := 0
        rounds := 0
        searches := 0
        updates := [] }

/-! ### Closed forms of `UpdateLagrangeMult_` -/

/-- The object with the storage of the two multiplier vectors replaced. -/
def withMult (s : NonConvexMVU K) (L C : ℕ → K) : NonConvexMVU K :=
  { s with
    lagrange_mult_ := { s.lagrange_mult_ with ptr := L }
    centering_lagrange_mult_ := { s.centering_lagrange_mult_ with ptr := C } }

/-- The value `dist_diff` of the pair stored at offset `m` of point `i`. -/
def distDiff (s : NonConvexMVU K) (i m : ℕ) : K :=
  la.DistanceSqEuclidean s.new_dimension_ (s.coordinates_.GetColumnPtr i)
    (s.coordinates_.GetColumnPtr (s.neighbors_.get m)) - s.distances_.get m

/-- The closed form of the storage of `lagrange_mult_` after `n` rounds of the loop over the
points in the success branch of `UpdateLagrangeMult_`. -/
def pairMultAfter (s : NonConvexMVU K) (n : ℕ) : ℕ → K :=
  fun m => if m < n * s.knns_.toNat
           then s.lagrange_mult_.ptr m - s.sigma_ * s.distDiff (m / s.knns_.toNat) m
           else s.lagrange_mult_.ptr m

/-- The closed form of the storage of `centering_lagrange_mult_` after `n` rounds. -/
def centeringMultAfter (s : NonConvexMVU K) (n : ℕ) : ℕ → K :=
  fun j => if j < s.new_dimension_.toNat
           then s.centering_lagrange_mult_.ptr j
                - s.sigma_ * ∑ i in Finset.range n, s.coordinates_.get j i
           else s.centering_lagrange_mult_.ptr j

/-- The squared embedded distance between points `i` and `j`: the sum over the
`new_dimension_` rows of the squared coordinate differences. -/
def embeddedDistanceSq (s : NonConvexMVU K) (coord : Matrix K) (i j : ℕ) : K :=
  ∑ r in Finset.range s.new_dimension_.toNat, (coord.get r i - coord.get r j) ^ 2

/-! ### The constraints and the Lagrangian of the specification -/

/-- The distance constraint of the pair (point `i`, neighbour slot `k`). -/
def distanceConstraint (s : NonConvexMVU K) (coord : Matrix K) (i k : ℕ) : K :=
  s.embeddedDistanceSq coord i (s.neighbors_.get (i * s.knns_.toNat + k))
    - s.distances_.get (i * s.knns_.toNat + k)

/-- The centering constraint of dimension `j`: the sum of that coordinate over all points. -/
def centeringConstraint (coord : Matrix K) (j : ℕ) : K :=
  ∑ i in Finset.range coord.n_cols, coord.get j i

/-- The augmented Lagrangian as the specification writes it,
`f(x) − λᵀc(x) + (σ/2)·‖c(x)‖²`, with one multiplier per neighbour pair. -/
def specLagrangian (s : NonConvexMVU K) (coord : Matrix K) : K :=
  s.ComputeObjective_ coord
  - ((∑ i in Finset.range coord.n_cols, ∑ k in Finset.range s.knns_.toNat,
        s.lagrange_mult_.get (i * s.knns_.toNat + k) * s.distanceConstraint coord i k)
     + ∑ j in Finset.range s.new_dimension_.toNat,
        s.centering_lagrange_mult_.get j * centeringConstraint coord j)
  + s.sigma_ / 2
    * ((∑ i in Finset.range coord.n_cols, ∑ k in Finset.range s.knns_.toNat,
          s.distanceConstraint coord i k ^ 2)
       + ∑ j in Finset.range s.new_dimension_.toNat, centeringConstraint coord j ^ 2)

/-- The storage of the local `deviations` after the first `n` columns have been added. -/
def deviationsAfter (s : NonConvexMVU K) (coord : Matrix K) (n : ℕ) : Vector K :=
  ⟨s.new_dimension_.toNat,
   fun j => if j < s.new_dimension_.toNat then ∑ i in Finset.range n, coord.get j i else 0⟩

/-- One column's contribution to the running `lagrangian` in `ComputeLagrangian_`. -/
def lagrangianColumnTerm (s : NonConvexMVU K) (coord : Matrix K) (i : ℕ) : K :=
  - (∑ r in Finset.range s.new_dimension_.toNat, coord.get r i ^ 2)
  + ∑ k in Finset.range s.knns_.toNat,
      (-(s.lagrange_mult_.get i) * s.distanceConstraint coord i k
        + 1 / 2 * s.sigma_ * s.distanceConstraint coord i k * s.distanceConstraint coord i k)

/-- The reads of a coordinate matrix made through `new_dimension_`, the column count and
`neighbors_` stay inside the matrix. -/
def CoordinatesInBounds (s : NonConvexMVU K) (coord : Matrix K) : Prop :=
  s.new_dimension_.toNat ≤ coord.n_rows
  ∧ ∀ i k, i < coord.n_cols → k < s.knns_.toNat →
      s.neighbors_.get (i * s.knns_.toNat + k) < coord.n_cols

/-! ### The trial points of `LocalSearch_` -/

/-- The value `gradient_norm` that `LocalSearch_` computes from `gradient_`. -/
def gradientNorm (sqrt : K → K) (s : NonConvexMVU K) : K :=
  la.LengthEuclidean sqrt (s.gradient_.n_rows * s.gradient_.n_cols) s.gradient_.ptr

/-- The trial point that `LocalSearch_` builds in `temp_coordinates` for the backtracking
factor `beta`: the coordinates moved by `-step_size_ * beta / gradient_norm` times the
gradient.  It stands for the matrix of the code when the gradient norm is not zero or the
matrix has no cell. -/
def trialPoint (sqrt : K → K) (s : NonConvexMVU K) (beta : K) : Matrix K :=
  la.AddExpertMatrix (-s.step_size_ * beta / s.gradientNorm sqrt) s.gradient_
    ((Matrix.Init s.coordinates_.n_rows s.coordinates_.n_cols).CopyValues s.coordinates_)

/-- The sufficient-decrease test of `LocalSearch_` at its trial number `n` (counted from
zero), where `beta` is `armijo_beta_ ^ (n + 1)`: the trial point has a value (the gradient
norm is not zero, or the matrix has no cell) and the Lagrangian has decreased by at least
`armijo_factor`. -/
def sufficientDecrease (sqrt : K → K) (s : NonConvexMVU K) (n : ℕ) : Prop :=
  (s.gradientNorm sqrt ≠ 0 ∨ s.coordinates_.n_rows * s.coordinates_.n_cols = 0)
  ∧ s.ComputeLagrangian_ s.coordinates_
      - s.ComputeLagrangian_ (s.trialPoint sqrt (s.armijo_beta_ ^ (n + 1)))
    ≥ s.gradientNorm sqrt * s.armijo_sigma_ * s.armijo_beta_ ^ (n + 1) * s.step_size_

/-! ### Postconditions of the loops of `ComputeLocalOptimum` -/

/-- The object states on which `UpdateLagrangeMult_` has been called, oldest first. -/
def Outcome.updates : Outcome K → List (NonConvexMVU K)
  | .fatal _ => []
  | .searchDiverges r _ => r.updates
  | .returned _ r => r.updates

/-- The locals of `ComputeLocalOptimum` after one more pass of the inner loop body that
ended with object state `obj` and step `step`. -/
def Run.afterSearch (r : Run K) (obj : NonConvexMVU K) (step : K) : Run K :=
  { r with
    obj := obj
    step := step
    distance_constraint := obj.ComputeFeasibilityError_.1
    centering_constraint := obj.ComputeFeasibilityError_.2
    searches := r.searches + 1 }

/-- The locals of `ComputeLocalOptimum` when a round that did not converge hands over to
the next one: the round is counted and `UpdateLagrangeMult_` has been called. -/
def Run.afterUpdate (r : Run K) : Run K :=
  { r with
    rounds := r.rounds + 1
    obj := r.obj.UpdateLagrangeMult_
    updates := r.updates ++ [r.obj] }

/-- What the inner loop of `ComputeLocalOptimum`, started with `n` iterations left on the
locals `r`, guarantees about its result. -/
def InnerPost (sqrt : K → K) (fuel n : ℕ) (r : Run K) :
    Except (Run K × NonConvexMVU K) (Run K) → Prop
  | .error e => e.2.LocalSearch_ sqrt fuel = none ∧ e.1.rounds = r.rounds
      ∧ e.1.updates = r.updates ∧ e.1.searches < r.searches + n
      ∧ e.1.obj.max_iterations_ = r.obj.max_iterations_
      ∧ e.1.obj.previous_feasibility_error_ = r.obj.previous_feasibility_error_
  | .ok r' => r'.rounds = r.rounds ∧ r'.updates = r.updates
      ∧ r'.searches ≤ r.searches + n
      ∧ r'.obj.max_iterations_ = r.obj.max_iterations_
      ∧ r'.obj.tolerance_ = r.obj.tolerance_
      ∧ r'.obj.previous_feasibility_error_ = r.obj.previous_feasibility_error_
      ∧ (r.distance_constraint = r.obj.ComputeFeasibilityError_.1 →
          r'.distance_constraint = r'.obj.ComputeFeasibilityError_.1)

/-- What the outer loop of `ComputeLocalOptimum`, started with `n` rounds left on the locals
`r`, guarantees about the way the function ends. -/
def OuterPost (sqrt : K → K) (fuel : ℕ) (sum_of_dist_square : K) (n : ℕ) (r : Run K) :
    Outcome K → Prop
  | .fatal _ => False
  | .searchDiverges r' t => t.LocalSearch_ sqrt fuel = none
      ∧ r'.rounds < r.rounds + n
      ∧ r'.updates.length + r.rounds = r.updates.length + r'.rounds
      ∧ r'.searches < r.searches + n * r.obj.max_iterations_.toNat
      ∧ ∃ l, r'.updates = r.updates ++ l
          ∧ (∀ t ∈ l, ¬ (sum_of_dist_square ≠ 0
              ∧ t.ComputeFeasibilityError_.1 / sum_of_dist_square < t.tolerance_))
          ∧ ∀ t, l.head? = some t →
              t.previous_feasibility_error_ = r.obj.previous_feasibility_error_
  | .returned converged r' => r'.rounds ≤ r.rounds + n
      ∧ r'.searches ≤ r.searches + n * r.obj.max_iterations_.toNat
      ∧ (∃ l, r'.updates = r.updates ++ l
          ∧ (∀ t ∈ l, ¬ (sum_of_dist_square ≠ 0
              ∧ t.ComputeFeasibilityError_.1 / sum_of_dist_square < t.tolerance_))
          ∧ ∀ t, l.head? = some t →
              t.previous_feasibility_error_ = r.obj.previous_feasibility_error_)
      ∧ (converged = true →
          r'.updates.length + r.rounds + 1 = r.updates.length + r'.rounds
          ∧ sum_of_dist_square ≠ 0
          ∧ r'.obj.ComputeFeasibilityError_.1 / sum_of_dist_square < r'.obj.tolerance_)
      ∧ (converged = false →
          r'.updates.length + r.rounds = r.updates.length + r'.rounds
          ∧ r'.rounds = r.rounds + n)

/-! ### Concrete objects -/

/-- A small object: two points embedded in one dimension, each the only neighbour of the
other, with the constructor's default parameters. -/
def twoPoints (K : Type) [LinearOrderedField K] : NonConvexMVU K :=
  { (ctor : NonConvexMVU K) with
    new_dimension_ := 1
    knns_ := 1
    num_of_points_ := 2
    neighbors_ := ⟨2, fun m => [1, 0].getD m 0⟩
    distances_ := ⟨2, fun m => [2, 2].getD m 0⟩
    coordinates_ := ⟨1, 2, fun m => [0, 1].getD m 0⟩
    gradient_ := Matrix.Init 1 2
    lagrange_mult_ := ⟨2, fun m => [1 / 2, 1 / 3].getD m 0⟩
    centering_lagrange_mult_ := ⟨1, fun m => [1 / 5].getD m 0⟩
    previous_feasibility_error_ := 100 }

/-- The object `twoPoints` with a recorded previous feasibility error of `4`. -/
def twoPointsStalled (K : Type) [LinearOrderedField K] : NonConvexMVU K :=
  { twoPoints K with previous_feasibility_error_ := 4 }

/-- Three points embedded in one dimension with two neighbours each, so that the pair
offsets `i * knns_ + k` run over `0, ..., 5`. -/
def threePoints (K : Type) [LinearOrderedField K] : NonConvexMVU K :=
  { (ctor : NonConvexMVU K) with
    new_dimension_ := 1
    knns_ := 2
    num_of_points_ := 3
    neighbors_ := ⟨6, fun m => [1, 2, 0, 2, 1, 0].getD m 0⟩
    distances_ := ⟨6, fun m => [1, 4, 1, 1, 1, 4].getD m 0⟩
    coordinates_ := ⟨1, 3, fun m => [0, 2, 3].getD m 0⟩
    gradient_ := Matrix.Init 1 3
    lagrange_mult_ := ⟨6, fun m => [1 / 2, 1 / 3, 1 / 4, 1 / 5, 1 / 6, 1 / 7].getD m 0⟩
    centering_lagrange_mult_ := ⟨1, fun m => [1 / 5].getD m 0⟩
    previous_feasibility_error_ := 1000 }

/-- The object with the cell `m` of `lagrange_mult_` overwritten by `v`. -/
def withPairMultiplier (s : NonConvexMVU K) (m : ℕ) (v : K) : NonConvexMVU K :=
  { s with lagrange_mult_ := s.lagrange_mult_.set m v }

/-- Bitwise integer square root: with `r` holding the bits above `b` already chosen, it
decides the remaining `b` bits from the top. -/
def sqrtBits : ℕ → ℕ → ℕ → ℕ
  | 0, _, r => r
  | b + 1, n, r =>
    if (r + 2 ^ b) * (r + 2 ^ b) ≤ n then sqrtBits b n (r + 2 ^ b) else sqrtBits b n r

/-- A square root on `ℚ` for running the model: the integer square roots of numerator and
denominator.  It is the exact root of every square of a non-negative rational whose
numerator and denominator are below `2 ^ 64`; the runs below apply it to such squares
only. -/
def sqrtExact (q : ℚ) : ℚ := (sqrtBits 64 q.num.toNat 0 : ℚ) / (sqrtBits 64 q.den 0 : ℚ)

/-- The value of `DBL_MAX`, `(2 - 2^(-52)) * 2^1023`. -/
def DBL_MAX : ℚ := 2 ^ 1024 - 2 ^ 971

/-- An object as `Init` leaves it: the constructor's defaults, `set_new_dimension(1)`,
`set_max_iterations(1)`, and the neighbourhoods of the three data points `0, 0, 1` on a line
with one neighbour each (squared distances `0, 0, 1`). -/
def lineData : NonConvexMVU ℚ :=
  (((ctor : NonConvexMVU ℚ).set_new_dimension 1).set_max_iterations 1).Init DBL_MAX 3
    ⟨3, fun m => [1, 0, 0].getD m 0⟩ ⟨3, fun m => [0, 0, 1].getD m 0⟩ 1 20

/-- The values returned by the seven calls of `math::Random(0.1, 1)` in the run below. -/
def lineDraws : ℕ → ℚ :=
  fun n => [1 / 5, 9 / 10, 153 / 250, 4871 / 5250, 4871 / 5250, 7412 / 38625, 1 / 2].getD n 0

/-- The object on which the run of `ComputeLocalOptimum` on `lineData` with the draws
`lineDraws` makes its only call of `LocalSearch_`. -/
def lineSearchState : NonConvexMVU ℚ :=
  (lineData.ComputeLocalOptimum_Initialize lineDraws).ComputeGradient_

/-- The result of the only `LocalSearch_` call of the run on `lineData`. -/
def lineSearchResult : NonConvexMVU ℚ × ℚ :=
  (lineSearchState.LocalSearch_ sqrtExact 1).get (by decide!)

/-- The object on which the run on `lineData` calls `UpdateLagrangeMult_`. -/
def lineFirstUpdate : NonConvexMVU ℚ :=
  ((lineData.ComputeLocalOptimum sqrtExact lineDraws 1).updates.head?).get (by decide!)

/-- Four points embedded in one dimension, all at the coordinate `1/7997`, paired up as
mutual neighbours at squared distance `1`, with the constructor's default parameters; the
stored `gradient_` is the one `ComputeGradient_` computes for these coordinates. -/
def collapsed : NonConvexMVU ℚ :=
  { (ctor : NonConvexMVU ℚ) with
    new_dimension_ := 1
    knns_ := 1
    num_of_points_ := 4
    neighbors_ := ⟨4, fun m => [1, 0, 3, 2].getD m 0⟩
    distances_ := ⟨4, fun m => [1, 1, 1, 1].getD m 0⟩
    coordinates_ := ⟨1, 4, fun m => [1 / 7997, 1 / 7997, 1 / 7997, 1 / 7997].getD m 0⟩
    gradient_ := ⟨1, 4, fun m => [1 / 15994, 1 / 15994, 1 / 15994, 1 / 15994].getD m 0⟩
    lagrange_mult_ := ⟨4, fun m => [1 / 2, 1 / 2, 1 / 2, 1 / 2].getD m 0⟩
    centering_lagrange_mult_ := ⟨1, fun m => [1 / 2].getD m 0⟩
    previous_feasibility_error_ := 100 }

/-- The object `collapsed` after `set_armijo_beta(1)`. -/
def collapsedStuck : NonConvexMVU ℚ := collapsed.set_armijo_beta 1

/-- One call of a setter of `NonConvexMVU`, with its argument. -/
inductive SetterCall (K : Type) where
  | set_eta : K → SetterCall K
  | set_gamma : K → SetterCall K
  | set_step_size : K → SetterCall K
  | set_max_iterations : ℤ → SetterCall K
  | set_new_dimension : ℤ → SetterCall K
  | set_tolerance : K → SetterCall K
  | set_armijo_sigma : K → SetterCall K
  | set_armijo_beta : K → SetterCall K

/-- The object after one setter call. -/
def applySetter (s : NonConvexMVU K) : SetterCall K → NonConvexMVU K
  | .set_eta eta => s.set_eta eta
  | .set_gamma gamma => s.set_gamma gamma
  | .set_step_size step_size => s.set_step_size step_size
  | .set_max_iterations max_iterations => s.set_max_iterations max_iterations
  | .set_new_dimension new_dimension => s.set_new_dimension new_dimension
  | .set_tolerance tolerance => s.set_tolerance tolerance
  | .set_armijo_sigma armijo_sigma => s.set_armijo_sigma armijo_sigma
  | .set_armijo_beta armijo_beta => s.set_armijo_beta armijo_beta

/-- The object after a sequence of setter calls, made in the order of the list. -/
def applySetters (s : NonConvexMVU K) (calls : List (SetterCall K)) : NonConvexMVU K :=
  calls.foldl applySetter s

/-- One call made by the driver on the object: `UpdateLagrangeMult_()` or
`LocalSearch_(&step)`, the latter with the fuel given to the model of its loop. -/
inductive DriverCall where
  | update : DriverCall
  | search : ℕ → DriverCall

/-- The object after a sequence of `UpdateLagrangeMult_` and `LocalSearch_` calls, together
with a ghost counter of the `UpdateLagrangeMult_` calls that took the penalty-growth branch;
`none` when one of the `LocalSearch_` calls does not return within its fuel. -/
def runCalls (sqrt : K → K) : List DriverCall → NonConvexMVU K × ℕ → Option (NonConvexMVU K × ℕ)
  | [], p => some p
  | .update :: calls, p =>
    runCalls sqrt calls
      (p.1.UpdateLagrangeMult_,
       if p.1.ComputeFeasibilityError < p.1.eta_ * p.1.previous_feasibility_error_ then p.2
       else p.2 + 1)
  | .search fuel :: calls, p =>
    match p.1.LocalSearch_ sqrt fuel with
    | none => none
    | some q => runCalls sqrt calls (q.1, p.2)

/-- The object `collapsed` after `set_step_size(-1)`. -/
def collapsedReversed : NonConvexMVU ℚ := collapsed.set_step_size (-1)

/-- The result of `LocalSearch_` on `collapsedReversed` with fuel `24`. -/
def collapsedReversedResult : NonConvexMVU ℚ × ℚ :=
  (collapsedReversed.LocalSearch_ sqrtExact 24).get (by decide!)

/-- The loop state of `ComputeGradient_` (the matrix being built and `dimension_sums`)
after the first `n` rounds of its loop over the columns. -/
def gradientColumnsLoop (s : NonConvexMVU K) (n : ℕ) : Matrix K × Vector K :=
  forLoop n (fun i acc =>
      let acc : Matrix K × Vector K :=
        forLoop s.knns_.toNat (fun k acc =>
          let point1 := s.coordinates_.GetColumnPtr i
          let point2 := s.coordinates_.GetColumnPtr (s.neighbors_.get (i * s.knns_.toNat + k))
          let a_i_r := la.SubOverwrite s.new_dimension_ point2 point1 (fun _ => 0)
          let dist_diff := la.DistanceSqEuclidean s.new_dimension_ point1 point2
                           - s.distances_.get (i * s.knns_.toNat + k)
          let g : Matrix K :=
            { acc.1 with ptr :=
                (la.AddExpert s.new_dimension_
                  (-(s.lagrange_mult_.get (i * s.knns_.toNat + k)) + dist_diff * s.sigma_)
                  a_i_r acc.1.ptr (acc.1.ColumnOffset i)) }
          let g : Matrix K :=
            { g with ptr :=
                (la.AddExpert s.new_dimension_
                  (s.lagrange_mult_.get (i * s.knns_.toNat + k) - dist_diff * s.sigma_)
                  a_i_r g.ptr (g.ColumnOffset (s.neighbors_.get (i * s.knns_.toNat + k)))) }
          (g, acc.2)) acc
      forLoop s.new_dimension_.toNat (fun k acc =>
        (acc.1.set k i (acc.1.get k i - s.centering_lagrange_mult_.get k),
         acc.2.set k (acc.2.get k + s.coordinates_.get k i))) acc)
      (la.Scale (-1) (s.gradient_.CopyValues s.coordinates_),
       (Vector.Init s.new_dimension_.toNat).SetAll 0)

/-- The object and the count of penalty-growth rounds after the driver's calls
`LocalSearch_(&step)`, `UpdateLagrangeMult_()`, `LocalSearch_(&step)`,
`UpdateLagrangeMult_()` on `lineSearchState`. -/
def lineDriverResult : NonConvexMVU ℚ × ℕ :=
  (runCalls sqrtExact [.search 1, .update, .search 8, .update] (lineSearchState, 0)).get
    (by decide!)

/-! ### Translations and storage accesses -/

/-- The matrix `coord` with the vector `t` added to every column: for every column `i`,
`la::AddExpert(n_rows, 1, t, coord.GetColumnPtr(i))`. -/
def translateColumns (coord : Matrix K) (t : ℕ → K) : Matrix K :=
  forLoop coord.n_cols (fun i g =>
    { g with ptr := (la.AddExpert (g.n_rows : ℤ) 1 t g.ptr (g.ColumnOffset i)) }) coord

/-- Modelled from the spec: one access to the storage of a fastlib container (the classes
`Matrix`, `Vector` and `ArrayList` and the `la` routines are not part of the sources at hand),
with the sizes of the container at the access. -/
inductive Access where
  /-- `v[i]` on a `Vector` or an `ArrayList` of `length` elements -/
  | index (length i : ℕ) : Access
  /-- `m.GetColumnPtr(c)` on a matrix of `n_cols` columns -/
  | column (n_cols c : ℕ) : Access
  /-- `m.get(r, c)` or `m.set(r, c, v)` on an `n_rows x n_cols` matrix -/
  | element (n_rows n_cols r c : ℕ) : Access
  /-- a routine of `la` reading or writing `length` consecutive cells from a pointer at
  which `available` cells remain (a column pointer, a vector or a local array) -/
  | cells (available length : ℕ) : Access
  /-- `dst.CopyValues(src)`, `dst` of `n_rows x n_cols` and `src` of `src_rows x src_cols` -/
  | copy (n_rows n_cols src_rows src_cols : ℕ) : Access

/-- Modelled from the spec: the access stays within the container. -/
def Access.inBounds : Access → Prop
  | .index length i => i < length
  | .column n_cols c => c < n_cols
  | .element n_rows n_cols r c => r < n_rows ∧ c < n_cols
  | .cells available length => length ≤ available
  | .copy n_rows n_cols src_rows src_cols => n_rows = src_rows ∧ n_cols = src_cols

/-- Whether an access stays within the container can be computed. -/
instance Access.decidableInBounds (a : Access) : Decidable a.inBounds := by
  cases a <;> unfold Access.inBounds <;> infer_instance

/-- The accesses made by `ComputeFeasibilityError_(&distance_constraint,
&centering_constraint)`, in the order of the code. -/
def ComputeFeasibilityError_accesses (s : NonConvexMVU K) : List Access :=
  let deviations : ℕ := s.new_dimension_.toNat
  let acc : List Access :=
    forLoop s.coordinates_.n_cols (fun i acc =>
      let acc : List Access :=
        forLoop s.knns_.toNat (fun k acc =>
          acc ++ [.column s.coordinates_.n_cols i,
                  .index s.neighbors_.size (i * s.knns_.toNat + k),
                  .column s.coordinates_.n_cols (s.neighbors_.get (i * s.knns_.toNat + k)),
                  .cells s.coordinates_.n_rows s.new_dimension_.toNat,
                  .cells s.coordinates_.n_rows s.new_dimension_.toNat,
                  .index s.distances_.size (i * s.knns_.toNat + k)]) acc
      forLoop s.new_dimension_.toNat (fun k acc =>
        acc ++ [.index deviations k,
                .element s.coordinates_.n_rows s.coordinates_.n_cols k i]) acc) []
  forLoop s.new_dimension_.toNat (fun k acc =>
    acc ++ [.index deviations k, .index deviations k]) acc

/-- The accesses made by `ComputeLagrangian_(coord)`, in the order of the code. -/
def ComputeLagrangian_accesses (s : NonConvexMVU K) (coord : Matrix K) : List Access :=
  let deviations : ℕ := s.new_dimension_.toNat
  let acc : List Access :=
    forLoop coord.n_cols (fun i acc =>
      let acc : List Access :=
        acc ++ [.column coord.n_cols i, .column coord.n_cols i,
                .cells coord.n_rows s.new_dimension_.toNat,
                .cells coord.n_rows s.new_dimension_.toNat]
      let acc : List Access :=
        forLoop s.knns_.toNat (fun k acc =>
          acc ++ [.column coord.n_cols i,
                  .index s.neighbors_.size (i * s.knns_.toNat + k),
                  .column coord.n_cols (s.neighbors_.get (i * s.knns_.toNat + k)),
                  .cells coord.n_rows s.new_dimension_.toNat,
                  .cells coord.n_rows s.new_dimension_.toNat,
                  .index s.distances_.size (i * s.knns_.toNat + k),
                  .index s.lagrange_mult_.length i]) acc
      forLoop s.new_dimension_.toNat (fun k acc =>
        acc ++ [.index deviations k, .element coord.n_rows coord.n_cols k i]) acc) []
  forLoop s.new_dimension_.toNat (fun k acc =>
    acc ++ [.index deviations k, .index s.centering_lagrange_mult_.length k,
            .index deviations k, .index deviations k]) acc

/-- The accesses made by `ComputeGradient_()`, in the order of the code. -/
def ComputeGradient_accesses (s : NonConvexMVU K) : List Access :=
  let acc : List Access :=
    [.copy s.gradient_.n_rows s.gradient_.n_cols s.coordinates_.n_rows s.coordinates_.n_cols]
  let dimension_sums : ℕ := s.new_dimension_.toNat
  let acc : List Access :=
    forLoop s.gradient_.n_cols (fun i acc =>
      let acc : List Access :=
        forLoop s.knns_.toNat (fun k acc =>
          let a_i_r : ℕ := s.new_dimension_.toNat
          acc ++ [.column s.coordinates_.n_cols i,
                  .index s.neighbors_.size (i * s.knns_.toNat + k),
                  .column s.coordinates_.n_cols (s.neighbors_.get (i * s.knns_.toNat + k)),
                  .cells s.coordinates_.n_rows s.new_dimension_.toNat,
                  .cells s.coordinates_.n_rows s.new_dimension_.toNat,
                  .cells a_i_r s.new_dimension_.toNat,
                  .cells s.coordinates_.n_rows s.new_dimension_.toNat,
                  .cells s.coordinates_.n_rows s.new_dimension_.toNat,
                  .index s.distances_.size (i * s.knns_.toNat + k),
                  .index s.lagrange_mult_.length (i * s.knns_.toNat + k),
                  .column s.gradient_.n_cols i,
                  .cells a_i_r s.new_dimension_.toNat,
                  .cells s.gradient_.n_rows s.new_dimension_.toNat,
                  .index s.lagrange_mult_.length (i * s.knns_.toNat + k),
                  .index s.neighbors_.size (i * s.knns_.toNat + k),
                  .column s.gradient_.n_cols (s.neighbors_.get (i * s.knns_.toNat + k)),
                  .cells a_i_r s.new_dimension_.toNat,
                  .cells s.gradient_.n_rows s.new_dimension_.toNat]) acc
      forLoop s.new_dimension_.toNat (fun k acc =>
        acc ++ [.element s.gradient_.n_rows s.gradient_.n_cols k i,
                .index s.centering_lagrange_mult_.length k,
                .element s.gradient_.n_rows s.gradient_.n_cols k i,
                .index dimension_sums k,
                .element s.coordinates_.n_rows s.coordinates_.n_cols k i]) acc) acc
  forLoop s.gradient_.n_cols (fun i acc =>
    acc ++ [.cells dimension_sums s.new_dimension_.toNat,
            .column s.gradient_.n_cols i,
            .cells s.gradient_.n_rows s.new_dimension_.toNat]) acc

/-- The accesses made by `UpdateLagrangeMult_()`, in the order of the code: those of the
call of `ComputeFeasibilityError_` and, in the branch of sufficient progress, those of the
loop over the points. -/
def UpdateLagrangeMult_accesses (s : NonConvexMVU K) : List Access :=
  let acc : List Access := s.ComputeFeasibilityError_accesses
  let feasibility_error := s.ComputeFeasibilityError_.1 + s.ComputeFeasibilityError_.2
  if feasibility_error < s.eta_ * s.previous_feasibility_error_ then
    forLoop s.num_of_points_.toNat (fun i acc =>
      let acc : List Access :=
        forLoop s.new_dimension_.toNat (fun j acc =>
          acc ++ [.index s.centering_lagrange_mult_.length j,
                  .element s.coordinates_.n_rows s.coordinates_.n_cols j i]) acc
      forLoop s.knns_.toNat (fun k acc =>
        acc ++ [.column s.coordinates_.n_cols i,
                .index s.neighbors_.size (i * s.knns_.toNat + k),
                .column s.coordinates_.n_cols (s.neighbors_.get (i * s.knns_.toNat + k)),
                .cells s.coordinates_.n_rows s.new_dimension_.toNat,
                .cells s.coordinates_.n_rows s.new_dimension_.toNat,
                .index s.distances_.size (i * s.knns_.toNat + k),
                .index s.lagrange_mult_.length (i * s.knns_.toNat + k)]) acc) acc
  else
    acc

/-- The shapes that `Init` and `ComputeLocalOptimum` set up, with `N = num_of_points_`:
`coordinates_` and `gradient_` are `new_dimension_ x N`, `neighbors_` and `distances_` have
`N * knns_` elements and every neighbour index is below `N`, `lagrange_mult_` has `N * knns_`
elements and `centering_lagrange_mult_` has `new_dimension_` elements. -/
def ShapesSetUp (s : NonConvexMVU K) : Prop :=
  (s.coordinates_.n_rows : ℤ) = s.new_dimension_
  ∧ (s.coordinates_.n_cols : ℤ) = s.num_of_points_
  ∧ (s.gradient_.n_rows : ℤ) = s.new_dimension_
  ∧ (s.gradient_.n_cols : ℤ) = s.num_of_points_
  ∧ (s.neighbors_.size : ℤ) = s.num_of_points_ * s.knns_
  ∧ (s.distances_.size : ℤ) = s.num_of_points_ * s.knns_
  ∧ (∀ m, m < s.neighbors_.size → (s.neighbors_.get m : ℤ) < s.num_of_points_)
  ∧ (s.lagrange_mult_.length : ℤ) = s.num_of_points_ * s.knns_
  ∧ (s.centering_lagrange_mult_.length : ℤ) = s.new_dimension_

end NonConvexMVU

/-! ## Loops and linear algebra -/

namespace NonConvexMVU

variable {K : Type} [LinearOrderedField K]

theorem forLoop_zero {σ : Type} (body : ℕ → σ → σ) (s : σ) : forLoop 0 body s = s := rfl

theorem forLoop_succ {σ : Type} (n : ℕ) (body : ℕ → σ → σ) (s : σ) :
    forLoop (n + 1) body s = body n (forLoop n body s) := by
  simp [forLoop, List.range_succ]

theorem forLoop_add_eq_sum (n : ℕ) (f : ℕ → K) (a : K) :
    forLoop n (fun i acc => acc + f i) a = a + ∑ i in Finset.range n, f i := by
  induction n with
  | zero => simp [forLoop_zero]
  | succ n ih => rw [forLoop_succ, ih, Finset.sum_range_succ, add_assoc]

theorem forLoop_fst_add {β : Type} (n : ℕ) (f : ℕ → K) (acc : K × β) :
    forLoop n (fun k (acc : K × β) => (acc.1 + f k, acc.2)) acc
      = (acc.1 + ∑ k in Finset.range n, f k, acc.2) := by
  induction n with
  | zero => simp [forLoop_zero]
  | succ n ih => rw [forLoop_succ, ih, Finset.sum_range_succ, add_assoc]

theorem forLoop_snd_accumulate {β : Type} (n : ℕ) (f : ℕ → K) (acc : β × Vector K) :
    forLoop n (fun k (acc : β × Vector K) => (acc.1, acc.2.set k (acc.2.get k + f k))) acc
      = (acc.1, { acc.2 with ptr := fun j => if j < n then acc.2.ptr j + f j else acc.2.ptr j })
    := by
  induction n with
  | zero => simp [forLoop_zero]
  | succ n ih =>
    rw [forLoop_succ, ih]
    simp only [Vector.set, Vector.get]
    congr 2
    funext j
    by_cases h : j = n
    · subst h; simp
    · rcases Nat.lt_or_gt_of_ne h with h1 | h1
      · simp [Function.update_noteq h, h1, Nat.lt_succ_of_lt h1]
      · have h2 : ¬ j < n := by omega
        have h3 : ¬ j < n + 1 := by omega
        simp [Function.update_noteq h, h2, h3]

theorem DistanceSqEuclidean_eq_sum (length : ℤ) (x y : ℕ → K) :
    la.DistanceSqEuclidean length x y = ∑ j in Finset.range length.toNat, (x j - y j) ^ 2 := by
  unfold la.DistanceSqEuclidean
  rw [forLoop_add_eq_sum, zero_add]
  exact Finset.sum_congr rfl (fun j _ => (sq _).symm)

theorem Dot_self_eq_sum (length : ℤ) (x : ℕ → K) :
    la.Dot length x x = ∑ j in Finset.range length.toNat, x j ^ 2 := by
  unfold la.Dot
  rw [forLoop_add_eq_sum, zero_add]
  exact Finset.sum_congr rfl (fun j _ => (sq _).symm)

theorem Matrix_get_congr (A B : Matrix K) (hr : A.n_rows = B.n_rows)
    (hp : ∀ j, j < A.n_rows * A.n_cols → A.ptr j = B.ptr j) (r i : ℕ)
    (hr' : r < A.n_rows) (hi : i < A.n_cols) : A.get r i = B.get r i := by
  unfold Matrix.get Matrix.ColumnOffset
  rw [← hr]
  apply hp
  calc i * A.n_rows + r < i * A.n_rows + A.n_rows := Nat.add_lt_add_left hr' _
    _ = (i + 1) * A.n_rows := by ring
    _ ≤ A.n_cols * A.n_rows := Nat.mul_le_mul_right _ hi
    _ = A.n_rows * A.n_cols := Nat.mul_comm _ _

/-! ## `UpdateLagrangeMult_` (C1, C2, C3) -/

theorem update_centering_loop (s : NonConvexMVU K) (L C : ℕ → K) (i n : ℕ) :
    forLoop n (fun j (t : NonConvexMVU K) =>
      { t with centering_lagrange_mult_ :=
          (t.centering_lagrange_mult_.set j
            (t.centering_lagrange_mult_.get j - t.sigma_ * t.coordinates_.get j i)) })
      (s.withMult L C)
    = s.withMult L (fun j => if j < n then C j - s.sigma_ * s.coordinates_.get j i else C j) := by
  induction n with
  | zero => simp [forLoop_zero]
  | succ n ih =>
    rw [forLoop_succ, ih]
    simp only [withMult, Vector.set, Vector.get]
    congr 2
    funext j
    by_cases h : j = n
    · subst h; simp
    · rcases Nat.lt_or_gt_of_ne h with h1 | h1
      · simp [Function.update_noteq h, h1, Nat.lt_succ_of_lt h1]
      · have h2 : ¬ j < n := by omega
        have h3 : ¬ j < n + 1 := by omega
        simp [Function.update_noteq h, h2, h3]

theorem update_pair_loop (s : NonConvexMVU K) (L C : ℕ → K) (i n : ℕ) :
    forLoop n (fun k (t : NonConvexMVU K) =>
      let point1 := t.coordinates_.GetColumnPtr i
      let point2 := t.coordinates_.GetColumnPtr (t.neighbors_.get (i * t.knns_.toNat + k))
      let dist_diff := la.DistanceSqEuclidean t.new_dimension_ point1 point2
                       - t.distances_.get (i * t.knns_.toNat + k)
      { t with lagrange_mult_ :=
          (t.lagrange_mult_.set (i * t.knns_.toNat + k)
            (t.lagrange_mult_.get (i * t.knns_.toNat + k) - t.sigma_ * dist_diff)) })
      (s.withMult L C)
    = s.withMult (fun m => if i * s.knns_.toNat ≤ m ∧ m < i * s.knns_.toNat + n
                           then L m - s.sigma_ * s.distDiff i m else L m) C := by
  induction n with
  | zero =>
    have h : ∀ m, ¬ (i * s.knns_.toNat ≤ m ∧ m < i * s.knns_.toNat + 0) := by
      intro m; omega
    simp only [forLoop_zero, h, if_false]
  | succ n ih =>
    rw [forLoop_succ, ih]
    simp only [withMult, Vector.set, Vector.get, distDiff]
    congr 2
    funext m
    by_cases h : m = i * s.knns_.toNat + n
    · subst h; simp
    · have h' : (i * s.knns_.toNat ≤ m ∧ m < i * s.knns_.toNat + (n + 1)) ↔
          (i * s.knns_.toNat ≤ m ∧ m < i * s.knns_.toNat + n) := by omega
      simp [Function.update_noteq h, h']

theorem update_points_loop (s : NonConvexMVU K) (n : ℕ) :
    forLoop n (fun i (s : NonConvexMVU K) =>
        let s : NonConvexMVU K :=
          forLoop s.new_dimension_.toNat (fun j s =>
            { s with centering_lagrange_mult_ :=
                (s.centering_lagrange_mult_.set j
                  (s.centering_lagrange_mult_.get j - s.sigma_ * s.coordinates_.get j i)) }) s
        forLoop s.knns_.toNat (fun k s =>
          let point1 := s.coordinates_.GetColumnPtr i
          let point2 := s.coordinates_.GetColumnPtr (s.neighbors_.get (i * s.knns_.toNat + k))
          let dist_diff := la.DistanceSqEuclidean s.new_dimension_ point1 point2
                           - s.distances_.get (i * s.knns_.toNat + k)
          { s with lagrange_mult_ :=
              (s.lagrange_mult_.set (i * s.knns_.toNat + k)
                (s.lagrange_mult_.get (i * s.knns_.toNat + k) - s.sigma_ * dist_diff)) }) s) s
    = s.withMult (s.pairMultAfter n) (s.centeringMultAfter n) := by
  induction n with
  | zero =>
    have hp : s.pairMultAfter 0 = s.lagrange_mult_.ptr := by
      funext m; simp [pairMultAfter]
    have hc : s.centeringMultAfter 0 = s.centering_lagrange_mult_.ptr := by
      funext j; simp [centeringMultAfter]
    rw [forLoop_zero, hp, hc]
    rfl
  | succ n ih =>
    rw [forLoop_succ, ih]
    have e1 : (s.withMult (s.pairMultAfter n) (s.centeringMultAfter n)).new_dimension_
        = s.new_dimension_ := rfl
    have e2 : (s.withMult (s.pairMultAfter n)
        (fun j => if j < s.new_dimension_.toNat
          then s.centeringMultAfter n j - s.sigma_ * s.coordinates_.get j n
          else s.centeringMultAfter n j)).knns_ = s.knns_ := rfl
    simp only [e1]
    rw [update_centering_loop]
    simp only [e2]
    rw [update_pair_loop]
    simp only [withMult]
    congr 2
    · funext m
      simp only [pairMultAfter]
      by_cases h1 : m < n * s.knns_.toNat
      · have h2 : ¬ (n * s.knns_.toNat ≤ m ∧ m < n * s.knns_.toNat + s.knns_.toNat) := by omega
        have h3 : m < (n + 1) * s.knns_.toNat := by rw [Nat.succ_mul]; omega
        simp [h1, h2, h3]
      · by_cases h2 : m < n * s.knns_.toNat + s.knns_.toNat
        · have h3 : m < (n + 1) * s.knns_.toNat := by rw [Nat.succ_mul]; omega
          have h4 : n * s.knns_.toNat ≤ m := by omega
          have hk : 0 < s.knns_.toNat := by omega
          have h5 : m / s.knns_.toNat = n := by
            apply Nat.div_eq_of_lt_le
            · simpa [Nat.mul_comm] using h4
            · simpa [Nat.succ_mul, Nat.mul_comm] using h3
          simp [h1, h2, h3, h4, h5]
        · have h3 : ¬ m < (n + 1) * s.knns_.toNat := by rw [Nat.succ_mul]; omega
          have h4 : ¬ (n * s.knns_.toNat ≤ m ∧ m < n * s.knns_.toNat + s.knns_.toNat) := by
            omega
          simp [h1, h3, h4]
    · funext j
      simp only [centeringMultAfter]
      by_cases h : j < s.new_dimension_.toNat
      · simp [h, Finset.sum_range_succ]; ring
      · simp [h]

theorem distDiff_eq (s : NonConvexMVU K) (i m : ℕ) :
    s.distDiff i m = s.embeddedDistanceSq s.coordinates_ i (s.neighbors_.get m) - s.distances_.get m := by
  simp only [distDiff, DistanceSqEuclidean_eq_sum, embeddedDistanceSq, Matrix.GetColumnPtr,
    Matrix.get]

theorem UpdateLagrangeMult_of_lt (s : NonConvexMVU K)
    (h : s.ComputeFeasibilityError < s.eta_ * s.previous_feasibility_error_) :
    s.UpdateLagrangeMult_ =
      { s.withMult (s.pairMultAfter s.num_of_points_.toNat)
          (s.centeringMultAfter s.num_of_points_.toNat) with
        previous_feasibility_error_ := s.ComputeFeasibilityError } := by
  unfold ComputeFeasibilityError at h
  unfold UpdateLagrangeMult_
  simp only [h, if_true]
  rw [update_points_loop]
  rfl

theorem UpdateLagrangeMult_of_not_lt (s : NonConvexMVU K)
    (h : ¬ s.ComputeFeasibilityError < s.eta_ * s.previous_feasibility_error_) :
    s.UpdateLagrangeMult_ =
      { s with sigma_ := s.sigma_ * s.gamma_
               previous_feasibility_error_ := s.ComputeFeasibilityError } := by
  unfold ComputeFeasibilityError at h
  unfold UpdateLagrangeMult_
  simp only [h, if_false]
  rfl

theorem UpdateLagrangeMult_frame (s : NonConvexMVU K) :
    s.UpdateLagrangeMult_.max_iterations_ = s.max_iterations_
    ∧ s.UpdateLagrangeMult_.tolerance_ = s.tolerance_
    ∧ s.UpdateLagrangeMult_.ComputeFeasibilityError_ = s.ComputeFeasibilityError_
    ∧ s.UpdateLagrangeMult_.coordinates_ = s.coordinates_
    ∧ s.UpdateLagrangeMult_.gradient_ = s.gradient_ := by
  by_cases h : s.ComputeFeasibilityError < s.eta_ * s.previous_feasibility_error_
  · rw [UpdateLagrangeMult_of_lt s h]; exact ⟨rfl, rfl, rfl, rfl, rfl⟩
  · rw [UpdateLagrangeMult_of_not_lt s h]; exact ⟨rfl, rfl, rfl, rfl, rfl⟩

/-- C1. `UpdateLagrangeMult_`, success branch: when the current feasibility error is strictly
below `eta_ * previous_feasibility_error_`, every pair multiplier `lagrange_mult_[i*knns_+k]`
becomes its old value minus `sigma_` times (squared embedded distance of the pair minus its
target distance), every centering multiplier becomes its old value minus `sigma_` times the
sum of that coordinate over all points, and `sigma_` is unchanged. -/
theorem UpdateLagrangeMult_success_branch (s : NonConvexMVU K)
    (h : s.ComputeFeasibilityError < s.eta_ * s.previous_feasibility_error_) :
    (∀ i k, i < s.num_of_points_.toNat → k < s.knns_.toNat →
      s.UpdateLagrangeMult_.lagrange_mult_.get (i * s.knns_.toNat + k)
        = s.lagrange_mult_.get (i * s.knns_.toNat + k)
          - s.sigma_ * (s.embeddedDistanceSq s.coordinates_ i
                          (s.neighbors_.get (i * s.knns_.toNat + k))
                        - s.distances_.get (i * s.knns_.toNat + k)))
    ∧ (∀ j, j < s.new_dimension_.toNat →
      s.UpdateLagrangeMult_.centering_lagrange_mult_.get j
        = s.centering_lagrange_mult_.get j
          - s.sigma_ * ∑ i in Finset.range s.num_of_points_.toNat, s.coordinates_.get j i)
    ∧ s.UpdateLagrangeMult_.sigma_ = s.sigma_ := by
  rw [UpdateLagrangeMult_of_lt s h]
  refine ⟨?_, ?_, rfl⟩
  · intro i k hi hk
    have h1 : i * s.knns_.toNat + k < s.num_of_points_.toNat * s.knns_.toNat := by
      calc i * s.knns_.toNat + k < i * s.knns_.toNat + s.knns_.toNat := by omega
        _ = (i + 1) * s.knns_.toNat := by ring
        _ ≤ s.num_of_points_.toNat * s.knns_.toNat := Nat.mul_le_mul_right _ hi
    have h2 : (i * s.knns_.toNat + k) / s.knns_.toNat = i := by
      rw [Nat.add_comm, Nat.add_mul_div_right _ _ (by omega), Nat.div_eq_of_lt hk, Nat.zero_add]
    simp only [withMult, Vector.get, pairMultAfter, h1, if_true, h2, distDiff_eq]
  · intro j hj
    simp only [withMult, Vector.get, centeringMultAfter, hj, if_true]

theorem twoPoints_feasibility : (twoPoints ℚ).ComputeFeasibilityError = 3 := by
  norm_num [ComputeFeasibilityError, ComputeFeasibilityError_, twoPoints, ctor, forLoop,
    List.range_succ, la.DistanceSqEuclidean, math.Sqr, Matrix.GetColumnPtr, Matrix.get,
    Matrix.ColumnOffset, ArrayList.get, Vector.get, Vector.set, Vector.Init, Vector.SetAll]

/-- C1, witness: on `twoPoints` the eta-test holds (`3 < 0.25 * 100`) and the multiplier of
the pair of point `1` is updated as stated. -/
theorem UpdateLagrangeMult_success_branch_witness :
    (twoPoints ℚ).ComputeFeasibilityError
      < (twoPoints ℚ).eta_ * (twoPoints ℚ).previous_feasibility_error_
    ∧ (twoPoints ℚ).UpdateLagrangeMult_.lagrange_mult_.get (1 * (twoPoints ℚ).knns_.toNat + 0)
        = (twoPoints ℚ).lagrange_mult_.get (1 * (twoPoints ℚ).knns_.toNat + 0)
          - (twoPoints ℚ).sigma_
            * ((twoPoints ℚ).embeddedDistanceSq (twoPoints ℚ).coordinates_ 1
                  ((twoPoints ℚ).neighbors_.get (1 * (twoPoints ℚ).knns_.toNat + 0))
                - (twoPoints ℚ).distances_.get (1 * (twoPoints ℚ).knns_.toNat + 0)) :=
  have h : (twoPoints ℚ).ComputeFeasibilityError
      < (twoPoints ℚ).eta_ * (twoPoints ℚ).previous_feasibility_error_ := by
    rw [twoPoints_feasibility]; norm_num [twoPoints, ctor]
  ⟨h, (UpdateLagrangeMult_success_branch (twoPoints ℚ) h).1 1 0 (by decide) (by decide)⟩

/-- C2. `UpdateLagrangeMult_`, failure branch: when the current feasibility error is not
strictly below `eta_ * previous_feasibility_error_`, after the call `sigma_` is `gamma_` times
its old value and every entry of `lagrange_mult_` and of `centering_lagrange_mult_` is
unchanged. -/
theorem UpdateLagrangeMult_failure_branch (s : NonConvexMVU K)
    (h : ¬ s.ComputeFeasibilityError < s.eta_ * s.previous_feasibility_error_) :
    s.UpdateLagrangeMult_.sigma_ = s.gamma_ * s.sigma_
    ∧ (∀ m, s.UpdateLagrangeMult_.lagrange_mult_.get m = s.lagrange_mult_.get m)
    ∧ (∀ j, s.UpdateLagrangeMult_.centering_lagrange_mult_.get j
              = s.centering_lagrange_mult_.get j) := by
  rw [UpdateLagrangeMult_of_not_lt s h]
  exact ⟨mul_comm _ _, fun _ => rfl, fun _ => rfl⟩

theorem twoPointsStalled_feasibility : (twoPointsStalled ℚ).ComputeFeasibilityError = 3 :=
  twoPoints_feasibility

/-- C2, witness: on `twoPointsStalled` the eta-test fails (`3` is not below `0.25 * 4`) and
`sigma_` is multiplied by `gamma_`. -/
theorem UpdateLagrangeMult_failure_branch_witness :
    ¬ (twoPointsStalled ℚ).ComputeFeasibilityError
        < (twoPointsStalled ℚ).eta_ * (twoPointsStalled ℚ).previous_feasibility_error_
    ∧ (twoPointsStalled ℚ).UpdateLagrangeMult_.sigma_
        = (twoPointsStalled ℚ).gamma_ * (twoPointsStalled ℚ).sigma_ :=
  have h : ¬ (twoPointsStalled ℚ).ComputeFeasibilityError
      < (twoPointsStalled ℚ).eta_ * (twoPointsStalled ℚ).previous_feasibility_error_ := by
    rw [twoPointsStalled_feasibility]; norm_num [twoPointsStalled, twoPoints, ctor]
  ⟨h, (UpdateLagrangeMult_failure_branch (twoPointsStalled ℚ) h).1⟩

/-- C3, the code at the failing input `twoPointsStalled`: the eta-test fails (the current
error `3` is not below `eta_ * 4 = 1`), so the call is in the penalty-growth branch, and yet
`previous_feasibility_error_` goes from `4` to `3`: the assignment after the `if` runs in
both branches. -/
theorem UpdateLagrangeMult_failure_branch_overwrites_previous :
    ¬ (twoPointsStalled ℚ).ComputeFeasibilityError
        < (twoPointsStalled ℚ).eta_ * (twoPointsStalled ℚ).previous_feasibility_error_
    ∧ (twoPointsStalled ℚ).previous_feasibility_error_ = 4
    ∧ (twoPointsStalled ℚ).UpdateLagrangeMult_.previous_feasibility_error_ = 3 := by
  have h : ¬ (twoPointsStalled ℚ).ComputeFeasibilityError
      < (twoPointsStalled ℚ).eta_ * (twoPointsStalled ℚ).previous_feasibility_error_ := by
    rw [twoPointsStalled_feasibility]; norm_num [twoPointsStalled, twoPoints, ctor]
  refine ⟨h, rfl, ?_⟩
  rw [UpdateLagrangeMult_of_not_lt _ h]
  exact twoPointsStalled_feasibility

/-! ## `ComputeLagrangian_` (C5, C6) -/

theorem deviationsAfter_zero (s : NonConvexMVU K) (coord : Matrix K) :
    (Vector.Init s.new_dimension_.toNat : Vector K).SetAll 0 = s.deviationsAfter coord 0 := by
  simp [Vector.Init, Vector.SetAll, deviationsAfter]

theorem deviationsAfter_succ (s : NonConvexMVU K) (coord : Matrix K) (n : ℕ) :
    ({ s.deviationsAfter coord n with
        ptr := fun j => if j < s.new_dimension_.toNat
                        then (s.deviationsAfter coord n).ptr j + coord.get j n
                        else (s.deviationsAfter coord n).ptr j } : Vector K)
      = s.deviationsAfter coord (n + 1) := by
  simp only [deviationsAfter]
  congr 1
  funext j
  by_cases h : j < s.new_dimension_.toNat
  · simp [h, Finset.sum_range_succ]
  · simp [h]

theorem ComputeLagrangian_columns (s : NonConvexMVU K) (coord : Matrix K) (n : ℕ) :
    forLoop n (fun i (acc : K × Vector K) =>
      let acc : K × Vector K :=
        (acc.1 - la.Dot s.new_dimension_ (coord.GetColumnPtr i) (coord.GetColumnPtr i), acc.2)
      let acc : K × Vector K :=
        forLoop s.knns_.toNat (fun k acc =>
          let point1 := coord.GetColumnPtr i
          let point2 := coord.GetColumnPtr (s.neighbors_.get (i * s.knns_.toNat + k))
          let dist_diff := la.DistanceSqEuclidean s.new_dimension_ point1 point2
                           - s.distances_.get (i * s.knns_.toNat + k)
          (acc.1 + (-(s.lagrange_mult_.get i) * dist_diff
                    + 1 / 2 * s.sigma_ * dist_diff * dist_diff), acc.2)) acc
      forLoop s.new_dimension_.toNat (fun k acc =>
        (acc.1, acc.2.set k (acc.2.get k + coord.get k i))) acc)
      (0, (Vector.Init s.new_dimension_.toNat).SetAll 0)
    = (∑ i in Finset.range n, s.lagrangianColumnTerm coord i, s.deviationsAfter coord n) := by
  induction n with
  | zero => simp [forLoop_zero, deviationsAfter_zero s coord]
  | succ n ih =>
    rw [forLoop_succ, ih]
    simp only []
    rw [forLoop_fst_add, forLoop_snd_accumulate]
    simp only []
    rw [deviationsAfter_succ, Finset.sum_range_succ]
    congr 1
    simp only [lagrangianColumnTerm, distanceConstraint, embeddedDistanceSq,
      DistanceSqEuclidean_eq_sum, Dot_self_eq_sum, Matrix.GetColumnPtr, Matrix.get]
    ring

theorem ComputeLagrangian_eq (s : NonConvexMVU K) (coord : Matrix K) :
    s.ComputeLagrangian_ coord
      = 1 / 2 * ((∑ i in Finset.range coord.n_cols, s.lagrangianColumnTerm coord i)
          + ∑ j in Finset.range s.new_dimension_.toNat,
              (-(centeringConstraint coord j) * s.centering_lagrange_mult_.get j
                + 1 / 2 * s.sigma_ * centeringConstraint coord j * centeringConstraint coord j))
    := by
  unfold ComputeLagrangian_
  simp only []
  rw [ComputeLagrangian_columns, forLoop_add_eq_sum]
  congr 2
  apply Finset.sum_congr rfl
  intro j hj
  have hj' : j < s.new_dimension_.toNat := Finset.mem_range.mp hj
  simp only [Vector.get, deviationsAfter, hj', if_true, centeringConstraint]

theorem ComputeObjective_eq (s : NonConvexMVU K) (coord : Matrix K) :
    s.ComputeObjective_ coord
      = - ∑ i in Finset.range coord.n_cols,
            ∑ r in Finset.range s.new_dimension_.toNat, coord.get r i ^ 2 := by
  unfold ComputeObjective_
  have h : ∀ (n : ℕ) (a : K),
      forLoop n (fun i variance =>
        variance - la.Dot s.new_dimension_ (coord.GetColumnPtr i) (coord.GetColumnPtr i)) a
      = a - ∑ i in Finset.range n,
            ∑ r in Finset.range s.new_dimension_.toNat, coord.get r i ^ 2 := by
    intro n a
    induction n with
    | zero => simp [forLoop_zero]
    | succ n ih =>
      rw [forLoop_succ, ih, Finset.sum_range_succ, Dot_self_eq_sum]
      simp only [Matrix.GetColumnPtr, Matrix.get]
      ring
  rw [h, zero_sub]

theorem ComputeLagrangian_congr (s : NonConvexMVU K) (A B : Matrix K)
    (hr : A.n_rows = B.n_rows) (hc : A.n_cols = B.n_cols)
    (hp : ∀ j, j < A.n_rows * A.n_cols → A.ptr j = B.ptr j)
    (hb : s.CoordinatesInBounds A) :
    s.ComputeLagrangian_ A = s.ComputeLagrangian_ B := by
  obtain ⟨hd, hn⟩ := hb
  have hget : ∀ r i, r < s.new_dimension_.toNat → i < A.n_cols → A.get r i = B.get r i :=
    fun r i h1 h2 => Matrix_get_congr A B hr hp r i (lt_of_lt_of_le h1 hd) h2
  have hdist : ∀ i k, i < A.n_cols → k < s.knns_.toNat →
      s.distanceConstraint A i k = s.distanceConstraint B i k := by
    intro i k hi hk
    unfold distanceConstraint embeddedDistanceSq
    congr 1
    apply Finset.sum_congr rfl
    intro r hr'
    rw [hget r i (Finset.mem_range.mp hr') hi,
      hget r _ (Finset.mem_range.mp hr') (hn i k hi hk)]
  have hcen : ∀ j, j < s.new_dimension_.toNat →
      centeringConstraint A j = centeringConstraint B j := by
    intro j hj
    unfold centeringConstraint
    rw [← hc]
    exact Finset.sum_congr rfl (fun i hi => hget j i hj (Finset.mem_range.mp hi))
  rw [ComputeLagrangian_eq, ComputeLagrangian_eq, ← hc]
  congr 2
  · apply Finset.sum_congr rfl
    intro i hi
    have hi' := Finset.mem_range.mp hi
    unfold lagrangianColumnTerm
    congr 1
    · congr 1
      exact Finset.sum_congr rfl (fun r hr' => by rw [hget r i (Finset.mem_range.mp hr') hi'])
    · exact Finset.sum_congr rfl
        (fun k hk => by rw [hdist i k hi' (Finset.mem_range.mp hk)])
  · exact Finset.sum_congr rfl (fun j hj => by rw [hcen j (Finset.mem_range.mp hj)])

theorem ComputeLagrangian_with_coordinates (s : NonConvexMVU K) (c A : Matrix K) :
    ({ s with coordinates_ := c } : NonConvexMVU K).ComputeLagrangian_ A
      = s.ComputeLagrangian_ A := by
  simp only [ComputeLagrangian_]

/-- C5 as amended.  For every coordinate matrix, when the multiplier cell `lagrange_mult_[i]`
that the code reads for the pairs of point `i` agrees with the per-pair cell
`lagrange_mult_[i*knns_+k]` (as it does for `knns_ = 1`), `ComputeLagrangian_` equals one
half of `f(x) − λᵀc(x) + (σ/2)·‖c(x)‖²`. -/
theorem ComputeLagrangian_eq_half_spec (s : NonConvexMVU K) (coord : Matrix K)
    (hmult : ∀ i k, i < coord.n_cols → k < s.knns_.toNat →
      s.lagrange_mult_.get i = s.lagrange_mult_.get (i * s.knns_.toNat + k)) :
    s.ComputeLagrangian_ coord = 1 / 2 * s.specLagrangian coord := by
  rw [ComputeLagrangian_eq, specLagrangian, ComputeObjective_eq]
  congr 1
  simp only [lagrangianColumnTerm]
  have h1 : ∀ i ∈ Finset.range coord.n_cols,
      (∑ k in Finset.range s.knns_.toNat,
        (-(s.lagrange_mult_.get i) * s.distanceConstraint coord i k
          + 1 / 2 * s.sigma_ * s.distanceConstraint coord i k * s.distanceConstraint coord i k))
      = - (∑ k in Finset.range s.knns_.toNat,
            s.lagrange_mult_.get (i * s.knns_.toNat + k) * s.distanceConstraint coord i k)
        + s.sigma_ / 2 * ∑ k in Finset.range s.knns_.toNat, s.distanceConstraint coord i k ^ 2
      := by
    intro i hi
    rw [Finset.mul_sum, ← Finset.sum_neg_distrib, ← Finset.sum_add_distrib]
    apply Finset.sum_congr rfl
    intro k hk
    rw [hmult i k (Finset.mem_range.mp hi) (Finset.mem_range.mp hk)]
    ring
  rw [Finset.sum_add_distrib, Finset.sum_congr rfl h1, Finset.sum_add_distrib,
    Finset.sum_add_distrib, Finset.sum_neg_distrib, Finset.sum_neg_distrib, mul_add,
    Finset.mul_sum, Finset.mul_sum]
  have h2 : ∑ j in Finset.range s.new_dimension_.toNat,
      -(centeringConstraint coord j) * s.centering_lagrange_mult_.get j
      = - ∑ j in Finset.range s.new_dimension_.toNat,
          s.centering_lagrange_mult_.get j * centeringConstraint coord j := by
    rw [← Finset.sum_neg_distrib]
    exact Finset.sum_congr rfl (fun j _ => by ring)
  have h3 : ∑ j in Finset.range s.new_dimension_.toNat,
      1 / 2 * s.sigma_ * centeringConstraint coord j * centeringConstraint coord j
      = ∑ j in Finset.range s.new_dimension_.toNat,
          s.sigma_ / 2 * centeringConstraint coord j ^ 2 := by
    exact Finset.sum_congr rfl (fun j _ => by ring)
  rw [h2, h3]
  ring

theorem twoPoints_ComputeLagrangian :
    (twoPoints ℚ).ComputeLagrangian_ (twoPoints ℚ).coordinates_ = 44989 / 60 := by
  decide!

theorem twoPoints_specLagrangian :
    (twoPoints ℚ).specLagrangian (twoPoints ℚ).coordinates_ = 44989 / 30 := by
  decide!

/-- C5 as amended, witness: `twoPoints` has `knns_ = 1`, so the two multiplier cells of
every pair coincide. -/
theorem ComputeLagrangian_eq_half_spec_witness :
    (∀ i k, i < (twoPoints ℚ).coordinates_.n_cols → k < (twoPoints ℚ).knns_.toNat →
      (twoPoints ℚ).lagrange_mult_.get i
        = (twoPoints ℚ).lagrange_mult_.get (i * (twoPoints ℚ).knns_.toNat + k))
    ∧ (twoPoints ℚ).ComputeLagrangian_ (twoPoints ℚ).coordinates_
        = 1 / 2 * (twoPoints ℚ).specLagrangian (twoPoints ℚ).coordinates_ :=
  have h : ∀ i k, i < (twoPoints ℚ).coordinates_.n_cols → k < (twoPoints ℚ).knns_.toNat →
      (twoPoints ℚ).lagrange_mult_.get i
        = (twoPoints ℚ).lagrange_mult_.get (i * (twoPoints ℚ).knns_.toNat + k) := by
    intro i k _ hk
    have hk0 : k = 0 := by
      have : (twoPoints ℚ).knns_.toNat = 1 := rfl
      omega
    subst hk0
    have : (twoPoints ℚ).knns_.toNat = 1 := rfl
    rw [this, Nat.mul_one, Nat.add_zero]
  ⟨h, ComputeLagrangian_eq_half_spec (twoPoints ℚ) (twoPoints ℚ).coordinates_ h⟩

/-- C5, counterexample: on `twoPoints` the value of `ComputeLagrangian_` is `44989/60`,
half of the value `44989/30` of `f(x) − λᵀc(x) + (σ/2)·‖c(x)‖²`. -/
theorem ComputeLagrangian_ne_spec :
    (twoPoints ℚ).ComputeLagrangian_ (twoPoints ℚ).coordinates_
      ≠ (twoPoints ℚ).specLagrangian (twoPoints ℚ).coordinates_ := by
  rw [twoPoints_ComputeLagrangian, twoPoints_specLagrangian]; norm_num

/-- C6, the code at the failing input `threePoints` (`knns_ = 2`).  The pair (point `2`,
slot `1`) has constraint value `5` and multiplier cell `2*2+1 = 5`.  Overwriting that cell
leaves `ComputeLagrangian_` unchanged, overwriting cell `2` (the point's index) changes it;
`ComputeGradient_` does read cell `5`, and `UpdateLagrangeMult_` updates cell `5` with that
pair's constraint. -/
theorem ComputeLagrangian_ignores_pair_multiplier :
    (threePoints ℚ).distanceConstraint (threePoints ℚ).coordinates_ 2 1 = 5
    ∧ ((threePoints ℚ).withPairMultiplier (2 * 2 + 1) 1000).ComputeLagrangian_
          (threePoints ℚ).coordinates_
        = (threePoints ℚ).ComputeLagrangian_ (threePoints ℚ).coordinates_
    ∧ ((threePoints ℚ).withPairMultiplier 2 1000).ComputeLagrangian_
          (threePoints ℚ).coordinates_
        ≠ (threePoints ℚ).ComputeLagrangian_ (threePoints ℚ).coordinates_
    ∧ ((threePoints ℚ).withPairMultiplier (2 * 2 + 1) 1000).ComputeGradient_.gradient_.get 0 2
        ≠ (threePoints ℚ).ComputeGradient_.gradient_.get 0 2
    ∧ (threePoints ℚ).UpdateLagrangeMult_.lagrange_mult_.get (2 * 2 + 1)
        = (threePoints ℚ).lagrange_mult_.get (2 * 2 + 1) - (threePoints ℚ).sigma_ * 5 := by
  refine ⟨?_, ?_, ?_, ?_, ?_⟩ <;> decide!

/-! ## `ComputeGradient_` (C7) -/

theorem twoPoints_gradient_00 :
    (twoPoints ℝ).ComputeGradient_.gradient_.get 0 0 = 3000 + 19 / 30 := by
  norm_num [ComputeGradient_, twoPoints, ctor, forLoop,
      List.range_succ, la.DistanceSqEuclidean, la.SubOverwrite, la.AddExpert, la.Scale,
      Matrix.CopyValues, Matrix.Init, Matrix.set,
      Matrix.GetColumnPtr, Matrix.get,
      Matrix.ColumnOffset, ArrayList.get, Vector.get, Vector.set, Vector.Init, Vector.SetAll,
      Function.update]

theorem twoPoints_lagrangian_along (t : ℝ) :
    (twoPoints ℝ).ComputeLagrangian_ ((twoPoints ℝ).coordinates_.set 0 0 t)
      = 1 / 2 * (-(t ^ 2) - 1 - 5 / 6 * ((t - 1) ^ 2 - 2) + 1000 * ((t - 1) ^ 2 - 2) ^ 2
                 - (t + 1) / 5 + 500 * (t + 1) ^ 2) := by
  norm_num [ComputeLagrangian_, twoPoints, ctor, forLoop,
      List.range_succ, la.DistanceSqEuclidean, la.Dot, Matrix.set,
      Matrix.GetColumnPtr, Matrix.get,
      Matrix.ColumnOffset, ArrayList.get, Vector.get, Vector.set, Vector.Init, Vector.SetAll,
      Function.update]
  ring

/-- C7, the code at the failing input `twoPoints`: the partial derivative of
`ComputeLagrangian_` with respect to coordinate `(0, 0)` is `2500 + 11/15`, while
`ComputeGradient_` writes `3000 + 19/30` into entry `(0, 0)` of `gradient_` (the centering
part enters the gradient at twice its weight in the Lagrangian). -/
theorem ComputeGradient_is_not_the_derivative :
    HasDerivAt (fun t : ℝ =>
        (twoPoints ℝ).ComputeLagrangian_ ((twoPoints ℝ).coordinates_.set 0 0 t))
      (2500 + 11 / 15) ((twoPoints ℝ).coordinates_.get 0 0)
    ∧ (twoPoints ℝ).ComputeGradient_.gradient_.get 0 0 = 3000 + 19 / 30
    ∧ ¬ HasDerivAt (fun t : ℝ =>
        (twoPoints ℝ).ComputeLagrangian_ ((twoPoints ℝ).coordinates_.set 0 0 t))
      ((twoPoints ℝ).ComputeGradient_.gradient_.get 0 0) ((twoPoints ℝ).coordinates_.get 0 0) := by
  suffices hd : HasDerivAt (fun t : ℝ =>
        (twoPoints ℝ).ComputeLagrangian_ ((twoPoints ℝ).coordinates_.set 0 0 t))
      (2500 + 11 / 15) ((twoPoints ℝ).coordinates_.get 0 0) by
    refine ⟨hd, twoPoints_gradient_00, fun hg => ?_⟩
    have := hd.unique hg
    rw [twoPoints_gradient_00] at this
    norm_num at this
  have hx : (twoPoints ℝ).coordinates_.get 0 0 = 0 := by
    norm_num [twoPoints, ctor, Matrix.get, Matrix.ColumnOffset]
  rw [hx]
  have hfun : (fun t : ℝ =>
        (twoPoints ℝ).ComputeLagrangian_ ((twoPoints ℝ).coordinates_.set 0 0 t))
      = fun t : ℝ => 1 / 2 * (-(t ^ 2) - 1 - 5 / 6 * ((t - 1) ^ 2 - 2)
                 + 1000 * ((t - 1) ^ 2 - 2) ^ 2 - (t + 1) / 5 + 500 * (t + 1) ^ 2) :=
    funext twoPoints_lagrangian_along
  rw [hfun]
  have hid : HasDerivAt (fun t : ℝ => t) 1 0 := hasDerivAt_id 0
  have h1 : HasDerivAt (fun t : ℝ => t - 1) 1 0 := hid.sub_const 1
  have h2 : HasDerivAt (fun t : ℝ => t + 1) 1 0 := hid.add_const 1
  have h3 : HasDerivAt (fun t : ℝ => (t - 1) ^ 2 - 2) (2 * (0 - 1) ^ 1 * 1) 0 := by
    simpa using (h1.pow 2).sub_const 2
  have h := ((((((hid.pow 2).neg.sub_const 1).sub (h3.const_mul (5 / 6))).add
    ((h3.pow 2).const_mul 1000)).sub (h2.div_const 5)).add ((h2.pow 2).const_mul 500)).const_mul
    (1 / 2)
  convert h using 1
  norm_num

/-! ## `LocalSearch_` (C8, C9) -/

theorem trialPoint_step (sqrt : K → K) (s : NonConvexMVU K) (beta : K) (temp : Matrix K)
    (hr : temp.n_rows = s.coordinates_.n_rows) (hc : temp.n_cols = s.coordinates_.n_cols)
    (h0 : ∀ j, ¬ j < s.coordinates_.n_rows * s.coordinates_.n_cols → temp.ptr j = 0) :
    la.AddExpertMatrix (-s.step_size_ * beta / s.gradientNorm sqrt) s.gradient_
      (temp.CopyValues s.coordinates_) = s.trialPoint sqrt beta := by
  unfold trialPoint la.AddExpertMatrix Matrix.CopyValues Matrix.Init
  simp only [hr, hc]
  congr 1
  funext j
  by_cases h : j < s.coordinates_.n_rows * s.coordinates_.n_cols
  · simp [h]
  · simp [h, h0 j h]

theorem trialPoint_n_rows (sqrt : K → K) (s : NonConvexMVU K) (beta : K) :
    (s.trialPoint sqrt beta).n_rows = s.coordinates_.n_rows := rfl

theorem trialPoint_n_cols (sqrt : K → K) (s : NonConvexMVU K) (beta : K) :
    (s.trialPoint sqrt beta).n_cols = s.coordinates_.n_cols := rfl

theorem trialPoint_outside (sqrt : K → K) (s : NonConvexMVU K) (beta : K) (j : ℕ)
    (h : ¬ j < s.coordinates_.n_rows * s.coordinates_.n_cols) :
    (s.trialPoint sqrt beta).ptr j = 0 := by
  simp [trialPoint, la.AddExpertMatrix, Matrix.CopyValues, Matrix.Init, h]

theorem sufficientDecrease_iff (sqrt : K → K) (s : NonConvexMVU K) (n : ℕ) :
    ((s.gradientNorm sqrt ≠ 0 ∨ s.coordinates_.n_rows * s.coordinates_.n_cols = 0)
      ∧ s.ComputeLagrangian_ s.coordinates_
          - s.ComputeLagrangian_ (s.trialPoint sqrt (s.armijo_beta_ ^ (n + 1)))
        ≥ s.gradientNorm sqrt * s.armijo_sigma_ * s.armijo_beta_ * s.step_size_
            * s.armijo_beta_ ^ n)
    ↔ s.sufficientDecrease sqrt n := by
  unfold sufficientDecrease
  rw [show s.gradientNorm sqrt * s.armijo_sigma_ * s.armijo_beta_ * s.step_size_
          * s.armijo_beta_ ^ n
        = s.gradientNorm sqrt * s.armijo_sigma_ * s.armijo_beta_ ^ (n + 1) * s.step_size_
      by ring]

theorem LocalSearch_loop_none (sqrt : K → K) (s : NonConvexMVU K) (fuel : ℕ) :
    ∀ (n : ℕ) (temp : Matrix K), temp.n_rows = s.coordinates_.n_rows →
      temp.n_cols = s.coordinates_.n_cols →
      (∀ j, ¬ j < s.coordinates_.n_rows * s.coordinates_.n_cols → temp.ptr j = 0) →
      (∀ m, m < fuel → ¬ s.sufficientDecrease sqrt (n + m)) →
      LocalSearch_loop s (s.ComputeLagrangian_ s.coordinates_) (s.gradientNorm sqrt) fuel temp
        (s.armijo_beta_ ^ (n + 1))
        (s.gradientNorm sqrt * s.armijo_sigma_ * s.armijo_beta_ * s.step_size_
          * s.armijo_beta_ ^ n) = none := by
  induction fuel with
  | zero => intro n temp _ _ _ _; rfl
  | succ fuel ih =>
    intro n temp hr hc h0 hno
    have h1 : ¬ s.sufficientDecrease sqrt n := by simpa using hno 0 (Nat.succ_pos fuel)
    have h2 := (sufficientDecrease_iff sqrt s n).not.mpr h1
    unfold LocalSearch_loop
    simp only [trialPoint_step sqrt s _ temp hr hc h0, trialPoint_n_rows, trialPoint_n_cols, h2,
      if_false]
    have e1 : s.armijo_beta_ ^ (n + 1) * s.armijo_beta_ = s.armijo_beta_ ^ (n + 1 + 1) := by ring
    have e2 : s.gradientNorm sqrt * s.armijo_sigma_ * s.armijo_beta_ * s.step_size_
        * s.armijo_beta_ ^ n * s.armijo_beta_
        = s.gradientNorm sqrt * s.armijo_sigma_ * s.armijo_beta_ * s.step_size_
          * s.armijo_beta_ ^ (n + 1) := by ring
    rw [e1, e2]
    apply ih (n + 1) _ (trialPoint_n_rows sqrt s _) (trialPoint_n_cols sqrt s _)
      (trialPoint_outside sqrt s _)
    intro m hm
    have := hno (m + 1) (Nat.succ_lt_succ hm)
    rwa [show n + (m + 1) = n + 1 + m by omega] at this

theorem LocalSearch_loop_some (sqrt : K → K) (s : NonConvexMVU K) (fuel : ℕ) :
    ∀ (m n : ℕ) (temp : Matrix K), temp.n_rows = s.coordinates_.n_rows →
      temp.n_cols = s.coordinates_.n_cols →
      (∀ j, ¬ j < s.coordinates_.n_rows * s.coordinates_.n_cols → temp.ptr j = 0) →
      m < fuel → (∀ m', m' < m → ¬ s.sufficientDecrease sqrt (n + m')) →
      s.sufficientDecrease sqrt (n + m) →
      LocalSearch_loop s (s.ComputeLagrangian_ s.coordinates_) (s.gradientNorm sqrt) fuel temp
        (s.armijo_beta_ ^ (n + 1))
        (s.gradientNorm sqrt * s.armijo_sigma_ * s.armijo_beta_ * s.step_size_
          * s.armijo_beta_ ^ n)
      = some (s.trialPoint sqrt (s.armijo_beta_ ^ (n + m + 1)), s.armijo_beta_ ^ (n + m + 1),
              s.ComputeLagrangian_ (s.trialPoint sqrt (s.armijo_beta_ ^ (n + m + 1)))) := by
  induction fuel with
  | zero => intro m n temp _ _ _ hm; exact absurd hm (Nat.not_lt_zero m)
  | succ fuel ih =>
    intro m n temp hr hc h0 hm hno hyes
    have hiff := sufficientDecrease_iff sqrt s n
    unfold LocalSearch_loop
    simp only [trialPoint_step sqrt s _ temp hr hc h0, trialPoint_n_rows, trialPoint_n_cols]
    cases m with
    | zero =>
      have h2 := hiff.mpr (by simpa using hyes)
      rw [if_pos h2]
    | succ m =>
      have h1 : ¬ s.sufficientDecrease sqrt n := by simpa using hno 0 (Nat.succ_pos m)
      have h2 := hiff.not.mpr h1
      simp only [h2, if_false]
      have e1 : s.armijo_beta_ ^ (n + 1) * s.armijo_beta_ = s.armijo_beta_ ^ (n + 1 + 1) := by
        ring
      have e2 : s.gradientNorm sqrt * s.armijo_sigma_ * s.armijo_beta_ * s.step_size_
          * s.armijo_beta_ ^ n * s.armijo_beta_
          = s.gradientNorm sqrt * s.armijo_sigma_ * s.armijo_beta_ * s.step_size_
            * s.armijo_beta_ ^ (n + 1) := by ring
      rw [e1, e2]
      have e3 : n + (m + 1) + 1 = n + 1 + m + 1 := by omega
      rw [e3]
      apply ih m (n + 1) _ (trialPoint_n_rows sqrt s _) (trialPoint_n_cols sqrt s _)
        (trialPoint_outside sqrt s _) (Nat.lt_of_succ_lt_succ hm)
      · intro m' hm'
        have := hno (m' + 1) (Nat.succ_lt_succ hm')
        rwa [show n + (m' + 1) = n + 1 + m' by omega] at this
      · rwa [show n + (m + 1) = n + 1 + m by omega] at hyes

theorem LocalSearch_eq_none (sqrt : K → K) (s : NonConvexMVU K) (fuel : ℕ)
    (h : ∀ m, m < fuel → ¬ s.sufficientDecrease sqrt m) :
    s.LocalSearch_ sqrt fuel = none := by
  have := LocalSearch_loop_none sqrt s fuel 0
    (Matrix.Init s.coordinates_.n_rows s.coordinates_.n_cols) rfl rfl (fun _ _ => rfl)
    (by simpa using h)
  simp only [pow_zero, mul_one, Nat.zero_add, pow_one] at this
  unfold LocalSearch_
  simp only []
  unfold gradientNorm at this
  rw [this]

theorem LocalSearch_eq_some (sqrt : K → K) (s : NonConvexMVU K) (fuel m : ℕ)
    (hm : m < fuel) (hno : ∀ m', m' < m → ¬ s.sufficientDecrease sqrt m')
    (hyes : s.sufficientDecrease sqrt m) :
    s.LocalSearch_ sqrt fuel
      = some ({ s with coordinates_ :=
                  s.coordinates_.CopyValues (s.trialPoint sqrt (s.armijo_beta_ ^ (m + 1))) },
              s.step_size_ * s.armijo_beta_ ^ (m + 1)) := by
  have := LocalSearch_loop_some sqrt s fuel m 0
    (Matrix.Init s.coordinates_.n_rows s.coordinates_.n_cols) rfl rfl (fun _ _ => rfl) hm
    (by simpa using hno) (by simpa using hyes)
  simp only [pow_zero, mul_one, Nat.zero_add, pow_one] at this
  unfold LocalSearch_
  simp only []
  unfold gradientNorm at this
  rw [this]

theorem LocalSearch_isSome_iff (sqrt : K → K) (s : NonConvexMVU K) (fuel : ℕ) :
    (s.LocalSearch_ sqrt fuel).isSome = true ↔ ∃ n, n < fuel ∧ s.sufficientDecrease sqrt n := by
  classical
  constructor
  · intro h
    by_contra hne
    have hnone := LocalSearch_eq_none sqrt s fuel (fun m hm hs => hne ⟨m, hm, hs⟩)
    rw [hnone] at h
    exact Bool.false_ne_true h
  · intro h
    have hex : ∃ n, s.sufficientDecrease sqrt n := h.elim fun n hn => ⟨n, hn.2⟩
    have hlt : Nat.find hex < fuel := by
      obtain ⟨n, hn, hs⟩ := h
      exact lt_of_le_of_lt (Nat.find_min' hex hs) hn
    rw [LocalSearch_eq_some sqrt s fuel (Nat.find hex) hlt
      (fun m' hm' => Nat.find_min hex hm') (Nat.find_spec hex)]
    rfl

theorem LocalSearch_some_elim (sqrt : K → K) (s s' : NonConvexMVU K) (fuel : ℕ) (step : K)
    (h : s.LocalSearch_ sqrt fuel = some (s', step)) :
    ∃ n, n < fuel ∧ (∀ m, m < n → ¬ s.sufficientDecrease sqrt m) ∧ s.sufficientDecrease sqrt n
      ∧ s' = { s with coordinates_ :=
                s.coordinates_.CopyValues (s.trialPoint sqrt (s.armijo_beta_ ^ (n + 1))) }
      ∧ step = s.step_size_ * s.armijo_beta_ ^ (n + 1) := by
  classical
  have hsome : (s.LocalSearch_ sqrt fuel).isSome = true := by rw [h]; rfl
  have h1 := (LocalSearch_isSome_iff sqrt s fuel).mp hsome
  have hex : ∃ n, s.sufficientDecrease sqrt n := h1.elim fun n hn => ⟨n, hn.2⟩
  have hlt : Nat.find hex < fuel := by
    obtain ⟨n, hn, hs⟩ := h1
    exact lt_of_le_of_lt (Nat.find_min' hex hs) hn
  have h2 := LocalSearch_eq_some sqrt s fuel (Nat.find hex) hlt
    (fun m' hm' => Nat.find_min hex hm') (Nat.find_spec hex)
  rw [h2] at h
  have h3 := Option.some.inj h
  refine ⟨Nat.find hex, hlt, fun m' hm' => Nat.find_min hex hm', Nat.find_spec hex, ?_, ?_⟩
  · exact (congrArg Prod.fst h3).symm
  · exact (congrArg Prod.snd h3).symm

/-- C8.  Armijo sufficient decrease: whenever `LocalSearch_` returns, on an object whose
coordinate reads are within bounds, the reported step is `step_size_ * β` for the accepted
factor `β = armijo_beta_ ^ (n + 1)`, and the Lagrangian at the new `coordinates_` is at most
the Lagrangian at the old ones minus `armijo_sigma_ · β · step_size_ · ‖gradient_‖`. -/
theorem LocalSearch_sufficient_decrease (sqrt : K → K) (s s' : NonConvexMVU K) (fuel : ℕ)
    (step : K) (hb : s.CoordinatesInBounds s.coordinates_)
    (h : s.LocalSearch_ sqrt fuel = some (s', step)) :
    ∃ n, n < fuel ∧ step = s.step_size_ * s.armijo_beta_ ^ (n + 1)
      ∧ s'.ComputeLagrangian_ s'.coordinates_
          ≤ s.ComputeLagrangian_ s.coordinates_
            - s.armijo_sigma_ * s.armijo_beta_ ^ (n + 1) * s.step_size_ * s.gradientNorm sqrt := by
  obtain ⟨n, hn, -, hsuff, hs', hstep⟩ := LocalSearch_some_elim sqrt s s' fuel step h
  refine ⟨n, hn, hstep, ?_⟩
  have e1 : s'.ComputeLagrangian_ s'.coordinates_
      = s.ComputeLagrangian_
          (s.coordinates_.CopyValues (s.trialPoint sqrt (s.armijo_beta_ ^ (n + 1)))) := by
    rw [hs', ComputeLagrangian_with_coordinates]
  have e2 : s.ComputeLagrangian_
        (s.coordinates_.CopyValues (s.trialPoint sqrt (s.armijo_beta_ ^ (n + 1))))
      = s.ComputeLagrangian_ (s.trialPoint sqrt (s.armijo_beta_ ^ (n + 1))) := by
    refine ComputeLagrangian_congr s _ _ ?_ ?_ ?_ hb
    · rfl
    · rfl
    · intro j hj
      have hj' : j < s.coordinates_.n_rows * s.coordinates_.n_cols := hj
      simp [Matrix.CopyValues, hj']
  rw [e1, e2]
  have hge : s.gradientNorm sqrt * s.armijo_sigma_ * s.armijo_beta_ ^ (n + 1) * s.step_size_
      ≤ s.ComputeLagrangian_ s.coordinates_
        - s.ComputeLagrangian_ (s.trialPoint sqrt (s.armijo_beta_ ^ (n + 1))) := hsuff.2
  have hcomm : s.armijo_sigma_ * s.armijo_beta_ ^ (n + 1) * s.step_size_ * s.gradientNorm sqrt
      = s.gradientNorm sqrt * s.armijo_sigma_ * s.armijo_beta_ ^ (n + 1) * s.step_size_ := by
    ring
  rw [hcomm]
  linarith

theorem lineSearchState_inBounds :
    lineSearchState.CoordinatesInBounds lineSearchState.coordinates_ := by
  refine ⟨by decide!, ?_⟩
  intro i k hi hk
  have hi' : i < 3 := hi
  have hk' : k < 1 := hk
  interval_cases i <;> interval_cases k <;> decide!

/-- C8, witness: the `LocalSearch_` call of the run on `lineData` returns, with its reads in
bounds. -/
theorem LocalSearch_sufficient_decrease_witness :
    lineSearchState.CoordinatesInBounds lineSearchState.coordinates_
    ∧ lineSearchState.LocalSearch_ sqrtExact 1 = some (lineSearchResult.1, lineSearchResult.2)
    ∧ ∃ n, n < 1 ∧ lineSearchResult.2
          = lineSearchState.step_size_ * lineSearchState.armijo_beta_ ^ (n + 1)
      ∧ lineSearchResult.1.ComputeLagrangian_ lineSearchResult.1.coordinates_
          ≤ lineSearchState.ComputeLagrangian_ lineSearchState.coordinates_
            - lineSearchState.armijo_sigma_ * lineSearchState.armijo_beta_ ^ (n + 1)
              * lineSearchState.step_size_ * lineSearchState.gradientNorm sqrtExact :=
  have h : lineSearchState.LocalSearch_ sqrtExact 1
      = some (lineSearchResult.1, lineSearchResult.2) :=
    (Option.some_get _).symm
  ⟨lineSearchState_inBounds, h,
   LocalSearch_sufficient_decrease sqrtExact lineSearchState lineSearchResult.1 1
     lineSearchResult.2 lineSearchState_inBounds h⟩

/-- C9 as amended.  `LocalSearch_` has no floor on `β` and no abort, the only exit of its
loop is the `break` on the sufficient-decrease test: within `fuel` iterations it stops exactly
when one of the first `fuel` trials (`β = armijo_beta_ ^ (n + 1)`, `n = 0, 1, ...`) passes the
test, which takes a trial point that has a value (`‖gradient_‖ ≠ 0`, or a matrix without
cells); it then stops at the first such trial; and when no trial passes the test it does not
stop, whatever the number of trials. -/
theorem LocalSearch_stops_iff_some_trial_accepted (sqrt : K → K) (s : NonConvexMVU K) :
    (∀ fuel, (s.LocalSearch_ sqrt fuel).isSome = true
        ↔ ∃ n, n < fuel ∧ s.sufficientDecrease sqrt n)
    ∧ (∀ fuel n, n < fuel → s.sufficientDecrease sqrt n →
        (∀ m, m < n → ¬ s.sufficientDecrease sqrt m) →
        s.LocalSearch_ sqrt fuel
          = some ({ s with coordinates_ :=
                      s.coordinates_.CopyValues (s.trialPoint sqrt (s.armijo_beta_ ^ (n + 1))) },
                  s.step_size_ * s.armijo_beta_ ^ (n + 1)))
    ∧ ((∀ n, ¬ s.sufficientDecrease sqrt n) → ∀ fuel, s.LocalSearch_ sqrt fuel = none) :=
  ⟨fun fuel => LocalSearch_isSome_iff sqrt s fuel,
   fun fuel n hn hyes hno => LocalSearch_eq_some sqrt s fuel n hn hno hyes,
   fun hno fuel => LocalSearch_eq_none sqrt s fuel (fun m _ => hno m)⟩

theorem collapsed_gradientNorm : collapsed.gradientNorm sqrtExact = 1 / 7997 := by decide!

theorem collapsed_lagrangian :
    collapsed.ComputeLagrangian_ collapsed.coordinates_
      = 1 / 2 * (7996 * (1 / 7997) ^ 2 - 2 * (1 / 7997) + 2002) := by decide!

theorem collapsed_trial_lagrangian (beta : ℚ) :
    collapsed.ComputeLagrangian_ (collapsed.trialPoint sqrtExact beta)
      = 1 / 2 * (7996 * (1 / 7997 - beta / 2) ^ 2 - 2 * (1 / 7997 - beta / 2) + 2002) := by
  have h1 : collapsed.step_size_ = 1 := rfl
  simp only [trialPoint, collapsed_gradientNorm, h1]
  norm_num [ComputeLagrangian_, collapsed, ctor, forLoop,
      List.range_succ, la.DistanceSqEuclidean, la.Dot, la.AddExpertMatrix, Matrix.CopyValues,
      Matrix.Init, Matrix.GetColumnPtr, Matrix.get,
      Matrix.ColumnOffset, ArrayList.get, Vector.get, Vector.set, Vector.Init, Vector.SetAll,
      Function.update]
  ring

theorem collapsedStuck_first_trial :
    collapsedStuck.ComputeLagrangian_ collapsedStuck.coordinates_
      - collapsedStuck.ComputeLagrangian_ (collapsedStuck.trialPoint sqrtExact 1)
      = -(7993002 / 7997) := by
  have e2 : collapsedStuck.ComputeLagrangian_ collapsedStuck.coordinates_
      = 1 / 2 * (7996 * (1 / 7997) ^ 2 - 2 * (1 / 7997) + 2002) := collapsed_lagrangian
  have e3 : collapsedStuck.ComputeLagrangian_ (collapsedStuck.trialPoint sqrtExact 1)
      = 1 / 2 * (7996 * (1 / 7997 - 1 / 2) ^ 2 - 2 * (1 / 7997 - 1 / 2) + 2002) :=
    collapsed_trial_lagrangian 1
  rw [e2, e3]
  norm_num

theorem collapsedStuck_never_accepts (n : ℕ) :
    ¬ collapsedStuck.sufficientDecrease sqrtExact n := by
  have e1 : collapsedStuck.gradientNorm sqrtExact = 1 / 7997 := collapsed_gradientNorm
  have h1 : collapsedStuck.step_size_ = 1 := rfl
  have h2 : collapsedStuck.armijo_sigma_ = 1 / 10 := rfl
  have h3 : collapsedStuck.armijo_beta_ = 1 := rfl
  unfold sufficientDecrease
  rw [h3, one_pow, collapsedStuck_first_trial, e1, h1, h2]
  intro h
  have := h.2
  norm_num at this

/-- C9, counterexample.  On `collapsedStuck` (`armijo_beta_ = 1`, the `gradient_` that
`ComputeGradient_` computes, its norm an exact square root and not zero) every trial is the
first one, `β = 1`, and it raises the Lagrangian by about `999.5` where the test asks for a
decrease: no trial passes the test and no number of trials ends `LocalSearch_`. -/
theorem LocalSearch_never_stops :
    collapsedStuck = collapsed.set_armijo_beta 1
    ∧ (∀ r c, r < 1 → c < 4 →
      collapsedStuck.gradient_.get r c = collapsedStuck.ComputeGradient_.gradient_.get r c)
    ∧ collapsedStuck.gradientNorm sqrtExact ≠ 0
    ∧ collapsedStuck.gradientNorm sqrtExact * collapsedStuck.gradientNorm sqrtExact
        = la.Dot 4 collapsedStuck.gradient_.ptr collapsedStuck.gradient_.ptr
    ∧ (∀ n, collapsedStuck.armijo_beta_ ^ (n + 1) = 1)
    ∧ collapsedStuck.ComputeLagrangian_ collapsedStuck.coordinates_
        - collapsedStuck.ComputeLagrangian_ (collapsedStuck.trialPoint sqrtExact 1)
        = -(7993002 / 7997)
    ∧ ∀ fuel, collapsedStuck.LocalSearch_ sqrtExact fuel = none := by
  refine ⟨rfl, ?_, by decide!, by decide!, fun n => one_pow _, collapsedStuck_first_trial,
    fun fuel => LocalSearch_eq_none sqrtExact collapsedStuck fuel
      (fun m _ => collapsedStuck_never_accepts m)⟩
  intro r c hr hc
  interval_cases r
  interval_cases c <;> decide!

/-! ## `ComputeLocalOptimum` (C10, C4) -/

theorem innerLoop_zero (sqrt : K → K) (fuel : ℕ) (r : Run K) :
    innerLoop sqrt fuel 0 r = .ok r := rfl

theorem innerLoop_succ_none (sqrt : K → K) (fuel n : ℕ) (r : Run K)
    (h : r.obj.ComputeGradient_.LocalSearch_ sqrt fuel = none) :
    innerLoop sqrt fuel (n + 1) r = .error (r, r.obj.ComputeGradient_) := by
  simp only [innerLoop, h]

theorem innerLoop_succ_break (sqrt : K → K) (fuel n : ℕ) (r : Run K) (obj : NonConvexMVU K)
    (step : K) (h : r.obj.ComputeGradient_.LocalSearch_ sqrt fuel = some (obj, step))
    (ht : step < obj.tolerance_) :
    innerLoop sqrt fuel (n + 1) r = .ok (r.afterSearch obj step) := by
  simp only [innerLoop, h, ht, if_true, Run.afterSearch]

theorem innerLoop_succ_continue (sqrt : K → K) (fuel n : ℕ) (r : Run K) (obj : NonConvexMVU K)
    (step : K) (h : r.obj.ComputeGradient_.LocalSearch_ sqrt fuel = some (obj, step))
    (ht : ¬ step < obj.tolerance_) :
    innerLoop sqrt fuel (n + 1) r = innerLoop sqrt fuel n (r.afterSearch obj step) := by
  simp only [innerLoop, h, ht, if_false, Run.afterSearch]

theorem innerLoop_post (sqrt : K → K) (fuel : ℕ) :
    ∀ (n : ℕ) (r : Run K), InnerPost sqrt fuel n r (innerLoop sqrt fuel n r) := by
  intro n
  induction n with
  | zero =>
    intro r
    rw [innerLoop_zero]
    exact ⟨rfl, rfl, Nat.le_refl _, rfl, rfl, rfl, fun h => h⟩
  | succ n ih =>
    intro r
    cases hs : r.obj.ComputeGradient_.LocalSearch_ sqrt fuel with
    | none =>
      rw [innerLoop_succ_none sqrt fuel n r hs]
      exact ⟨hs, rfl, rfl, Nat.lt_add_of_pos_right (Nat.succ_pos n), rfl, rfl⟩
    | some p =>
      obtain ⟨obj, step⟩ := p
      obtain ⟨m, -, -, -, hobj, -⟩ := LocalSearch_some_elim sqrt _ _ fuel _ hs
      have f1 : obj.max_iterations_ = r.obj.max_iterations_ := by rw [hobj]; rfl
      have f2 : obj.tolerance_ = r.obj.tolerance_ := by rw [hobj]; rfl
      have f3 : obj.previous_feasibility_error_ = r.obj.previous_feasibility_error_ := by
        rw [hobj]; rfl
      by_cases ht : step < obj.tolerance_
      · rw [innerLoop_succ_break sqrt fuel n r obj step hs ht]
        exact ⟨rfl, rfl, Nat.add_le_add_left (Nat.succ_pos n) _, f1, f2, f3, fun _ => rfl⟩
      · rw [innerLoop_succ_continue sqrt fuel n r obj step hs ht]
        have h := ih (r.afterSearch obj step)
        revert h
        cases innerLoop sqrt fuel n (r.afterSearch obj step) with
        | error e =>
          intro h
          obtain ⟨h1, h2, h3, h4, h5, h6⟩ := h
          refine ⟨h1, h2, h3, ?_, h5.trans f1, h6.trans f3⟩
          have : (r.afterSearch obj step).searches = r.searches + 1 := rfl
          omega
        | ok r' =>
          intro h
          obtain ⟨h1, h2, h3, h4, h5, h6, h7⟩ := h
          refine ⟨h1, h2, ?_, h4.trans f1, h5.trans f2, h6.trans f3, fun _ => h7 rfl⟩
          have : (r.afterSearch obj step).searches = r.searches + 1 := rfl
          omega

theorem outerLoop_zero (sqrt : K → K) (fuel : ℕ) (sum_of_dist_square : K) (r : Run K) :
    outerLoop sqrt fuel sum_of_dist_square 0 r = .returned false r := rfl

theorem outerLoop_succ_error (sqrt : K → K) (fuel n : ℕ) (sum_of_dist_square : K)
    (r : Run K) (e : Run K × NonConvexMVU K)
    (h : innerLoop sqrt fuel r.obj.max_iterations_.toNat r = .error e) :
    outerLoop sqrt fuel sum_of_dist_square (n + 1) r = .searchDiverges e.1 e.2 := by
  simp only [outerLoop, h]

theorem outerLoop_succ_converged (sqrt : K → K) (fuel n : ℕ) (sum_of_dist_square : K)
    (r r1 : Run K) (h : innerLoop sqrt fuel r.obj.max_iterations_.toNat r = .ok r1)
    (ht : sum_of_dist_square ≠ 0
      ∧ r1.distance_constraint / sum_of_dist_square < r1.obj.tolerance_) :
    outerLoop sqrt fuel sum_of_dist_square (n + 1) r
      = .returned true { r1 with rounds := r1.rounds + 1 } := by
  simp only [outerLoop, h]
  rw [if_pos ht]

theorem outerLoop_succ_update (sqrt : K → K) (fuel n : ℕ) (sum_of_dist_square : K)
    (r r1 : Run K) (h : innerLoop sqrt fuel r.obj.max_iterations_.toNat r = .ok r1)
    (ht : ¬ (sum_of_dist_square ≠ 0
      ∧ r1.distance_constraint / sum_of_dist_square < r1.obj.tolerance_)) :
    outerLoop sqrt fuel sum_of_dist_square (n + 1) r
      = outerLoop sqrt fuel sum_of_dist_square n r1.afterUpdate := by
  simp only [outerLoop, h]
  rw [if_neg ht]
  rfl

theorem outerLoop_post (sqrt : K → K) (fuel : ℕ) (sum_of_dist_square : K) :
    ∀ (n : ℕ) (r : Run K), r.distance_constraint = r.obj.ComputeFeasibilityError_.1 →
      OuterPost sqrt fuel sum_of_dist_square n r (outerLoop sqrt fuel sum_of_dist_square n r) := by
  intro n
  induction n with
  | zero =>
    intro r _
    rw [outerLoop_zero]
    exact ⟨Nat.le_refl _, by simp, ⟨[], by simp, by simp, by simp⟩, by simp, by simp⟩
  | succ n ih =>
    intro r hr
    have hin := innerLoop_post sqrt fuel r.obj.max_iterations_.toNat r
    cases hi : innerLoop sqrt fuel r.obj.max_iterations_.toNat r with
    | error e =>
      rw [hi] at hin
      obtain ⟨h1, h2, h3, h4, h5, h6⟩ := hin
      rw [outerLoop_succ_error sqrt fuel n sum_of_dist_square r e hi]
      refine ⟨h1, by omega, by rw [h2, h3], ?_, ⟨[], by simp [h3], by simp, by simp⟩⟩
      calc e.1.searches < r.searches + r.obj.max_iterations_.toNat := h4
        _ ≤ r.searches + (n + 1) * r.obj.max_iterations_.toNat := by
            apply Nat.add_le_add_left
            exact Nat.le_mul_of_pos_left _ (Nat.succ_pos n)
    | ok r1 =>
      rw [hi] at hin
      obtain ⟨h1, h2, h3, h4, h5, h6, h7⟩ := hin
      have hdc := h7 hr
      have hmul : (n + 1) * r.obj.max_iterations_.toNat
          = r.obj.max_iterations_.toNat + n * r.obj.max_iterations_.toNat := by ring
      by_cases ht : sum_of_dist_square ≠ 0
          ∧ r1.distance_constraint / sum_of_dist_square < r1.obj.tolerance_
      · rw [outerLoop_succ_converged sqrt fuel n sum_of_dist_square r r1 hi ht]
        refine ⟨?_, ?_, ⟨[], by simp [h2], by simp, by simp⟩, fun _ => ⟨?_, ht.1, ?_⟩, by simp⟩
        · show r1.rounds + 1 ≤ r.rounds + (n + 1)
          omega
        · show r1.searches ≤ r.searches + (n + 1) * r.obj.max_iterations_.toNat
          rw [hmul]; omega
        · show r1.updates.length + r.rounds + 1 = r.updates.length + (r1.rounds + 1)
          rw [h1, h2]; omega
        · show r1.obj.ComputeFeasibilityError_.1 / sum_of_dist_square < r1.obj.tolerance_
          rw [← hdc]; exact ht.2
      · rw [outerLoop_succ_update sqrt fuel n sum_of_dist_square r r1 hi ht]
        obtain ⟨u1, u2, u3, -, -⟩ := UpdateLagrangeMult_frame r1.obj
        have hr2 : r1.afterUpdate.distance_constraint
            = r1.afterUpdate.obj.ComputeFeasibilityError_.1 := by
          show r1.distance_constraint = r1.obj.UpdateLagrangeMult_.ComputeFeasibilityError_.1
          rw [u3]; exact hdc
        have hM : r1.afterUpdate.obj.max_iterations_ = r.obj.max_iterations_ := by
          show r1.obj.UpdateLagrangeMult_.max_iterations_ = r.obj.max_iterations_
          rw [u1, h4]
        have e1 : r1.afterUpdate.rounds = r.rounds + 1 := by
          show r1.rounds + 1 = r.rounds + 1
          rw [h1]
        have e2 : r1.afterUpdate.updates = r.updates ++ [r1.obj] := by
          show r1.updates ++ [r1.obj] = r.updates ++ [r1.obj]
          rw [h2]
        have e3 : r1.afterUpdate.searches = r1.searches := rfl
        have hnot : ¬ (sum_of_dist_square ≠ 0
            ∧ r1.obj.ComputeFeasibilityError_.1 / sum_of_dist_square < r1.obj.tolerance_) := by
          rw [← hdc]; exact ht
        have h := ih r1.afterUpdate hr2
        revert h
        cases outerLoop sqrt fuel sum_of_dist_square n r1.afterUpdate with
        | fatal u => intro h; exact h
        | searchDiverges r' t =>
          intro h
          obtain ⟨g1, g2, g3, g4, l, g5, g6, g7⟩ := h
          rw [hM, e3] at g4
          rw [e1] at g2 g3
          rw [e2] at g3 g5
          refine ⟨g1, by omega, ?_, ?_, ⟨r1.obj :: l, ?_, ?_, ?_⟩⟩
          · simp only [List.length_append, List.length_singleton] at g3; omega
          · rw [hmul]; omega
          · rw [g5]; simp
          · intro t ht'
            rcases List.mem_cons.mp ht' with rfl | ht''
            · exact hnot
            · exact g6 t ht''
          · intro t ht'
            simp only [List.head?_cons, Option.some.injEq] at ht'
            rw [← ht']; exact h6
        | returned converged r' =>
          intro h
          obtain ⟨g1, g2, ⟨l, g5, g6, g7⟩, g3, g4⟩ := h
          rw [hM, e3] at g2
          rw [e1] at g1 g3 g4
          rw [e2] at g3 g4 g5
          refine ⟨by omega, ?_, ⟨r1.obj :: l, ?_, ?_, ?_⟩, ?_, ?_⟩
          · rw [hmul]; omega
          · rw [g5]; simp
          · intro t ht'
            rcases List.mem_cons.mp ht' with rfl | ht''
            · exact hnot
            · exact g6 t ht''
          · intro t ht'
            simp only [List.head?_cons, Option.some.injEq] at ht'
            rw [← ht']; exact h6
          · intro hc
            obtain ⟨a1, a2⟩ := g3 hc
            simp only [List.length_append, List.length_singleton] at a1
            exact ⟨by omega, a2⟩
          · intro hc
            obtain ⟨a1, a2⟩ := g4 hc
            simp only [List.length_append, List.length_singleton] at a1
            exact ⟨by omega, by omega⟩

theorem Initialize_previous_error (rnd : ℕ → K) (s : NonConvexMVU K) :
    (s.ComputeLocalOptimum_Initialize rnd).previous_feasibility_error_
      = (s.ComputeLocalOptimum_Initialize rnd).ComputeFeasibilityError := rfl

theorem ComputeLocalOptimum_post (sqrt : K → K) (rnd : ℕ → K) (fuel : ℕ) (s : NonConvexMVU K)
    (h : ¬ s.new_dimension_ < 0) :
    OuterPost sqrt fuel (la.LengthEuclidean sqrt s.distances_.size s.distances_.ptr)
      s.max_iterations_.toNat
      { obj := s.ComputeLocalOptimum_Initialize rnd
        distance_constraint := (s.ComputeLocalOptimum_Initialize rnd).ComputeFeasibilityError_.1
        centering_constraint := (s.ComputeLocalOptimum_Initialize rnd).ComputeFeasibilityError_.2
        step := 0
        rounds := 0
        searches := 0
        updates := [] }
      (s.ComputeLocalOptimum sqrt rnd fuel) := by
  have := outerLoop_post sqrt fuel (la.LengthEuclidean sqrt s.distances_.size s.distances_.ptr)
    s.max_iterations_.toNat
    { obj := s.ComputeLocalOptimum_Initialize rnd
      distance_constraint := (s.ComputeLocalOptimum_Initialize rnd).ComputeFeasibilityError_.1
      centering_constraint := (s.ComputeLocalOptimum_Initialize rnd).ComputeFeasibilityError_.2
      step := 0
      rounds := 0
      searches := 0
      updates := [] } rfl
  unfold ComputeLocalOptimum
  simp only [h, if_false]
  exact this

/-- C10.  Outer-loop termination of `ComputeLocalOptimum`.  A call either hits the `FATAL`
(negative `new_dimension_`), or makes a `LocalSearch_` call that does not return, or returns;
when it returns it has run at most `max_iterations_` outer rounds, called
`UpdateLagrangeMult_` at most `max_iterations_` times and `LocalSearch_` at most
`max_iterations_²` times; every round that called `UpdateLagrangeMult_` had its normalised
distance feasibility error not below `tolerance_`; a return through the convergence test
happens in a round whose normalised error is below `tolerance_` and that makes no
`UpdateLagrangeMult_` call (one call in each earlier round); a return after the loop has run
all `max_iterations_` rounds with one call each.  The normalised error is the quotient
`distance_constraint/sum_of_dist_square`, below `tolerance_` only if `sum_of_dist_square` is
not zero: with `sum_of_dist_square = 0` no round converges. -/
theorem ComputeLocalOptimum_outer_loop_bounded (sqrt : K → K) (rnd : ℕ → K) (fuel : ℕ)
    (s : NonConvexMVU K) :
    match s.ComputeLocalOptimum sqrt rnd fuel with
    | .fatal _ => s.new_dimension_ < 0
    | .searchDiverges r t =>
        t.LocalSearch_ sqrt fuel = none
        ∧ r.rounds < s.max_iterations_.toNat
        ∧ r.updates.length = r.rounds
        ∧ r.searches < s.max_iterations_.toNat * s.max_iterations_.toNat
    | .returned converged r =>
        r.rounds ≤ s.max_iterations_.toNat
        ∧ r.updates.length ≤ s.max_iterations_.toNat
        ∧ r.searches ≤ s.max_iterations_.toNat * s.max_iterations_.toNat
        ∧ (∀ t ∈ r.updates,
            ¬ (la.LengthEuclidean sqrt s.distances_.size s.distances_.ptr ≠ 0
              ∧ t.ComputeFeasibilityError_.1
                  / la.LengthEuclidean sqrt s.distances_.size s.distances_.ptr < t.tolerance_))
        ∧ (converged = true →
            r.updates.length + 1 = r.rounds
            ∧ la.LengthEuclidean sqrt s.distances_.size s.distances_.ptr ≠ 0
            ∧ r.obj.ComputeFeasibilityError_.1
                / la.LengthEuclidean sqrt s.distances_.size s.distances_.ptr < r.obj.tolerance_)
        ∧ (converged = false →
            r.updates.length = r.rounds ∧ r.rounds = s.max_iterations_.toNat) := by
  by_cases hneg : s.new_dimension_ < 0
  · have : s.ComputeLocalOptimum sqrt rnd fuel = .fatal s := by
      unfold ComputeLocalOptimum; simp only [hneg, if_true]
    rw [this]; exact hneg
  · have h := ComputeLocalOptimum_post sqrt rnd fuel s hneg
    revert h
    cases s.ComputeLocalOptimum sqrt rnd fuel with
    | fatal u => intro h; exact h.elim
    | searchDiverges r t =>
      intro h
      obtain ⟨g1, g2, g3, g4, -⟩ := h
      simp only [List.length_nil, Nat.zero_add, Nat.add_zero] at g2 g3 g4
      exact ⟨g1, g2, g3, g4⟩
    | returned converged r =>
      intro h
      obtain ⟨g1, g2, ⟨l, g5, g6, -⟩, g3, g4⟩ := h
      simp only [List.length_nil, Nat.zero_add, Nat.add_zero, List.nil_append] at g1 g2 g3 g4 g5
      refine ⟨g1, ?_, g2, ?_, ?_, g4⟩
      · cases converged with
        | true => have := (g3 rfl).1; omega
        | false => have := (g4 rfl).1; omega
      · intro t ht; rw [g5] at ht; exact g6 t ht
      · intro hc; exact ⟨by have := (g3 hc).1; omega, (g3 hc).2⟩

/-- C4 as amended.  The object state `t` on which `ComputeLocalOptimum` makes its first call
of `UpdateLagrangeMult_` has `previous_feasibility_error_` equal to the feasibility error of
the random initial configuration (the `DBL_MAX` of `Init` has been overwritten before the
loops); so that call performs the multiplier update when the current error is strictly below
`eta_` times the initial error, and grows `sigma_` by `gamma_` otherwise. -/
theorem first_update_sees_initial_error (sqrt : K → K) (rnd : ℕ → K) (fuel : ℕ)
    (s t : NonConvexMVU K)
    (h : (s.ComputeLocalOptimum sqrt rnd fuel).updates.head? = some t) :
    t.previous_feasibility_error_ = (s.ComputeLocalOptimum_Initialize rnd).ComputeFeasibilityError
    ∧ (t.ComputeFeasibilityError
          < t.eta_ * (s.ComputeLocalOptimum_Initialize rnd).ComputeFeasibilityError →
        t.UpdateLagrangeMult_.sigma_ = t.sigma_
        ∧ t.UpdateLagrangeMult_.lagrange_mult_.ptr = t.pairMultAfter t.num_of_points_.toNat)
    ∧ (¬ t.ComputeFeasibilityError
          < t.eta_ * (s.ComputeLocalOptimum_Initialize rnd).ComputeFeasibilityError →
        t.UpdateLagrangeMult_.sigma_ = t.sigma_ * t.gamma_
        ∧ t.UpdateLagrangeMult_.lagrange_mult_ = t.lagrange_mult_) := by
  have hprev : t.previous_feasibility_error_
      = (s.ComputeLocalOptimum_Initialize rnd).ComputeFeasibilityError := by
    by_cases hneg : s.new_dimension_ < 0
    · have : s.ComputeLocalOptimum sqrt rnd fuel = .fatal s := by
        unfold ComputeLocalOptimum; simp only [hneg, if_true]
      rw [this] at h
      exact absurd h (by simp [Outcome.updates])
    · have hp := ComputeLocalOptimum_post sqrt rnd fuel s hneg
      revert hp h
      cases s.ComputeLocalOptimum sqrt rnd fuel with
      | fatal u => intro h; exact absurd h (by simp [Outcome.updates])
      | searchDiverges r u =>
        intro h hp
        obtain ⟨-, -, -, -, l, g5, -, g7⟩ := hp
        simp only [List.nil_append] at g5
        simp only [Outcome.updates, g5] at h
        rw [g7 t h, Initialize_previous_error]
      | returned converged r =>
        intro h hp
        obtain ⟨-, -, ⟨l, g5, -, g7⟩, -, -⟩ := hp
        simp only [List.nil_append] at g5
        simp only [Outcome.updates, g5] at h
        rw [g7 t h, Initialize_previous_error]
  rw [← hprev]
  refine ⟨rfl, fun hlt => ?_, fun hnl => ?_⟩
  · rw [UpdateLagrangeMult_of_lt t hlt]; exact ⟨rfl, rfl⟩
  · rw [UpdateLagrangeMult_of_not_lt t hnl]; exact ⟨rfl, rfl⟩

/-- C4 as amended, witness: the run on `lineData` makes a first call of
`UpdateLagrangeMult_`, on the object `lineFirstUpdate`. -/
theorem first_update_sees_initial_error_witness :
    (lineData.ComputeLocalOptimum sqrtExact lineDraws 1).updates.head? = some lineFirstUpdate
    ∧ lineFirstUpdate.previous_feasibility_error_
          = (lineData.ComputeLocalOptimum_Initialize lineDraws).ComputeFeasibilityError :=
  have h : (lineData.ComputeLocalOptimum sqrtExact lineDraws 1).updates.head?
      = some lineFirstUpdate := (Option.some_get _).symm
  ⟨h, (first_update_sees_initial_error sqrtExact lineDraws 1 lineData lineFirstUpdate h).1⟩

/-- C4, counterexample.  `Init` leaves `DBL_MAX` in `previous_feasibility_error_`; the run
of `ComputeLocalOptimum` on `lineData` with the draws `lineDraws` makes one call of
`UpdateLagrangeMult_`, at which `previous_feasibility_error_` is about `4.10` and not
`DBL_MAX`, and the finite current error, about `1.62`, fails the eta-test: the call takes the
penalty-growth branch (`sigma_` goes from `1000` to `1100`).  The last three conjuncts record
that every draw lies in `(0.1, 1)` and that the two square roots taken in the run are
exact. -/
theorem first_update_takes_growth_branch :
    lineData.previous_feasibility_error_ = DBL_MAX
    ∧ (lineData.ComputeLocalOptimum sqrtExact lineDraws 1).updates.length = 1
    ∧ (lineData.ComputeLocalOptimum sqrtExact lineDraws 1).updates.head?.map
        (fun t => t.previous_feasibility_error_) = some (16017457131 / 3906250000)
    ∧ (lineData.ComputeLocalOptimum sqrtExact lineDraws 1).updates.head?.map
        (fun t => t.ComputeFeasibilityError) = some (513589808861 / 316406250000)
    ∧ (lineData.ComputeLocalOptimum sqrtExact lineDraws 1).updates.head?.map
        (fun t => decide (t.ComputeFeasibilityError
                            < t.eta_ * t.previous_feasibility_error_)) = some false
    ∧ (lineData.ComputeLocalOptimum sqrtExact lineDraws 1).updates.head?.map
        (fun t => (t.sigma_, t.UpdateLagrangeMult_.sigma_)) = some (1000, 1100)
    ∧ (∀ n, n < 7 → 1 / 10 < lineDraws n ∧ lineDraws n < 1)
    ∧ lineSearchState.gradientNorm sqrtExact * lineSearchState.gradientNorm sqrtExact
        = la.Dot 3 lineSearchState.gradient_.ptr lineSearchState.gradient_.ptr
    ∧ sqrtExact (la.Dot 3 lineData.distances_.ptr lineData.distances_.ptr)
          * sqrtExact (la.Dot 3 lineData.distances_.ptr lineData.distances_.ptr)
        = la.Dot 3 lineData.distances_.ptr lineData.distances_.ptr := by
  refine ⟨rfl, ?_, ?_, ?_, ?_, ?_, ?_, ?_, ?_⟩
  · decide!
  · decide!
  · decide!
  · decide!
  · decide!
  · intro n hn
    interval_cases n <;> decide!
  · decide!
  · decide!

/-! ## The fatal configuration error of `ComputeLocalOptimum` (C11) -/

theorem ComputeLocalOptimum_fatal_of_neg (sqrt : K → K) (rnd : ℕ → K) (fuel : ℕ)
    (s : NonConvexMVU K) (h : s.new_dimension_ < 0) :
    s.ComputeLocalOptimum sqrt rnd fuel = .fatal s := by
  unfold ComputeLocalOptimum; simp only [h, if_true]

theorem ComputeLocalOptimum_not_fatal (sqrt : K → K) (rnd : ℕ → K) (fuel : ℕ)
    (s t : NonConvexMVU K) (h : ¬ s.new_dimension_ < 0) :
    s.ComputeLocalOptimum sqrt rnd fuel ≠ .fatal t := by
  intro hf
  have hp := ComputeLocalOptimum_post sqrt rnd fuel s h
  rw [hf] at hp
  exact hp

/-- C11.  `ComputeLocalOptimum` ends in `FATAL` if and only if `new_dimension_` is negative,
and the object at that call has the `coordinates_`, `gradient_`, `lagrange_mult_`,
`centering_lagrange_mult_`, `sigma_` and `previous_feasibility_error_` it had on entry.  The
constructor leaves `new_dimension_ = -1`, so the call fails on a constructed and initialised
object on which `set_new_dimension` was not called, and it does not fail after
`set_new_dimension(n)` with `0 ≤ n`. -/
theorem ComputeLocalOptimum_fatal_iff (sqrt : K → K) (rnd : ℕ → K) (fuel : ℕ)
    (s : NonConvexMVU K) :
    ((∃ t, s.ComputeLocalOptimum sqrt rnd fuel = .fatal t) ↔ s.new_dimension_ < 0)
    ∧ (∀ t, s.ComputeLocalOptimum sqrt rnd fuel = .fatal t →
        t.coordinates_ = s.coordinates_ ∧ t.gradient_ = s.gradient_
        ∧ t.lagrange_mult_ = s.lagrange_mult_
        ∧ t.centering_lagrange_mult_ = s.centering_lagrange_mult_
        ∧ t.sigma_ = s.sigma_
        ∧ t.previous_feasibility_error_ = s.previous_feasibility_error_)
    ∧ (ctor : NonConvexMVU K).new_dimension_ = -1
    ∧ (∀ (DBL_MAX : K) n_cols neighbors distances knns leaf_size,
        ((ctor : NonConvexMVU K).Init DBL_MAX n_cols neighbors distances knns
          leaf_size).ComputeLocalOptimum sqrt rnd fuel
        = .fatal ((ctor : NonConvexMVU K).Init DBL_MAX n_cols neighbors distances knns
            leaf_size))
    ∧ (∀ n : ℤ, 0 ≤ n → ∀ t, (s.set_new_dimension n).ComputeLocalOptimum sqrt rnd fuel
        ≠ .fatal t) := by
  refine ⟨⟨?_, ?_⟩, ?_, rfl, ?_, ?_⟩
  · rintro ⟨t, ht⟩
    by_contra hn
    exact ComputeLocalOptimum_not_fatal sqrt rnd fuel s t hn ht
  · intro h
    exact ⟨s, ComputeLocalOptimum_fatal_of_neg sqrt rnd fuel s h⟩
  · intro t ht
    by_cases hn : s.new_dimension_ < 0
    · rw [ComputeLocalOptimum_fatal_of_neg sqrt rnd fuel s hn] at ht
      have : s = t := Outcome.fatal.inj ht
      subst this
      exact ⟨rfl, rfl, rfl, rfl, rfl, rfl⟩
    · exact absurd ht (ComputeLocalOptimum_not_fatal sqrt rnd fuel s t hn)
  · intro DBL_MAX n_cols neighbors distances knns leaf_size
    exact ComputeLocalOptimum_fatal_of_neg sqrt rnd fuel _ (by show (-1 : ℤ) < 0; decide)
  · intro n hn t
    exact ComputeLocalOptimum_not_fatal sqrt rnd fuel _ t (by show ¬ n < 0; omega)

/-! ## The setters (C15) -/

theorem applySetters_append (s : NonConvexMVU K) (calls : List (SetterCall K))
    (c : SetterCall K) :
    s.applySetters (calls ++ [c]) = (s.applySetters calls).applySetter c := by
  simp [applySetters, List.foldl_append]

/-- C15 as amended.  The setters store their argument unchecked, so the ranges are those of
the arguments: in the state reached from the constructor by a sequence of setter calls in
which every argument of `set_eta` lies strictly between `0` and `1` and every argument of
`set_gamma` exceeds `1`, `0 < eta_ < 1` and `gamma_ > 1` hold. -/
theorem setters_keep_ranges (calls : List (SetterCall K))
    (heta : ∀ v, SetterCall.set_eta v ∈ calls → 0 < v ∧ v < 1)
    (hgamma : ∀ v, SetterCall.set_gamma v ∈ calls → 1 < v) :
    0 < ((ctor : NonConvexMVU K).applySetters calls).eta_
    ∧ ((ctor : NonConvexMVU K).applySetters calls).eta_ < 1
    ∧ 1 < ((ctor : NonConvexMVU K).applySetters calls).gamma_ := by
  induction calls using List.reverseRecOn with
  | nil =>
    show (0 : K) < 1 / 4 ∧ (1 / 4 : K) < 1 ∧ (1 : K) < 11 / 10
    norm_num
  | append_singleton calls c ih =>
    rw [applySetters_append]
    have ih' := ih (fun v hv => heta v (List.mem_append_left _ hv))
      (fun v hv => hgamma v (List.mem_append_left _ hv))
    cases c with
    | set_eta v =>
      have := heta v (by simp)
      exact ⟨this.1, this.2, ih'.2.2⟩
    | set_gamma v =>
      have := hgamma v (by simp)
      exact ⟨ih'.1, ih'.2.1, this⟩
    | set_step_size v => exact ih'
    | set_max_iterations v => exact ih'
    | set_new_dimension v => exact ih'
    | set_tolerance v => exact ih'
    | set_armijo_sigma v => exact ih'
    | set_armijo_beta v => exact ih'

/-- C15 as amended, witness: the calls `set_eta(1/2)` and `set_step_size(2)`. -/
theorem setters_keep_ranges_witness :
    (∀ v, SetterCall.set_eta v ∈ [SetterCall.set_eta (1 / 2 : ℚ), SetterCall.set_step_size 2]
        → 0 < v ∧ v < 1)
    ∧ (∀ v, SetterCall.set_gamma v ∈ [SetterCall.set_eta (1 / 2 : ℚ), SetterCall.set_step_size 2]
        → 1 < v)
    ∧ 0 < ((ctor : NonConvexMVU ℚ).applySetters
            [SetterCall.set_eta (1 / 2 : ℚ), SetterCall.set_step_size 2]).eta_
    ∧ ((ctor : NonConvexMVU ℚ).applySetters
            [SetterCall.set_eta (1 / 2 : ℚ), SetterCall.set_step_size 2]).eta_ < 1
    ∧ 1 < ((ctor : NonConvexMVU ℚ).applySetters
            [SetterCall.set_eta (1 / 2 : ℚ), SetterCall.set_step_size 2]).gamma_ :=
  have h1 : ∀ v, SetterCall.set_eta v
      ∈ [SetterCall.set_eta (1 / 2 : ℚ), SetterCall.set_step_size 2] → 0 < v ∧ v < 1 := by
    intro v hv
    simp at hv
    subst hv
    norm_num
  have h2 : ∀ v, SetterCall.set_gamma v
      ∈ [SetterCall.set_eta (1 / 2 : ℚ), SetterCall.set_step_size 2] → 1 < v := by
    intro v hv
    simp at hv
  ⟨h1, h2, setters_keep_ranges _ h1 h2⟩

/-- C15, counterexample: on a constructed object, `eta_ < 1` fails after `set_eta(2)` and
`gamma_ > 1` fails after `set_gamma(1/2)`. -/
theorem setters_leave_ranges :
    ¬ ((ctor : NonConvexMVU ℚ).applySetters [SetterCall.set_eta 2]).eta_ < 1
    ∧ ¬ 1 < ((ctor : NonConvexMVU ℚ).applySetters [SetterCall.set_gamma (1 / 2)]).gamma_ := by
  constructor <;> decide!

/-! ## The driver's operations: frame and penalty weight (C18, C19) -/

/-- C18.  `UpdateLagrangeMult_` leaves `coordinates_` and `gradient_` unchanged; a call of
`LocalSearch_` that returns leaves `lagrange_mult_`, `centering_lagrange_mult_`, `sigma_`,
`previous_feasibility_error_` and `gradient_` unchanged; `ComputeGradient_` changes
`gradient_` only. -/
theorem driver_operations_frame (sqrt : K → K) (fuel : ℕ) (s : NonConvexMVU K) :
    (s.UpdateLagrangeMult_.coordinates_ = s.coordinates_
      ∧ s.UpdateLagrangeMult_.gradient_ = s.gradient_)
    ∧ (∀ s' step, s.LocalSearch_ sqrt fuel = some (s', step) →
        s'.lagrange_mult_ = s.lagrange_mult_
        ∧ s'.centering_lagrange_mult_ = s.centering_lagrange_mult_
        ∧ s'.sigma_ = s.sigma_
        ∧ s'.previous_feasibility_error_ = s.previous_feasibility_error_
        ∧ s'.gradient_ = s.gradient_)
    ∧ s.ComputeGradient_ = { s with gradient_ := s.ComputeGradient_.gradient_ } := by
  refine ⟨⟨(UpdateLagrangeMult_frame s).2.2.2.1, (UpdateLagrangeMult_frame s).2.2.2.2⟩, ?_, rfl⟩
  intro s' step h
  obtain ⟨n, -, -, -, hs', -⟩ := LocalSearch_some_elim sqrt s s' fuel step h
  subst hs'
  exact ⟨rfl, rfl, rfl, rfl, rfl⟩

theorem UpdateLagrangeMult_sigma (s : NonConvexMVU K) :
    s.UpdateLagrangeMult_.gamma_ = s.gamma_
    ∧ s.UpdateLagrangeMult_.sigma_
        = if s.ComputeFeasibilityError < s.eta_ * s.previous_feasibility_error_ then s.sigma_
          else s.sigma_ * s.gamma_ := by
  by_cases h : s.ComputeFeasibilityError < s.eta_ * s.previous_feasibility_error_
  · rw [UpdateLagrangeMult_of_lt s h]; simp only [h, if_true]; exact ⟨rfl, rfl⟩
  · rw [UpdateLagrangeMult_of_not_lt s h]; simp only [h, if_false]; exact ⟨trivial, trivial⟩

theorem runCalls_sigma (sqrt : K → K) (calls : List DriverCall) :
    ∀ (p q : NonConvexMVU K × ℕ), runCalls sqrt calls p = some q →
      q.1.gamma_ = p.1.gamma_ ∧ p.2 ≤ q.2
      ∧ q.1.sigma_ = p.1.sigma_ * p.1.gamma_ ^ (q.2 - p.2) := by
  induction calls with
  | nil =>
    intro p q h
    simp only [runCalls, Option.some.injEq] at h
    subst h
    simp
  | cons c calls ih =>
    intro p q h
    cases c with
    | update =>
      simp only [runCalls] at h
      obtain ⟨h1, h2, h3⟩ := ih _ q h
      obtain ⟨u1, u2⟩ := UpdateLagrangeMult_sigma p.1
      simp only [] at h1 h2 h3
      rw [u1] at h1 h3
      rw [u2] at h3
      by_cases hb : p.1.ComputeFeasibilityError < p.1.eta_ * p.1.previous_feasibility_error_
      · simp only [hb, if_true] at h2 h3
        exact ⟨h1, h2, h3⟩
      · simp only [hb, if_false] at h2 h3
        refine ⟨h1, by omega, ?_⟩
        rw [h3, mul_assoc, ← pow_succ']
        congr 2
        omega
    | search fuel =>
      simp only [runCalls] at h
      cases hs : p.1.LocalSearch_ sqrt fuel with
      | none => rw [hs] at h; exact absurd h (by simp)
      | some r =>
        rw [hs] at h
        simp only [] at h
        obtain ⟨h1, h2, h3⟩ := ih _ q h
        obtain ⟨n, -, -, -, hs', -⟩ := LocalSearch_some_elim sqrt p.1 r.1 fuel r.2 hs
        simp only [] at h1 h2 h3
        rw [hs'] at h1 h3
        exact ⟨h1, h2, h3⟩

/-- C19.  With `sigma_ > 0` and `gamma_ ≥ 1` on entry, `UpdateLagrangeMult_` leaves `sigma_`
positive and at least its old value; and after a sequence of `UpdateLagrangeMult_` and
`LocalSearch_` calls, of which `j` updates took the penalty-growth branch, `sigma_` is the
initial `sigma_` times `gamma_ ^ j`, is positive, and is at least the `sigma_` on entry and the
`sigma_` after any initial part of the sequence. -/
theorem sigma_never_shrinks (sqrt : K → K) (s t : NonConvexMVU K) (calls : List DriverCall)
    (j : ℕ) (hsigma : 0 < s.sigma_) (hgamma : 1 ≤ s.gamma_)
    (h : runCalls sqrt calls (s, 0) = some (t, j)) :
    (0 < s.UpdateLagrangeMult_.sigma_ ∧ s.sigma_ ≤ s.UpdateLagrangeMult_.sigma_)
    ∧ t.sigma_ = s.sigma_ * s.gamma_ ^ j
    ∧ 0 < t.sigma_ ∧ s.sigma_ ≤ t.sigma_
    ∧ (∀ calls1 calls2 u i, calls = calls1 ++ calls2 →
        runCalls sqrt calls1 (s, 0) = some (u, i) → u.sigma_ ≤ t.sigma_) := by
  have hmono : ∀ (a : K) (n : ℕ), 0 < a → a ≤ a * s.gamma_ ^ n := by
    intro a n ha
    have := one_le_pow₀ hgamma (n := n)
    nlinarith
  obtain ⟨-, -, h3⟩ := runCalls_sigma sqrt calls _ _ h
  simp only [Nat.sub_zero] at h3
  refine ⟨?_, h3, ?_, ?_, ?_⟩
  · rw [(UpdateLagrangeMult_sigma s).2]
    split
    · exact ⟨hsigma, le_refl _⟩
    · have := hmono s.sigma_ 1 hsigma
      rw [pow_one] at this
      exact ⟨lt_of_lt_of_le hsigma this, this⟩
  · rw [h3]; exact lt_of_lt_of_le hsigma (hmono _ j hsigma)
  · rw [h3]; exact hmono _ j hsigma
  · intro calls1 calls2 u i hsplit h1
    have hcomp : ∀ (l1 l2 : List DriverCall) (p q : NonConvexMVU K × ℕ),
        runCalls sqrt l1 p = some q → runCalls sqrt (l1 ++ l2) p = runCalls sqrt l2 q := by
      intro l1
      induction l1 with
      | nil => intro l2 p q hq; simp only [runCalls, Option.some.injEq] at hq; subst hq; rfl
      | cons c l1 ih =>
        intro l2 p q hq
        cases c with
        | update =>
          simp only [runCalls, List.cons_append] at hq ⊢
          exact ih l2 _ q hq
        | search fuel =>
          simp only [runCalls, List.cons_append] at hq ⊢
          cases hs : p.1.LocalSearch_ sqrt fuel with
          | none => rw [hs] at hq; exact absurd hq (by simp)
          | some r =>
            rw [hs] at hq
            simp only [] at hq ⊢
            exact ih l2 _ q hq
    have h2 : runCalls sqrt calls2 (u, i) = some (t, j) := by
      rw [← hcomp calls1 calls2 _ _ h1, ← hsplit]; exact h
    obtain ⟨g1, g2, g3⟩ := runCalls_sigma sqrt calls1 _ _ h1
    obtain ⟨-, -, k3⟩ := runCalls_sigma sqrt calls2 _ _ h2
    simp only [] at g1 g3 k3
    rw [k3, g1]
    have hu : 0 < u.sigma_ := by
      rw [g3]; exact lt_of_lt_of_le hsigma (hmono _ _ hsigma)
    exact hmono _ _ hu

/-- C19, witness: the calls `LocalSearch_`, `UpdateLagrangeMult_`, `LocalSearch_`,
`UpdateLagrangeMult_` on `lineSearchState`; both updates take the penalty-growth branch and
`sigma_` goes from `1000` to `1210`. -/
theorem sigma_never_shrinks_witness :
    0 < lineSearchState.sigma_ ∧ 1 ≤ lineSearchState.gamma_
    ∧ runCalls sqrtExact [.search 1, .update, .search 8, .update] (lineSearchState, 0)
        = some (lineDriverResult.1, lineDriverResult.2)
    ∧ lineDriverResult.1.sigma_
        = lineSearchState.sigma_ * lineSearchState.gamma_ ^ lineDriverResult.2
    ∧ lineSearchState.sigma_ ≤ lineDriverResult.1.sigma_
    ∧ lineDriverResult.2 = 2 :=
  have h : runCalls sqrtExact [.search 1, .update, .search 8, .update] (lineSearchState, 0)
      = some (lineDriverResult.1, lineDriverResult.2) := (Option.some_get _).symm
  have hs : 0 < lineSearchState.sigma_ := by decide!
  have hg : 1 ≤ lineSearchState.gamma_ := by decide!
  have hc := sigma_never_shrinks sqrtExact lineSearchState lineDriverResult.1
    [.search 1, .update, .search 8, .update] lineDriverResult.2 hs hg h
  ⟨hs, hg, h, hc.2.1, hc.2.2.2.1, by decide!⟩

/-! ## The first trial and the step of `LocalSearch_` (C13, C17) -/

theorem trialPoint_ptr (sqrt : K → K) (s : NonConvexMVU K) (beta : K) (j : ℕ)
    (hj : j < s.coordinates_.n_rows * s.coordinates_.n_cols) :
    (s.trialPoint sqrt beta).ptr j
      = s.coordinates_.ptr j
        - s.step_size_ * beta / s.gradientNorm sqrt * s.gradient_.ptr j := by
  simp only [trialPoint, la.AddExpertMatrix, Matrix.CopyValues, Matrix.Init, hj, if_true]
  ring

/-- C13 as amended.  The line search starts from `β = armijo_beta_`, not from `1`: with
`‖gradient_‖ ≠ 0`, the first trial point of `LocalSearch_` is
`coordinates_ − step_size_ · armijo_beta_ · gradient_ / ‖gradient_‖`, and whenever that trial
satisfies the sufficient-decrease test it is the accepted point and the reported step is
`step_size_ * armijo_beta_`. -/
theorem LocalSearch_first_trial (sqrt : K → K) (s : NonConvexMVU K) (fuel : ℕ)
    (hnorm : s.gradientNorm sqrt ≠ 0)
    (h : s.ComputeLagrangian_ s.coordinates_
          - s.ComputeLagrangian_ (s.trialPoint sqrt s.armijo_beta_)
        ≥ s.gradientNorm sqrt * s.armijo_sigma_ * s.armijo_beta_ * s.step_size_) :
    s.LocalSearch_ sqrt (fuel + 1)
      = some ({ s with coordinates_ :=
                  s.coordinates_.CopyValues (s.trialPoint sqrt s.armijo_beta_) },
              s.step_size_ * s.armijo_beta_)
    ∧ ∀ j, j < s.coordinates_.n_rows * s.coordinates_.n_cols →
        (s.coordinates_.CopyValues (s.trialPoint sqrt s.armijo_beta_)).ptr j
          = s.coordinates_.ptr j
            - s.step_size_ * s.armijo_beta_ / s.gradientNorm sqrt * s.gradient_.ptr j := by
  have h0 : s.sufficientDecrease sqrt 0 := by
    refine ⟨Or.inl hnorm, ?_⟩
    simpa using h
  have := LocalSearch_eq_some sqrt s (fuel + 1) 0 (Nat.succ_pos fuel)
    (fun m hm => absurd hm (Nat.not_lt_zero m)) h0
  simp only [Nat.zero_add, pow_one] at this
  refine ⟨this, ?_⟩
  intro j hj
  have : (s.coordinates_.CopyValues (s.trialPoint sqrt s.armijo_beta_)).ptr j
      = (s.trialPoint sqrt s.armijo_beta_).ptr j := by
    simp [Matrix.CopyValues, hj]
  rw [this, trialPoint_ptr sqrt s _ j hj]

theorem lineSearchState_first_trial :
    lineSearchState.ComputeLagrangian_ lineSearchState.coordinates_
        - lineSearchState.ComputeLagrangian_
            (lineSearchState.trialPoint sqrtExact lineSearchState.armijo_beta_)
      ≥ lineSearchState.gradientNorm sqrtExact * lineSearchState.armijo_sigma_
          * lineSearchState.armijo_beta_ * lineSearchState.step_size_ := by decide!

/-- C13 as amended, witness: on `lineSearchState` the gradient norm is not zero and the
first trial is accepted. -/
theorem LocalSearch_first_trial_witness :
    lineSearchState.gradientNorm sqrtExact ≠ 0
    ∧ lineSearchState.ComputeLagrangian_ lineSearchState.coordinates_
        - lineSearchState.ComputeLagrangian_
            (lineSearchState.trialPoint sqrtExact lineSearchState.armijo_beta_)
      ≥ lineSearchState.gradientNorm sqrtExact * lineSearchState.armijo_sigma_
          * lineSearchState.armijo_beta_ * lineSearchState.step_size_
    ∧ lineSearchState.LocalSearch_ sqrtExact (4 + 1)
      = some ({ lineSearchState with coordinates_ :=
                  (lineSearchState.coordinates_.CopyValues
                    (lineSearchState.trialPoint sqrtExact lineSearchState.armijo_beta_)) },
              lineSearchState.step_size_ * lineSearchState.armijo_beta_) :=
  ⟨by decide!, lineSearchState_first_trial,
   (LocalSearch_first_trial sqrtExact lineSearchState 4 (by decide!)
     lineSearchState_first_trial).1⟩

/-- C13, counterexample: on `lineSearchState` (`step_size_ = 1`, `armijo_beta_ = 1/2`) the
full step `β = 1` satisfies the sufficient-decrease test, yet `LocalSearch_` reports the step
`1/2` and accepts the point with first coordinate `-1/45`, not the full-step point with first
coordinate `-11/45`. -/
theorem LocalSearch_skips_full_step :
    lineSearchState.ComputeLagrangian_ lineSearchState.coordinates_
        - lineSearchState.ComputeLagrangian_ (lineSearchState.trialPoint sqrtExact 1)
      ≥ lineSearchState.gradientNorm sqrtExact * lineSearchState.armijo_sigma_ * 1
          * lineSearchState.step_size_
    ∧ lineSearchState.step_size_ = 1
    ∧ (lineSearchState.LocalSearch_ sqrtExact 5).map (fun p => p.2) = some (1 / 2)
    ∧ (lineSearchState.trialPoint sqrtExact 1).get 0 0 = -11 / 45
    ∧ (lineSearchState.LocalSearch_ sqrtExact 5).map (fun p => p.1.coordinates_.get 0 0)
        = some (-1 / 45) := by
  refine ⟨?_, ?_, ?_, ?_, ?_⟩ <;> decide!

/-- C17 as amended.  Whenever `LocalSearch_` returns, with `‖gradient_‖ ≠ 0` computed exactly
(the value of `sqrt` is non-negative and squares to the sum of the squares of `gradient_`)
and `gradient_` of the shape of `coordinates_`, the reported step is `step_size_ · β` for the
accepted factor `β = armijo_beta_ ^ (n + 1)`, the new `coordinates_` are the old ones minus
`(step / ‖gradient_‖) · gradient_`, and the squared Euclidean length of the displacement is
`step²`; when `step_size_ ≥ 0` and `armijo_beta_ ≥ 0` the step and the factor
`step / ‖gradient_‖` are non-negative, so that the displacement is along the negative gradient
and has length `step`. -/
theorem LocalSearch_step_taken (sqrt : K → K) (s s' : NonConvexMVU K) (fuel : ℕ) (step : K)
    (h : s.LocalSearch_ sqrt fuel = some (s', step))
    (hnorm : s.gradientNorm sqrt ≠ 0)
    (hpos : 0 ≤ s.gradientNorm sqrt)
    (hexact : s.gradientNorm sqrt * s.gradientNorm sqrt
        = ∑ j in Finset.range (s.gradient_.n_rows * s.gradient_.n_cols), s.gradient_.ptr j ^ 2)
    (hrows : s.gradient_.n_rows = s.coordinates_.n_rows)
    (hcols : s.gradient_.n_cols = s.coordinates_.n_cols) :
    ∃ n, n < fuel ∧ step = s.step_size_ * s.armijo_beta_ ^ (n + 1)
      ∧ (∀ r c, r < s.coordinates_.n_rows → c < s.coordinates_.n_cols →
          s'.coordinates_.get r c
            = s.coordinates_.get r c - step / s.gradientNorm sqrt * s.gradient_.get r c)
      ∧ ∑ j in Finset.range (s.coordinates_.n_rows * s.coordinates_.n_cols),
          (s'.coordinates_.ptr j - s.coordinates_.ptr j) ^ 2 = step ^ 2
      ∧ (0 ≤ s.step_size_ → 0 ≤ s.armijo_beta_ →
          0 ≤ step ∧ 0 ≤ step / s.gradientNorm sqrt) := by
  obtain ⟨n, hn, -, -, hs', hstep⟩ := LocalSearch_some_elim sqrt s s' fuel step h
  have hptr : ∀ j, j < s.coordinates_.n_rows * s.coordinates_.n_cols →
      s'.coordinates_.ptr j
        = s.coordinates_.ptr j - step / s.gradientNorm sqrt * s.gradient_.ptr j := by
    intro j hj
    rw [hs', hstep]
    show (s.coordinates_.CopyValues (s.trialPoint sqrt (s.armijo_beta_ ^ (n + 1)))).ptr j = _
    have : (s.coordinates_.CopyValues (s.trialPoint sqrt (s.armijo_beta_ ^ (n + 1)))).ptr j
        = (s.trialPoint sqrt (s.armijo_beta_ ^ (n + 1))).ptr j := by
      simp [Matrix.CopyValues, hj]
    rw [this, trialPoint_ptr sqrt s _ j hj]
  have hrows' : s'.coordinates_.n_rows = s.coordinates_.n_rows := by rw [hs']; rfl
  refine ⟨n, hn, hstep, ?_, ?_, ?_⟩
  · intro r c hr hc
    have hj : c * s.coordinates_.n_rows + r < s.coordinates_.n_rows * s.coordinates_.n_cols := by
      calc c * s.coordinates_.n_rows + r < c * s.coordinates_.n_rows + s.coordinates_.n_rows :=
            Nat.add_lt_add_left hr _
        _ = (c + 1) * s.coordinates_.n_rows := by ring
        _ ≤ s.coordinates_.n_cols * s.coordinates_.n_rows := Nat.mul_le_mul_right _ hc
        _ = s.coordinates_.n_rows * s.coordinates_.n_cols := Nat.mul_comm _ _
    simp only [Matrix.get, Matrix.ColumnOffset, hrows', hrows]
    exact hptr _ hj
  · have h1 : ∀ j ∈ Finset.range (s.coordinates_.n_rows * s.coordinates_.n_cols),
        (s'.coordinates_.ptr j - s.coordinates_.ptr j) ^ 2
          = (step / s.gradientNorm sqrt) ^ 2 * s.gradient_.ptr j ^ 2 := by
      intro j hj
      rw [hptr j (Finset.mem_range.mp hj)]
      ring
    rw [Finset.sum_congr rfl h1, ← Finset.mul_sum, ← hrows, ← hcols, ← hexact, div_pow, ← sq]
    exact div_mul_cancel₀ _ (pow_ne_zero 2 hnorm)
  · intro h1 h2
    have hs : 0 ≤ step := by
      rw [hstep]; exact mul_nonneg h1 (pow_nonneg h2 _)
    exact ⟨hs, div_nonneg hs hpos⟩

theorem lineSearchState_norm_exact :
    lineSearchState.gradientNorm sqrtExact * lineSearchState.gradientNorm sqrtExact
      = ∑ j in Finset.range (lineSearchState.gradient_.n_rows * lineSearchState.gradient_.n_cols),
          lineSearchState.gradient_.ptr j ^ 2 := by decide!

/-- C17 as amended, witness: the `LocalSearch_` call on `lineSearchState`. -/
theorem LocalSearch_step_taken_witness :
    lineSearchState.LocalSearch_ sqrtExact 1 = some (lineSearchResult.1, lineSearchResult.2)
    ∧ lineSearchState.gradientNorm sqrtExact ≠ 0
    ∧ ∃ n, n < 1 ∧ lineSearchResult.2
          = lineSearchState.step_size_ * lineSearchState.armijo_beta_ ^ (n + 1)
      ∧ (∀ r c, r < lineSearchState.coordinates_.n_rows →
          c < lineSearchState.coordinates_.n_cols →
          lineSearchResult.1.coordinates_.get r c
            = lineSearchState.coordinates_.get r c
              - lineSearchResult.2 / lineSearchState.gradientNorm sqrtExact
                * lineSearchState.gradient_.get r c)
      ∧ ∑ j in Finset.range
            (lineSearchState.coordinates_.n_rows * lineSearchState.coordinates_.n_cols),
          (lineSearchResult.1.coordinates_.ptr j - lineSearchState.coordinates_.ptr j) ^ 2
          = lineSearchResult.2 ^ 2
      ∧ (0 ≤ lineSearchState.step_size_ → 0 ≤ lineSearchState.armijo_beta_ →
          0 ≤ lineSearchResult.2
          ∧ 0 ≤ lineSearchResult.2 / lineSearchState.gradientNorm sqrtExact) :=
  have h : lineSearchState.LocalSearch_ sqrtExact 1
      = some (lineSearchResult.1, lineSearchResult.2) := (Option.some_get _).symm
  have hn : lineSearchState.gradientNorm sqrtExact ≠ 0 := by decide!
  ⟨h, hn, LocalSearch_step_taken sqrtExact lineSearchState lineSearchResult.1 1
    lineSearchResult.2 h hn (by decide!) lineSearchState_norm_exact rfl rfl⟩

/-- C17, counterexample: on `collapsedReversed` (`step_size_ = -1`, the norm of `gradient_`
exact and not zero) `LocalSearch_` returns the step `-(1/2)^24`.  The displacement has length
`(1/2)^24`, not the reported step, and is along the gradient, not against it: the first entry
of `gradient_` is positive and the first coordinate grows by `(1/2)^25`. -/
theorem LocalSearch_negative_step :
    collapsedReversed.gradientNorm sqrtExact ≠ 0
    ∧ collapsedReversed.gradientNorm sqrtExact * collapsedReversed.gradientNorm sqrtExact
        = la.Dot 4 collapsedReversed.gradient_.ptr collapsedReversed.gradient_.ptr
    ∧ (collapsedReversed.LocalSearch_ sqrtExact 24).map (fun p => p.2) = some (-(1 / 2) ^ 24)
    ∧ (collapsedReversed.LocalSearch_ sqrtExact 24).map
        (fun p => ∑ j in Finset.range 4,
          (p.1.coordinates_.ptr j - collapsedReversed.coordinates_.ptr j) ^ 2)
        = some (((1 / 2) ^ 24) ^ 2)
    ∧ 0 < collapsedReversed.gradient_.get 0 0
    ∧ (collapsedReversed.LocalSearch_ sqrtExact 24).map
        (fun p => p.1.coordinates_.get 0 0 - collapsedReversed.coordinates_.get 0 0)
        = some ((1 / 2) ^ 25) := by
  refine ⟨?_, ?_, ?_, ?_, ?_, ?_⟩ <;> decide!

/-! ## `ComputeFeasibilityError_` (C16) -/

theorem ComputeFeasibilityError_columns (s : NonConvexMVU K) (n : ℕ) :
    forLoop n (fun i (acc : K × Vector K) =>
      let acc : K × Vector K :=
        forLoop s.knns_.toNat (fun k acc =>
          let point1 := s.coordinates_.GetColumnPtr i
          let point2 := s.coordinates_.GetColumnPtr (s.neighbors_.get (i * s.knns_.toNat + k))
          (acc.1 + math.Sqr (la.DistanceSqEuclidean s.new_dimension_ point1 point2
                             - s.distances_.get (i * s.knns_.toNat + k)), acc.2)) acc
      forLoop s.new_dimension_.toNat (fun k acc =>
        (acc.1, acc.2.set k (acc.2.get k + s.coordinates_.get k i))) acc)
      (0, (Vector.Init s.new_dimension_.toNat).SetAll 0)
    = (∑ i in Finset.range n, ∑ k in Finset.range s.knns_.toNat,
          s.distanceConstraint s.coordinates_ i k ^ 2,
       s.deviationsAfter s.coordinates_ n) := by
  induction n with
  | zero => simp [forLoop_zero, deviationsAfter_zero s s.coordinates_]
  | succ n ih =>
    rw [forLoop_succ, ih]
    simp only []
    rw [forLoop_fst_add, forLoop_snd_accumulate]
    simp only []
    rw [deviationsAfter_succ, Finset.sum_range_succ]
    congr 2
    apply Finset.sum_congr rfl
    intro k _
    simp only [math.Sqr, distanceConstraint, embeddedDistanceSq, DistanceSqEuclidean_eq_sum,
      Matrix.GetColumnPtr, Matrix.get]
    ring

theorem ComputeFeasibilityError_eq (s : NonConvexMVU K) :
    s.ComputeFeasibilityError_
      = (∑ i in Finset.range s.coordinates_.n_cols, ∑ k in Finset.range s.knns_.toNat,
            s.distanceConstraint s.coordinates_ i k ^ 2,
         ∑ j in Finset.range s.new_dimension_.toNat,
            centeringConstraint s.coordinates_ j ^ 2) := by
  unfold ComputeFeasibilityError_
  simp only []
  rw [ComputeFeasibilityError_columns, forLoop_add_eq_sum, zero_add]
  congr 1
  apply Finset.sum_congr rfl
  intro j hj
  have hj' : j < s.new_dimension_.toNat := Finset.mem_range.mp hj
  simp only [Vector.get, deviationsAfter, hj', if_true, centeringConstraint]
  ring

/-- C16.  Of the pair computed by `ComputeFeasibilityError_`, `distance_constraint` is the
sum over all points `i` and neighbour slots `k` of the square of the squared embedded distance
between `i` and `neighbors_[i*knns_+k]` minus `distances_[i*knns_+k]`, and
`centering_constraint` is the sum over the dimensions of the square of the sum of that
coordinate over all points.  Both are non-negative, and their sum, the value of the
no-argument overload, is zero if and only if every neighbour distance is reproduced exactly
and the coordinates of every dimension sum to zero. -/
theorem ComputeFeasibilityError_characterises_feasibility (s : NonConvexMVU K) :
    s.ComputeFeasibilityError_.1
        = ∑ i in Finset.range s.coordinates_.n_cols, ∑ k in Finset.range s.knns_.toNat,
            (s.embeddedDistanceSq s.coordinates_ i (s.neighbors_.get (i * s.knns_.toNat + k))
              - s.distances_.get (i * s.knns_.toNat + k)) ^ 2
    ∧ s.ComputeFeasibilityError_.2
        = ∑ j in Finset.range s.new_dimension_.toNat,
            (∑ i in Finset.range s.coordinates_.n_cols, s.coordinates_.get j i) ^ 2
    ∧ 0 ≤ s.ComputeFeasibilityError_.1
    ∧ 0 ≤ s.ComputeFeasibilityError_.2
    ∧ (s.ComputeFeasibilityError = 0 ↔
        (∀ i k, i < s.coordinates_.n_cols → k < s.knns_.toNat →
          s.embeddedDistanceSq s.coordinates_ i (s.neighbors_.get (i * s.knns_.toNat + k))
            = s.distances_.get (i * s.knns_.toNat + k))
        ∧ ∀ j, j < s.new_dimension_.toNat →
            ∑ i in Finset.range s.coordinates_.n_cols, s.coordinates_.get j i = 0) := by
  have h1 : 0 ≤ ∑ i in Finset.range s.coordinates_.n_cols,
      ∑ k in Finset.range s.knns_.toNat, s.distanceConstraint s.coordinates_ i k ^ 2 :=
    Finset.sum_nonneg (fun i _ => Finset.sum_nonneg (fun k _ => sq_nonneg _))
  have h2 : 0 ≤ ∑ j in Finset.range s.new_dimension_.toNat,
      centeringConstraint s.coordinates_ j ^ 2 :=
    Finset.sum_nonneg (fun j _ => sq_nonneg _)
  unfold ComputeFeasibilityError
  rw [ComputeFeasibilityError_eq]
  refine ⟨rfl, rfl, h1, h2, ?_⟩
  simp only []
  rw [add_eq_zero_iff_of_nonneg h1 h2,
    Finset.sum_eq_zero_iff_of_nonneg (fun i _ => Finset.sum_nonneg (fun k _ => sq_nonneg _)),
    Finset.sum_eq_zero_iff_of_nonneg (fun j _ => sq_nonneg _)]
  constructor
  · rintro ⟨hd, hc⟩
    refine ⟨fun i k hi hk => ?_, fun j hj => ?_⟩
    · have := hd i (Finset.mem_range.mpr hi)
      rw [Finset.sum_eq_zero_iff_of_nonneg (fun k _ => sq_nonneg _)] at this
      have := this k (Finset.mem_range.mpr hk)
      exact sub_eq_zero.mp ((pow_eq_zero_iff (two_ne_zero)).mp this)
    · have := hc j (Finset.mem_range.mpr hj)
      exact (pow_eq_zero_iff (two_ne_zero)).mp this
  · rintro ⟨hd, hc⟩
    refine ⟨fun i hi => ?_, fun j hj => ?_⟩
    · apply Finset.sum_eq_zero
      intro k hk
      have := hd i k (Finset.mem_range.mp hi) (Finset.mem_range.mp hk)
      simp only [distanceConstraint, this, sub_self]
      ring
    · have := hc j (Finset.mem_range.mp hj)
      simp only [centeringConstraint, this]
      ring

/-! ## The column sum of the gradient (C20) -/

theorem forLoop_induction {σ : Type} (P : ℕ → σ → Prop) (n : ℕ) (body : ℕ → σ → σ) (s : σ)
    (h0 : P 0 s) (hstep : ∀ i, i < n → ∀ t, P i t → P (i + 1) (body i t)) :
    P n (forLoop n body s) := by
  induction n with
  | zero => simpa [forLoop_zero] using h0
  | succ n ih =>
    rw [forLoop_succ]
    exact hstep n (Nat.lt_succ_self n) _
      (ih (fun i hi t ht => hstep i (Nat.lt_succ_of_lt hi) t ht))

theorem offset_inj (R i i' k k' : ℕ) (hk : k < R) (hk' : k' < R)
    (h : i * R + k = i' * R + k') : i = i' ∧ k = k' := by
  rcases Nat.lt_trichotomy i i' with hlt | heq | hgt
  · exfalso
    have h1 : (i + 1) * R ≤ i' * R := Nat.mul_le_mul_right _ hlt
    have h2 : (i + 1) * R = i * R + R := by ring
    omega
  · subst heq
    exact ⟨rfl, by omega⟩
  · exfalso
    have h1 : (i' + 1) * R ≤ i * R := Nat.mul_le_mul_right _ hgt
    have h2 : (i' + 1) * R = i' * R + R := by ring
    omega

theorem AddExpert_get (g : Matrix K) (length : ℤ) (alpha : K) (x : ℕ → K) (c k i : ℕ)
    (hlen : length.toNat ≤ g.n_rows) (hk : k < g.n_rows) :
    ({ g with ptr := la.AddExpert length alpha x g.ptr (g.ColumnOffset c) } : Matrix K).get k i
      = g.get k i + if i = c ∧ k < length.toNat then alpha * x k else 0 := by
  simp only [Matrix.get, Matrix.ColumnOffset, la.AddExpert]
  by_cases hic : i = c
  · subst hic
    by_cases hkl : k < length.toNat
    · have h1 : i * g.n_rows ≤ i * g.n_rows + k ∧ i * g.n_rows + k < i * g.n_rows + length.toNat :=
        ⟨Nat.le_add_right _ _, Nat.add_lt_add_left hkl _⟩
      simp [h1, hkl]
    · have h1 : ¬ (i * g.n_rows ≤ i * g.n_rows + k
          ∧ i * g.n_rows + k < i * g.n_rows + length.toNat) := by omega
      simp [h1, hkl]
  · have h1 : ¬ (c * g.n_rows ≤ i * g.n_rows + k
        ∧ i * g.n_rows + k < c * g.n_rows + length.toNat) := by
      rintro ⟨ha, hb⟩
      rcases Nat.lt_or_gt_of_ne hic with hlt | hgt
      · have h1 : (i + 1) * g.n_rows ≤ c * g.n_rows := Nat.mul_le_mul_right _ hlt
        have h2 : (i + 1) * g.n_rows = i * g.n_rows + g.n_rows := by ring
        omega
      · have h1 : (c + 1) * g.n_rows ≤ i * g.n_rows := Nat.mul_le_mul_right _ hgt
        have h2 : (c + 1) * g.n_rows = c * g.n_rows + g.n_rows := by ring
        omega
    simp [h1, hic]

theorem set_get (g : Matrix K) (k0 i0 : ℕ) (v : K) (k i : ℕ) (hk0 : k0 < g.n_rows)
    (hk : k < g.n_rows) :
    (g.set k0 i0 v).get k i = if i = i0 ∧ k = k0 then v else g.get k i := by
  simp only [Matrix.get, Matrix.set, Matrix.ColumnOffset]
  by_cases h : i * g.n_rows + k = i0 * g.n_rows + k0
  · have := offset_inj g.n_rows i i0 k k0 hk hk0 h
    rw [h, Function.update_same]
    simp [this.1, this.2]
  · have h' : ¬ (i = i0 ∧ k = k0) := by
      rintro ⟨rfl, rfl⟩; exact h rfl
    simp [Function.update_noteq h, h']

theorem AddExpert_rowSum (g : Matrix K) (length : ℤ) (alpha : K) (x : ℕ → K) (c k : ℕ)
    (hlen : length.toNat ≤ g.n_rows) (hc : c < g.n_cols) (hk : k < length.toNat) :
    centeringConstraint
        ({ g with ptr := la.AddExpert length alpha x g.ptr (g.ColumnOffset c) } : Matrix K) k
      = centeringConstraint g k + alpha * x k := by
  unfold centeringConstraint
  have h1 : ∀ i ∈ Finset.range g.n_cols,
      ({ g with ptr := la.AddExpert length alpha x g.ptr (g.ColumnOffset c) } : Matrix K).get k i
        = g.get k i + if i = c then alpha * x k else 0 := by
    intro i _
    rw [AddExpert_get g length alpha x c k i hlen (lt_of_lt_of_le hk hlen)]
    simp [hk]
  show ∑ i in Finset.range g.n_cols, _ = _
  rw [Finset.sum_congr rfl h1, Finset.sum_add_distrib, Finset.sum_ite_eq']
  simp [hc]

theorem set_rowSum (g : Matrix K) (k0 i0 : ℕ) (v : K) (k : ℕ) (hk0 : k0 < g.n_rows)
    (hi0 : i0 < g.n_cols) (hk : k < g.n_rows) :
    centeringConstraint (g.set k0 i0 v) k
      = centeringConstraint g k + if k = k0 then v - g.get k0 i0 else 0 := by
  unfold centeringConstraint
  have h1 : ∀ i ∈ Finset.range g.n_cols,
      (g.set k0 i0 v).get k i
        = g.get k i + if i = i0 then (if k = k0 then v - g.get k0 i0 else 0) else 0 := by
    intro i _
    rw [set_get g k0 i0 v k i hk0 hk]
    by_cases hi : i = i0
    · by_cases hkk : k = k0
      · subst hi; subst hkk; simp
      · simp [hi, hkk]
    · simp [hi]
  show ∑ i in Finset.range g.n_cols, _ = _
  rw [Finset.sum_congr rfl h1, Finset.sum_add_distrib, Finset.sum_ite_eq']
  simp [hi0]

theorem ComputeGradient_gradient_eq (s : NonConvexMVU K) :
    s.ComputeGradient_.gradient_
      = forLoop (s.gradientColumnsLoop s.gradient_.n_cols).1.n_cols (fun i g =>
          { g with ptr := (la.AddExpert s.new_dimension_ s.sigma_
              (s.gradientColumnsLoop s.gradient_.n_cols).2.ptr g.ptr (g.ColumnOffset i)) })
          (s.gradientColumnsLoop s.gradient_.n_cols).1 := rfl

theorem gradient_pair_loop (s : NonConvexMVU K) (i : ℕ) (acc : Matrix K × Vector K)
    (hb : s.CoordinatesInBounds s.coordinates_)
    (hr : acc.1.n_rows = s.coordinates_.n_rows) (hc : acc.1.n_cols = s.coordinates_.n_cols)
    (hi : i < s.coordinates_.n_cols) :
    (fun (t : Matrix K × Vector K) => t.1.n_rows = s.coordinates_.n_rows
      ∧ t.1.n_cols = s.coordinates_.n_cols
      ∧ (∀ k, k < s.new_dimension_.toNat →
          centeringConstraint t.1 k = centeringConstraint acc.1 k)
      ∧ t.2 = acc.2)
    (forLoop s.knns_.toNat (fun k acc =>
          let point1 := s.coordinates_.GetColumnPtr i
          let point2 := s.coordinates_.GetColumnPtr (s.neighbors_.get (i * s.knns_.toNat + k))
          let a_i_r := la.SubOverwrite s.new_dimension_ point2 point1 (fun _ => 0)
          let dist_diff := la.DistanceSqEuclidean s.new_dimension_ point1 point2
                           - s.distances_.get (i * s.knns_.toNat + k)
          let g : Matrix K :=
            { acc.1 with ptr :=
                (la.AddExpert s.new_dimension_
                  (-(s.lagrange_mult_.get (i * s.knns_.toNat + k)) + dist_diff * s.sigma_)
                  a_i_r acc.1.ptr (acc.1.ColumnOffset i)) }
          let g : Matrix K :=
            { g with ptr :=
                (la.AddExpert s.new_dimension_
                  (s.lagrange_mult_.get (i * s.knns_.toNat + k) - dist_diff * s.sigma_)
                  a_i_r g.ptr (g.ColumnOffset (s.neighbors_.get (i * s.knns_.toNat + k)))) }
          (g, acc.2)) acc) := by
  obtain ⟨hd, hn⟩ := hb
  refine forLoop_induction
    (fun _ (t : Matrix K × Vector K) => t.1.n_rows = s.coordinates_.n_rows
      ∧ t.1.n_cols = s.coordinates_.n_cols
      ∧ (∀ k, k < s.new_dimension_.toNat →
          centeringConstraint t.1 k = centeringConstraint acc.1 k)
      ∧ t.2 = acc.2) _ _ _ ⟨hr, hc, fun _ _ => rfl, rfl⟩ ?_
  intro k hk t ht
  obtain ⟨t1, t2, t3, t4⟩ := ht
  refine ⟨t1, t2, ?_, t4⟩
  intro k' hk'
  refine (AddExpert_rowSum _ _ _ _ _ k' ?_ ?_ hk').trans ?_
  · show _ ≤ t.1.n_rows
    rw [t1]; exact hd
  · show _ < t.1.n_cols
    rw [t2]; exact hn i k hi hk
  · rw [AddExpert_rowSum t.1 _ _ _ _ k' (by rw [t1]; exact hd) (by rw [t2]; exact hi) hk',
      t3 k' hk']
    ring

theorem gradient_centering_loop (s : NonConvexMVU K) (i : ℕ) (acc : Matrix K × Vector K)
    (hd : s.new_dimension_.toNat ≤ s.coordinates_.n_rows)
    (hr : acc.1.n_rows = s.coordinates_.n_rows) (hc : acc.1.n_cols = s.coordinates_.n_cols)
    (hi : i < s.coordinates_.n_cols) :
    (fun (t : Matrix K × Vector K) => t.1.n_rows = s.coordinates_.n_rows
      ∧ t.1.n_cols = s.coordinates_.n_cols
      ∧ (∀ k, k < s.new_dimension_.toNat →
          centeringConstraint t.1 k
            = centeringConstraint acc.1 k - s.centering_lagrange_mult_.get k)
      ∧ (∀ j, j < s.new_dimension_.toNat →
          t.2.ptr j = acc.2.ptr j + s.coordinates_.get j i))
    (forLoop s.new_dimension_.toNat (fun k acc =>
        (acc.1.set k i (acc.1.get k i - s.centering_lagrange_mult_.get k),
         acc.2.set k (acc.2.get k + s.coordinates_.get k i))) acc) := by
  have h := forLoop_induction
    (fun n (t : Matrix K × Vector K) => t.1.n_rows = s.coordinates_.n_rows
      ∧ t.1.n_cols = s.coordinates_.n_cols
      ∧ (∀ k, k < s.new_dimension_.toNat →
          centeringConstraint t.1 k
            = centeringConstraint acc.1 k
              - if k < n then s.centering_lagrange_mult_.get k else 0)
      ∧ (∀ j, t.2.ptr j
            = if j < n then acc.2.ptr j + s.coordinates_.get j i else acc.2.ptr j))
    s.new_dimension_.toNat
    (fun k (acc : Matrix K × Vector K) =>
        (acc.1.set k i (acc.1.get k i - s.centering_lagrange_mult_.get k),
         acc.2.set k (acc.2.get k + s.coordinates_.get k i))) acc
    ⟨hr, hc, fun _ _ => by simp, fun _ => by simp⟩ ?_
  · obtain ⟨h1, h2, h3, h4⟩ := h
    refine ⟨h1, h2, fun k hk => ?_, fun j hj => ?_⟩
    · rw [h3 k hk]; simp [hk]
    · rw [h4 j]; simp [hj]
  · intro k hk t ht
    obtain ⟨t1, t2, t3, t4⟩ := ht
    have hkR : k < t.1.n_rows := by rw [t1]; exact lt_of_lt_of_le hk hd
    refine ⟨t1, t2, ?_, ?_⟩
    · intro k' hk'
      have hk'R : k' < t.1.n_rows := by rw [t1]; exact lt_of_lt_of_le hk' hd
      simp only []
      rw [set_rowSum t.1 k i _ k' hkR (by rw [t2]; exact hi) hk'R, t3 k' hk']
      by_cases e : k' = k
      · subst e
        simp
        ring
      · rcases Nat.lt_or_gt_of_ne e with e1 | e1
        · simp [e, e1, Nat.lt_succ_of_lt e1]
        · have e2 : ¬ k' < k := by omega
          have e3 : ¬ k' < k + 1 := by omega
          simp [e, e2, e3]
    · intro j
      simp only [Vector.set, Vector.get]
      by_cases e : j = k
      · subst e
        simp [t4 j]
      · rw [Function.update_noteq e, t4 j]
        rcases Nat.lt_or_gt_of_ne e with e1 | e1
        · simp [e1, Nat.lt_succ_of_lt e1]
        · have e2 : ¬ j < k := by omega
          have e3 : ¬ j < k + 1 := by omega
          simp [e2, e3]

theorem gradient_columns (s : NonConvexMVU K) (hb : s.CoordinatesInBounds s.coordinates_)
    (hgr : s.gradient_.n_rows = s.coordinates_.n_rows)
    (hgc : s.gradient_.n_cols = s.coordinates_.n_cols) (n : ℕ)
    (hn : n ≤ s.coordinates_.n_cols) :
    (s.gradientColumnsLoop n).1.n_rows = s.coordinates_.n_rows
    ∧ (s.gradientColumnsLoop n).1.n_cols = s.coordinates_.n_cols
    ∧ (∀ k, k < s.new_dimension_.toNat →
        centeringConstraint (s.gradientColumnsLoop n).1 k
          = - centeringConstraint s.coordinates_ k - n * s.centering_lagrange_mult_.get k)
    ∧ (∀ j, j < s.new_dimension_.toNat →
        (s.gradientColumnsLoop n).2.ptr j
          = ∑ i in Finset.range n, s.coordinates_.get j i) := by
  unfold gradientColumnsLoop
  refine forLoop_induction
    (fun n (t : Matrix K × Vector K) => t.1.n_rows = s.coordinates_.n_rows
      ∧ t.1.n_cols = s.coordinates_.n_cols
      ∧ (∀ k, k < s.new_dimension_.toNat →
          centeringConstraint t.1 k
            = - centeringConstraint s.coordinates_ k - n * s.centering_lagrange_mult_.get k)
      ∧ (∀ j, j < s.new_dimension_.toNat →
          t.2.ptr j = ∑ i in Finset.range n, s.coordinates_.get j i)) n _ _ ?_ ?_
  · refine ⟨hgr, hgc, ?_, ?_⟩
    · intro k hk
      have hkR : k < s.coordinates_.n_rows := lt_of_lt_of_le hk hb.1
      unfold centeringConstraint
      show ∑ i in Finset.range s.gradient_.n_cols, _ = _
      rw [hgc, ← Finset.sum_neg_distrib]
      simp only [Nat.cast_zero, zero_mul, sub_zero]
      apply Finset.sum_congr rfl
      intro i hi
      have hj : i * s.coordinates_.n_rows + k
          < s.coordinates_.n_rows * s.coordinates_.n_cols := by
        calc i * s.coordinates_.n_rows + k
            < i * s.coordinates_.n_rows + s.coordinates_.n_rows := Nat.add_lt_add_left hkR _
          _ = (i + 1) * s.coordinates_.n_rows := by ring
          _ ≤ s.coordinates_.n_cols * s.coordinates_.n_rows :=
              Nat.mul_le_mul_right _ (Finset.mem_range.mp hi)
          _ = s.coordinates_.n_rows * s.coordinates_.n_cols := Nat.mul_comm _ _
      simp [Matrix.get, Matrix.ColumnOffset, la.Scale, Matrix.CopyValues, hgr, hgc, hj]
    · intro j _
      simp [Vector.Init, Vector.SetAll]
  · intro i hi t ht
    obtain ⟨t1, t2, t3, t4⟩ := ht
    have hiC : i < s.coordinates_.n_cols := lt_of_lt_of_le hi hn
    have hp := gradient_pair_loop s i t hb t1 t2 hiC
    obtain ⟨p1, p2, p3, p4⟩ := hp
    have hq := gradient_centering_loop s i _ hb.1 p1 p2 hiC
    obtain ⟨q1, q2, q3, q4⟩ := hq
    refine ⟨q1, q2, ?_, ?_⟩
    · intro k hk
      rw [q3 k hk, p3 k hk, t3 k hk]
      push_cast
      ring
    · intro j hj
      rw [q4 j hj, p4, t4 j hj, Finset.sum_range_succ]

theorem gradient_final_loop (g0 : Matrix K) (d : ℕ → K) (length : ℤ) (sigma : K) (n : ℕ)
    (hn : n ≤ g0.n_cols) (hlen : length.toNat ≤ g0.n_rows) :
    (fun (g : Matrix K) => g.n_rows = g0.n_rows ∧ g.n_cols = g0.n_cols
      ∧ ∀ k, k < length.toNat →
          centeringConstraint g k = centeringConstraint g0 k + n * (sigma * d k))
    (forLoop n (fun i g =>
        { g with ptr := (la.AddExpert length sigma d g.ptr (g.ColumnOffset i)) }) g0) := by
  refine forLoop_induction
    (fun n (g : Matrix K) => g.n_rows = g0.n_rows ∧ g.n_cols = g0.n_cols
      ∧ ∀ k, k < length.toNat →
          centeringConstraint g k = centeringConstraint g0 k + n * (sigma * d k)) n _ _ ?_ ?_
  · exact ⟨rfl, rfl, fun _ _ => by simp⟩
  · intro i hi g hg
    obtain ⟨g1, g2, g3⟩ := hg
    refine ⟨g1, g2, ?_⟩
    intro k hk
    rw [AddExpert_rowSum g length sigma d i k (by rw [g1]; exact hlen)
      (by rw [g2]; exact lt_of_lt_of_le hi hn) hk, g3 k hk]
    push_cast
    ring

theorem ComputeGradient_rowSum (s : NonConvexMVU K) (hb : s.CoordinatesInBounds s.coordinates_)
    (hgr : s.gradient_.n_rows = s.coordinates_.n_rows)
    (hgc : s.gradient_.n_cols = s.coordinates_.n_cols) (k : ℕ)
    (hk : k < s.new_dimension_.toNat) :
    centeringConstraint s.ComputeGradient_.gradient_ k
      = (s.coordinates_.n_cols * s.sigma_ - 1) * centeringConstraint s.coordinates_ k
        - s.coordinates_.n_cols * s.centering_lagrange_mult_.get k := by
  obtain ⟨c1, c2, c3, c4⟩ := gradient_columns s hb hgr hgc s.gradient_.n_cols (le_of_eq hgc)
  have hf := gradient_final_loop (s.gradientColumnsLoop s.gradient_.n_cols).1
    (s.gradientColumnsLoop s.gradient_.n_cols).2.ptr s.new_dimension_ s.sigma_
    (s.gradientColumnsLoop s.gradient_.n_cols).1.n_cols (le_refl _) (by rw [c1]; exact hb.1)
  obtain ⟨-, -, f3⟩ := hf
  rw [ComputeGradient_gradient_eq, f3 k hk, c3 k hk, c4 k hk, c2, hgc]
  unfold centeringConstraint
  ring

/-- C20.  On an object whose `gradient_` has the shape of `coordinates_` and whose reads are
in bounds, row `k` of the sum of the columns of the matrix written by `ComputeGradient_` is
`(N · sigma_ − 1) · S_k − N · centering_lagrange_mult_[k]`, with `N` the number of points and
`S_k` the sum of coordinate `k` over all points.  So it is the same on every such object with
the same `coordinates_`, `new_dimension_`, `sigma_` and `centering_lagrange_mult_`, whatever
its `neighbors_`, `distances_`, `lagrange_mult_` and `knns_` are. -/
theorem ComputeGradient_column_sum (s : NonConvexMVU K)
    (hb : s.CoordinatesInBounds s.coordinates_)
    (hgr : s.gradient_.n_rows = s.coordinates_.n_rows)
    (hgc : s.gradient_.n_cols = s.coordinates_.n_cols) (k : ℕ)
    (hk : k < s.new_dimension_.toNat) :
    centeringConstraint s.ComputeGradient_.gradient_ k
      = (s.coordinates_.n_cols * s.sigma_ - 1) * centeringConstraint s.coordinates_ k
        - s.coordinates_.n_cols * s.centering_lagrange_mult_.get k
    ∧ ∀ t : NonConvexMVU K,
        t.coordinates_ = s.coordinates_ → t.new_dimension_ = s.new_dimension_ →
        t.sigma_ = s.sigma_ → t.centering_lagrange_mult_ = s.centering_lagrange_mult_ →
        t.gradient_.n_rows = s.coordinates_.n_rows →
        t.gradient_.n_cols = s.coordinates_.n_cols →
        t.CoordinatesInBounds t.coordinates_ →
        centeringConstraint t.ComputeGradient_.gradient_ k
          = centeringConstraint s.ComputeGradient_.gradient_ k := by
  have h1 := ComputeGradient_rowSum s hb hgr hgc k hk
  refine ⟨h1, ?_⟩
  intro t hco hnd hsig hmu htr htc htb
  have h2 := ComputeGradient_rowSum t htb (by rw [hco]; exact htr) (by rw [hco]; exact htc) k
    (by rw [hnd]; exact hk)
  rw [h1, h2, hco, hsig, hmu]

/-- C20, witness: `lineSearchState`, row `0`. -/
theorem ComputeGradient_column_sum_witness :
    lineSearchState.CoordinatesInBounds lineSearchState.coordinates_
    ∧ lineSearchState.gradient_.n_rows = lineSearchState.coordinates_.n_rows
    ∧ lineSearchState.gradient_.n_cols = lineSearchState.coordinates_.n_cols
    ∧ 0 < lineSearchState.new_dimension_.toNat
    ∧ centeringConstraint lineSearchState.ComputeGradient_.gradient_ 0
      = (lineSearchState.coordinates_.n_cols * lineSearchState.sigma_ - 1)
          * centeringConstraint lineSearchState.coordinates_ 0
        - lineSearchState.coordinates_.n_cols
          * lineSearchState.centering_lagrange_mult_.get 0 :=
  ⟨lineSearchState_inBounds, by decide!, by decide!, by decide!,
   (ComputeGradient_column_sum lineSearchState lineSearchState_inBounds (by decide!)
     (by decide!) 0 (by decide!)).1⟩

/-! ## Translation of the coordinates (C21) -/

theorem translateColumns_loop (coord : Matrix K) (t : ℕ → K) (n : ℕ) :
    (fun (g : Matrix K) => g.n_rows = coord.n_rows ∧ g.n_cols = coord.n_cols
      ∧ ∀ k i, k < coord.n_rows → g.get k i = coord.get k i + if i < n then t k else 0)
    (forLoop n (fun i g =>
      { g with ptr := (la.AddExpert (g.n_rows : ℤ) 1 t g.ptr (g.ColumnOffset i)) }) coord) := by
  refine forLoop_induction
    (fun n (g : Matrix K) => g.n_rows = coord.n_rows ∧ g.n_cols = coord.n_cols
      ∧ ∀ k i, k < coord.n_rows → g.get k i = coord.get k i + if i < n then t k else 0)
    n _ _ ?_ ?_
  · exact ⟨rfl, rfl, fun _ _ _ => by simp⟩
  · intro c _ g hg
    obtain ⟨g1, g2, g3⟩ := hg
    refine ⟨g1, g2, ?_⟩
    intro k i hk
    have hk' : k < g.n_rows := by rw [g1]; exact hk
    rw [AddExpert_get g (g.n_rows : ℤ) 1 t c k i (by simp) hk', g3 k i hk]
    by_cases hic : i = c
    · subst hic
      simp [hk']
    · by_cases hlt : i < c
      · have : i < c + 1 := Nat.lt_succ_of_lt hlt
        simp [hic, hlt, this]
      · have : ¬ i < c + 1 := by omega
        simp [hic, hlt, this]

theorem translateColumns_get (coord : Matrix K) (t : ℕ → K) (k i : ℕ)
    (hk : k < coord.n_rows) (hi : i < coord.n_cols) :
    (translateColumns coord t).n_rows = coord.n_rows
    ∧ (translateColumns coord t).n_cols = coord.n_cols
    ∧ (translateColumns coord t).get k i = coord.get k i + t k := by
  obtain ⟨h1, h2, h3⟩ := translateColumns_loop coord t coord.n_cols
  refine ⟨h1, h2, ?_⟩
  have := h3 k i hk
  simp only [hi, if_true] at this
  exact this

/-- C21.  On an object whose reads are in bounds, adding a vector `t` to every column of
`coordinates_` leaves the value `distance_constraint` computed by `ComputeFeasibilityError_`
unchanged; `centering_constraint` becomes the sum over the dimensions `j` of
`(S_j + N · t_j)²`, with `S_j` the sum of coordinate `j` over the `N` points. -/
theorem ComputeFeasibilityError_translation_invariant (s : NonConvexMVU K) (t : ℕ → K)
    (hb : s.CoordinatesInBounds s.coordinates_) :
    ({ s with coordinates_ := translateColumns s.coordinates_ t }
        : NonConvexMVU K).ComputeFeasibilityError_.1
      = s.ComputeFeasibilityError_.1
    ∧ ({ s with coordinates_ := translateColumns s.coordinates_ t }
        : NonConvexMVU K).ComputeFeasibilityError_.2
      = ∑ j in Finset.range s.new_dimension_.toNat,
          (centeringConstraint s.coordinates_ j + s.coordinates_.n_cols * t j) ^ 2 := by
  have hcols : (translateColumns s.coordinates_ t).n_cols = s.coordinates_.n_cols :=
    (translateColumns_loop s.coordinates_ t s.coordinates_.n_cols).2.1
  rw [ComputeFeasibilityError_eq, ComputeFeasibilityError_eq]
  constructor
  · show ∑ i in Finset.range (translateColumns s.coordinates_ t).n_cols, _ = _
    rw [hcols]
    apply Finset.sum_congr rfl
    intro i hi
    apply Finset.sum_congr rfl
    intro k hk
    have hi' : i < s.coordinates_.n_cols := Finset.mem_range.mp hi
    have hn := hb.2 i k hi' (Finset.mem_range.mp hk)
    congr 1
    unfold distanceConstraint embeddedDistanceSq
    show ∑ r in Finset.range s.new_dimension_.toNat,
        ((translateColumns s.coordinates_ t).get r i
          - (translateColumns s.coordinates_ t).get r
              (s.neighbors_.get (i * s.knns_.toNat + k))) ^ 2
        - s.distances_.get (i * s.knns_.toNat + k) = _
    congr 1
    apply Finset.sum_congr rfl
    intro r hr
    have hr' : r < s.coordinates_.n_rows := lt_of_lt_of_le (Finset.mem_range.mp hr) hb.1
    rw [(translateColumns_get s.coordinates_ t r i hr' hi').2.2,
      (translateColumns_get s.coordinates_ t r _ hr' hn).2.2]
    ring
  · show ∑ j in Finset.range s.new_dimension_.toNat,
        centeringConstraint (translateColumns s.coordinates_ t) j ^ 2 = _
    apply Finset.sum_congr rfl
    intro j hj
    have hj' : j < s.coordinates_.n_rows := lt_of_lt_of_le (Finset.mem_range.mp hj) hb.1
    congr 1
    unfold centeringConstraint
    rw [hcols]
    have : ∀ i ∈ Finset.range s.coordinates_.n_cols,
        (translateColumns s.coordinates_ t).get j i = s.coordinates_.get j i + t j :=
      fun i hi => (translateColumns_get s.coordinates_ t j i hj' (Finset.mem_range.mp hi)).2.2
    rw [Finset.sum_congr rfl this, Finset.sum_add_distrib, Finset.sum_const, Finset.card_range,
      nsmul_eq_mul]

/-- C21, witness: `lineSearchState` with `3` added to every coordinate; the value of
`centering_constraint` does change. -/
theorem ComputeFeasibilityError_translation_invariant_witness :
    lineSearchState.CoordinatesInBounds lineSearchState.coordinates_
    ∧ ({ lineSearchState with
          coordinates_ := translateColumns lineSearchState.coordinates_ (fun _ => 3) }
        : NonConvexMVU ℚ).ComputeFeasibilityError_.1
      = lineSearchState.ComputeFeasibilityError_.1
    ∧ ({ lineSearchState with
          coordinates_ := translateColumns lineSearchState.coordinates_ (fun _ => 3) }
        : NonConvexMVU ℚ).ComputeFeasibilityError_.2
      ≠ lineSearchState.ComputeFeasibilityError_.2 :=
  ⟨lineSearchState_inBounds,
   (ComputeFeasibilityError_translation_invariant lineSearchState (fun _ => 3)
     lineSearchState_inBounds).1, by decide!⟩

/-! ## Index safety (C22) -/

theorem forLoop_inBounds (n : ℕ) (body : ℕ → List Access → List Access) (init : List Access)
    (h0 : ∀ a ∈ init, a.inBounds)
    (hstep : ∀ i, i < n → ∀ acc : List Access, (∀ a ∈ acc, a.inBounds) →
      ∀ a ∈ body i acc, a.inBounds) :
    ∀ a ∈ forLoop n body init, a.inBounds :=
  forLoop_induction (fun _ (acc : List Access) => ∀ a ∈ acc, a.inBounds) n body init h0 hstep

theorem pair_index_lt (N knns : ℤ) (size n i k : ℕ) (hn : (n : ℤ) = N)
    (hsize : (size : ℤ) = N * knns) (hi : i < n) (hk : k < knns.toNat) :
    i * knns.toNat + k < size ∧ i < size := by
  have hpos : 0 < knns := by
    by_contra h
    have : knns.toNat = 0 := Int.toNat_eq_zero.mpr (not_lt.mp h)
    omega
  have hsz : size = n * knns.toNat := by
    have : (size : ℤ) = ((n * knns.toNat : ℕ) : ℤ) := by
      rw [hsize, ← hn]
      push_cast
      rw [Int.toNat_of_nonneg hpos.le]
    exact_mod_cast this
  have h1 : (i + 1) * knns.toNat ≤ n * knns.toNat := Nat.mul_le_mul_right _ hi
  have h2 : (i + 1) * knns.toNat = i * knns.toNat + knns.toNat := by ring
  have h3 : i * 1 ≤ i * knns.toNat := Nat.mul_le_mul_left _ (by omega)
  omega

theorem append_inBounds (acc l : List Access) (h1 : ∀ a ∈ acc, a.inBounds)
    (h2 : ∀ a ∈ l, a.inBounds) : ∀ a ∈ acc ++ l, a.inBounds := by
  intro a ha
  rcases List.mem_append.mp ha with h | h
  · exact h1 a h
  · exact h2 a h

theorem ShapesSetUp_bounds (s : NonConvexMVU K) (h : s.ShapesSetUp) :
    s.new_dimension_.toNat = s.coordinates_.n_rows
    ∧ s.num_of_points_.toNat = s.coordinates_.n_cols
    ∧ s.gradient_.n_rows = s.coordinates_.n_rows
    ∧ s.gradient_.n_cols = s.coordinates_.n_cols
    ∧ s.centering_lagrange_mult_.length = s.coordinates_.n_rows
    ∧ ∀ i k, i < s.coordinates_.n_cols → k < s.knns_.toNat →
        i * s.knns_.toNat + k < s.neighbors_.size
        ∧ i * s.knns_.toNat + k < s.distances_.size
        ∧ i * s.knns_.toNat + k < s.lagrange_mult_.length
        ∧ i < s.lagrange_mult_.length
        ∧ s.neighbors_.get (i * s.knns_.toNat + k) < s.coordinates_.n_cols := by
  obtain ⟨h1, h2, h3, h4, h5, h6, h7, h8, h9⟩ := h
  refine ⟨by rw [← h1]; rfl, by rw [← h2]; rfl, ?_, ?_, ?_, ?_⟩
  · exact_mod_cast h3.trans h1.symm
  · exact_mod_cast h4.trans h2.symm
  · exact_mod_cast h9.trans h1.symm
  · intro i k hi hk
    have a1 := pair_index_lt _ _ _ _ i k h2 h5 hi hk
    have a2 := pair_index_lt _ _ _ _ i k h2 h6 hi hk
    have a3 := pair_index_lt _ _ _ _ i k h2 h8 hi hk
    refine ⟨a1.1, a2.1, a3.1, a3.2, ?_⟩
    have := h7 _ a1.1
    rw [← h2] at this
    exact_mod_cast this

theorem ComputeFeasibilityError_inBounds (s : NonConvexMVU K) (h : s.ShapesSetUp) :
    ∀ a ∈ s.ComputeFeasibilityError_accesses, a.inBounds := by
  obtain ⟨b1, b2, b3, b4, b5, b6⟩ := ShapesSetUp_bounds s h
  unfold ComputeFeasibilityError_accesses
  refine forLoop_inBounds _ _ _ (forLoop_inBounds _ _ _ (by simp) ?_) ?_
  · intro i hi acc hacc
    refine forLoop_inBounds _ _ _ (forLoop_inBounds _ _ _ hacc ?_) ?_
    · intro k hk acc hacc
      obtain ⟨c1, c2, c3, c4, c5⟩ := b6 i k hi hk
      refine append_inBounds _ _ hacc ?_
      simp [Access.inBounds, hi, c1, c2, c5, b1]
    · intro k hk acc hacc
      refine append_inBounds _ _ hacc ?_
      have hk' : k < s.coordinates_.n_rows := by rw [← b1]; exact hk
      simp [Access.inBounds, hi, hk, hk']
  · intro k hk acc hacc
    refine append_inBounds _ _ hacc ?_
    simp [Access.inBounds, hk]

theorem ComputeLagrangian_inBounds (s : NonConvexMVU K) (coord : Matrix K)
    (h : s.ShapesSetUp) (hr : coord.n_rows = s.coordinates_.n_rows)
    (hc : coord.n_cols = s.coordinates_.n_cols) :
    ∀ a ∈ s.ComputeLagrangian_accesses coord, a.inBounds := by
  obtain ⟨b1, b2, b3, b4, b5, b6⟩ := ShapesSetUp_bounds s h
  unfold ComputeLagrangian_accesses
  refine forLoop_inBounds _ _ _ (forLoop_inBounds _ _ _ (by simp) ?_) ?_
  · intro i hi acc hacc
    have hi' : i < s.coordinates_.n_cols := by rw [← hc]; exact hi
    refine forLoop_inBounds _ _ _ (forLoop_inBounds _ _ _ (append_inBounds _ _ hacc ?_) ?_) ?_
    · simp [Access.inBounds, hi, hr, b1]
    · intro k hk acc hacc
      obtain ⟨c1, c2, c3, c4, c5⟩ := b6 i k hi' hk
      refine append_inBounds _ _ hacc ?_
      simp [Access.inBounds, hi', c1, c2, c4, hc, c5, hr, b1]
    · intro k hk acc hacc
      refine append_inBounds _ _ hacc ?_
      have hk' : k < coord.n_rows := by rw [hr, ← b1]; exact hk
      simp [Access.inBounds, hi, hk, hk']
  · intro k hk acc hacc
    refine append_inBounds _ _ hacc ?_
    have hk' : k < s.centering_lagrange_mult_.length := by rw [b5, ← b1]; exact hk
    simp [Access.inBounds, hk, hk']

theorem ComputeGradient_inBounds (s : NonConvexMVU K) (h : s.ShapesSetUp) :
    ∀ a ∈ s.ComputeGradient_accesses, a.inBounds := by
  obtain ⟨b1, b2, b3, b4, b5, b6⟩ := ShapesSetUp_bounds s h
  unfold ComputeGradient_accesses
  refine forLoop_inBounds _ _ _ (forLoop_inBounds _ _ _ ?_ ?_) ?_
  · simp [Access.inBounds, b3, b4]
  · intro i hi acc hacc
    have hi' : i < s.coordinates_.n_cols := by rw [← b4]; exact hi
    refine forLoop_inBounds _ _ _ (forLoop_inBounds _ _ _ hacc ?_) ?_
    · intro k hk acc hacc
      obtain ⟨c1, c2, c3, c4, c5⟩ := b6 i k hi' hk
      refine append_inBounds _ _ hacc ?_
      simp [Access.inBounds, hi', c1, c2, c3, c5, b1, b3, b4]
    · intro k hk acc hacc
      refine append_inBounds _ _ hacc ?_
      have hk' : k < s.coordinates_.n_rows := by rw [← b1]; exact hk
      simp [Access.inBounds, hi', hk, hk', b3, b4, b5]
  · intro i hi acc hacc
    refine append_inBounds _ _ hacc ?_
    have hi' : i < s.coordinates_.n_cols := by rw [← b4]; exact hi
    simp [Access.inBounds, hi', b1, b3, b4]

theorem UpdateLagrangeMult_inBounds (s : NonConvexMVU K) (h : s.ShapesSetUp) :
    ∀ a ∈ s.UpdateLagrangeMult_accesses, a.inBounds := by
  obtain ⟨b1, b2, b3, b4, b5, b6⟩ := ShapesSetUp_bounds s h
  unfold UpdateLagrangeMult_accesses
  simp only []
  split
  · refine forLoop_inBounds _ _ _ (ComputeFeasibilityError_inBounds s h) ?_
    intro i hi acc hacc
    have hi' : i < s.coordinates_.n_cols := by rw [← b2]; exact hi
    refine forLoop_inBounds _ _ _ (forLoop_inBounds _ _ _ hacc ?_) ?_
    · intro j hj acc hacc
      refine append_inBounds _ _ hacc ?_
      have hj' : j < s.coordinates_.n_rows := by rw [← b1]; exact hj
      simp [Access.inBounds, hi', hj', b5]
    · intro k hk acc hacc
      obtain ⟨c1, c2, c3, c4, c5⟩ := b6 i k hi' hk
      refine append_inBounds _ _ hacc ?_
      simp [Access.inBounds, hi', c1, c2, c3, c5, b1]
  · exact ComputeFeasibilityError_inBounds s h

theorem ComputeLocalOptimum_Initialize_shapes (s : NonConvexMVU K) (rnd : ℕ → K)
    (hd : 0 ≤ s.new_dimension_) (hN : 0 ≤ s.num_of_points_)
    (hnb : (s.neighbors_.size : ℤ) = s.num_of_points_ * s.knns_)
    (hds : (s.distances_.size : ℤ) = s.num_of_points_ * s.knns_)
    (hlt : ∀ m, m < s.neighbors_.size → (s.neighbors_.get m : ℤ) < s.num_of_points_) :
    (s.ComputeLocalOptimum_Initialize rnd).ShapesSetUp := by
  have hmat : ∀ (n : ℕ) (body : ℕ → Matrix K × ℕ → Matrix K × ℕ) (init : Matrix K × ℕ),
      (∀ i t, (body i t).1.n_rows = t.1.n_rows ∧ (body i t).1.n_cols = t.1.n_cols) →
      (forLoop n body init).1.n_rows = init.1.n_rows
      ∧ (forLoop n body init).1.n_cols = init.1.n_cols := by
    intro n body init hbody
    exact forLoop_induction
      (fun _ (t : Matrix K × ℕ) => t.1.n_rows = init.1.n_rows ∧ t.1.n_cols = init.1.n_cols)
      n body init ⟨rfl, rfl⟩
      (fun i _ t ht => ⟨(hbody i t).1.trans ht.1, (hbody i t).2.trans ht.2⟩)
  have hvec : ∀ (n : ℕ) (body : ℕ → Vector K × ℕ → Vector K × ℕ) (init : Vector K × ℕ),
      (∀ i t, (body i t).1.length = t.1.length) →
      (forLoop n body init).1.length = init.1.length := by
    intro n body init hbody
    exact forLoop_induction (fun _ (t : Vector K × ℕ) => t.1.length = init.1.length)
      n body init rfl (fun i _ t ht => (hbody i t).trans ht)
  have hcoord := hmat s.new_dimension_.toNat
    (fun i acc => forLoop s.num_of_points_.toNat
      (fun j acc => (acc.1.set i j (rnd acc.2), acc.2 + 1)) acc)
    ((Matrix.Init s.new_dimension_.toNat s.num_of_points_.toNat : Matrix K), 0)
    (fun i t => hmat _ _ t (fun j u => ⟨rfl, rfl⟩))
  have hprod : 0 ≤ s.knns_ * s.num_of_points_ := by
    rw [mul_comm, ← hnb]
    exact Int.natCast_nonneg _
  refine ⟨?_, ?_, ?_, ?_, hnb, hds, hlt, ?_, ?_⟩
  · exact (congrArg Nat.cast hcoord.1).trans (Int.toNat_of_nonneg hd)
  · exact (congrArg Nat.cast hcoord.2).trans (Int.toNat_of_nonneg hN)
  · exact Int.toNat_of_nonneg hd
  · exact Int.toNat_of_nonneg hN
  · refine (congrArg Nat.cast (hvec _ _ _ ?_)).trans ?_
    · intro i t
      rfl
    · show (((s.knns_ * s.num_of_points_).toNat : ℕ) : ℤ) = _
      rw [Int.toNat_of_nonneg hprod, mul_comm]
      rfl
  · refine (congrArg Nat.cast (hvec _ _ _ ?_)).trans ?_
    · intro i t
      rfl
    · exact Int.toNat_of_nonneg hd

theorem lineSearchState_shapes : lineSearchState.ShapesSetUp := by
  refine ⟨by decide!, by decide!, by decide!, by decide!, by decide!, by decide!, ?_,
    by decide!, by decide!⟩
  intro m hm
  have hm' : m < 3 := hm
  interval_cases m <;> decide!

/-- C22.  On an object with the shapes that `Init` and `ComputeLocalOptimum` set up
(`coordinates_` and `gradient_` are `new_dimension_ x N`, `neighbors_` and `distances_` have
`N · knns_` elements with every neighbour index below `N`, `lagrange_mult_` has `N · knns_`
and `centering_lagrange_mult_` has `new_dimension_` elements, `N = num_of_points_`), every
access made by `ComputeFeasibilityError_`, by `ComputeLagrangian_` on a matrix of the shape
of `coordinates_`, by `ComputeGradient_` and by `UpdateLagrangeMult_` stays within its
container.  These are the shapes after the initialisation of `ComputeLocalOptimum` on an
object whose neighbourhoods have them. -/
theorem no_access_out_of_bounds (s : NonConvexMVU K) (h : s.ShapesSetUp) :
    (∀ a ∈ s.ComputeFeasibilityError_accesses, a.inBounds)
    ∧ (∀ coord : Matrix K, coord.n_rows = s.coordinates_.n_rows →
        coord.n_cols = s.coordinates_.n_cols →
        ∀ a ∈ s.ComputeLagrangian_accesses coord, a.inBounds)
    ∧ (∀ a ∈ s.ComputeGradient_accesses, a.inBounds)
    ∧ (∀ a ∈ s.UpdateLagrangeMult_accesses, a.inBounds)
    ∧ (∀ (u : NonConvexMVU K) (rnd : ℕ → K), 0 ≤ u.new_dimension_ → 0 ≤ u.num_of_points_ →
        (u.neighbors_.size : ℤ) = u.num_of_points_ * u.knns_ →
        (u.distances_.size : ℤ) = u.num_of_points_ * u.knns_ →
        (∀ m, m < u.neighbors_.size → (u.neighbors_.get m : ℤ) < u.num_of_points_) →
        (u.ComputeLocalOptimum_Initialize rnd).ShapesSetUp) :=
  ⟨ComputeFeasibilityError_inBounds s h,
   fun coord hr hc => ComputeLagrangian_inBounds s coord h hr hc,
   ComputeGradient_inBounds s h, UpdateLagrangeMult_inBounds s h,
   fun u rnd hd hN hnb hds hlt => ComputeLocalOptimum_Initialize_shapes u rnd hd hN hnb hds hlt⟩

/-- C22, witness: `lineSearchState`, an object set up by `ComputeLocalOptimum`; the `79`
accesses of `ComputeGradient_` on it are in bounds, also by evaluation. -/
theorem no_access_out_of_bounds_witness :
    lineSearchState.ShapesSetUp
    ∧ (∀ a ∈ lineSearchState.ComputeGradient_accesses, a.inBounds)
    ∧ lineSearchState.ComputeGradient_accesses.length = 79
    ∧ (lineSearchState.ComputeGradient_accesses.all (fun a => decide a.inBounds)) = true :=
  ⟨lineSearchState_shapes, (no_access_out_of_bounds lineSearchState lineSearchState_shapes).2.2.1,
   by decide!, by decide!⟩

end NonConvexMVU

/-! ## The test case `rosenbrock_wood_function` (C14) -/

namespace lbfgs_test

variable {K : Type} [LinearOrderedField K]

theorem rosenbrock_wood_function_assertions_eq (REQUIRE_CLOSE : K → K → K → Bool)
    (coords : arma.mat K) :
    rosenbrock_wood_function_assertions REQUIRE_CLOSE coords
      = (REQUIRE_CLOSE (coords.mem 0) 1 (1 / 100000)
          && REQUIRE_CLOSE (coords.mem 1) 1 (1 / 100000)) := by
  simp only [rosenbrock_wood_function_assertions, forLoop, comma, arma.mat.index,
    List.range_succ, List.range_zero, List.nil_append, List.cons_append, List.foldl_cons,
    List.foldl_nil]
  cases REQUIRE_CLOSE (coords.mem 0) 1 (1 / 100000) <;>
    cases REQUIRE_CLOSE (coords.mem 1) 1 (1 / 100000) <;> rfl

/-- C14, the code at the failing input `sixFives`.  In `coords[row, 0]` and `coords[row, 1]`
the subscripts are comma expressions with the values `0` and `1`, so in every round of the
loop the two assertions read the elements `0` and `1` of the storage, which are the entries
`(0, 0)` and `(1, 0)`: the outcome of the eight assertions is that of the checks on these two
elements, whatever the closeness check is.  On `sixFives`, whose six other entries are `5`,
all assertions pass as soon as `1` is close to `1`, whereas the assertions on the elements
`(row, 0)` and `(row, 1)` fail. -/
theorem rosenbrock_wood_function_compares_two_entries :
    (∀ (REQUIRE_CLOSE : K → K → K → Bool) (coords : arma.mat K),
      rosenbrock_wood_function_assertions REQUIRE_CLOSE coords
        = (REQUIRE_CLOSE (coords.mem 0) 1 (1 / 100000)
            && REQUIRE_CLOSE (coords.mem 1) 1 (1 / 100000)))
    ∧ (∀ (REQUIRE_CLOSE : ℚ → ℚ → ℚ → Bool),
        rosenbrock_wood_function_assertions REQUIRE_CLOSE sixFives
          = REQUIRE_CLOSE 1 1 (1 / 100000))
    ∧ rosenbrock_wood_function_assertions exactlyEqual sixFives = true
    ∧ rosenbrock_wood_function_assertions_spec exactlyEqual sixFives = false
    ∧ sixFives.at 2 0 = 5 ∧ sixFives.at 3 0 = 5
    ∧ (∀ r, r < 4 → sixFives.at r 1 = 5) := by
  refine ⟨rosenbrock_wood_function_assertions_eq, ?_, by decide!, by decide!, by decide!,
    by decide!, ?_⟩
  · intro c
    rw [rosenbrock_wood_function_assertions_eq]
    show (c 1 1 (1 / 100000) && c 1 1 (1 / 100000)) = _
    cases c 1 1 (1 / 100000) <;> rfl
  · intro r hr
    interval_cases r <;> decide!

end lbfgs_test

end fastlib
